import Mathlib

/-!
# Verification of the half-edge mesh edit operations

This file gives a shallow embedding, in Lean 4, of the half-edge mesh edit
operations of `src/mesh/halfedge/edit_ops.rs`, together with proofs about
them.  The half-edge store itself (generational arenas, traversal queries)
is not part of the sources; those parts are modelled from the specification
(sections 3, 4.A-4.C), as indicated by `Modelled from the spec:` comments.

Modelling conventions:
* element ids (`VertexId`, `HalfEdgeId`, `FaceId`) are natural numbers;
* each arena is a `List (Option payload)`; the id of an element is its index,
  allocation appends at the end, removal overwrites the slot with `none`.
  Slots are never reused, which realises the generational-index discipline
  "a freed slot's generation bumps" up to handle identity;
* vertex positions live in an arbitrary type `P`; the floating point vector
  arithmetic of the sources (`lerp`, `+`, `-`, `normalize`) is abstracted
  into a record `GeomOps P` of uninterpreted position operations, since no
  connectivity claim depends on numeric values.  Scalar arguments of the
  operations (interpolation factors, bevel amounts) are modelled as `ℚ`;
* `&mut self` operations are embedded as functions
  `Mesh P → args → (Except Err α) × Mesh P`: the returned mesh reflects all
  mutations performed before an early `?` return (the sources do not roll
  back partial mutations);
* indexing panics (`mesh[h]` on a dead handle, `.unwrap()`, `.end()`) are
  modelled as errors or as no-op writes; all verified code paths prove the
  relevant handles live, so the choice is invisible to the theorems;
* debug marks (`add_debug_vertex` and friends) are pure visualization
  attachments with no connectivity effect and are not modelled.
-/

/-! ## Arenas -/

/-- Modelled from the spec: a slot of a generational arena (§4.A); `none` is
a freed or never-allocated slot. Lookup of an out-of-range or freed id. -/
def aget {α : Type} (l : List (Option α)) (i : Nat) : Option α :=
  (l.getD i none)

theorem aget_append_lt {α : Type} (l : List (Option α)) (x : Option α) (i : Nat)
    (h : i < l.length) : aget (l ++ [x]) i = aget l i := by
  simp [aget, List.getD, List.getElem?_append, h]

theorem aget_append_self {α : Type} (l : List (Option α)) (x : Option α) :
    aget (l ++ [x]) l.length = x := by
  simp [aget, List.getD]

theorem aget_set_self {α : Type} (l : List (Option α)) (x : Option α) (i : Nat)
    (h : i < l.length) : aget (l.set i x) i = x := by
  simp [aget, List.getD, List.getElem?_set_self, h]

theorem aget_set_ne {α : Type} (l : List (Option α)) (x : Option α) (i j : Nat)
    (h : i ≠ j) : aget (l.set i x) j = aget l j := by
  simp [aget, List.getD, List.getElem?_set_ne h]

theorem aget_lt_length {α : Type} {l : List (Option α)} {i : Nat} {a : α}
    (h : aget l i = some a) : i < l.length := by
  by_contra hc
  simp [aget, List.getD, List.getElem?_eq_none (Nat.le_of_not_lt hc)] at h

theorem aget_ge_length {α : Type} (l : List (Option α)) (i : Nat)
    (h : l.length ≤ i) : aget l i = none := by
  simp [aget, List.getD, List.getElem?_eq_none h]

theorem length_set_arena {α : Type} (l : List (Option α)) (i : Nat) (x : Option α) :
    (l.set i x).length = l.length := by simp

/-! ## Data model

Modelled from the spec (§3): three element kinds; a half-edge carries four
optional handles, a vertex a position and an optional outgoing half-edge,
a face an optional boundary half-edge. -/

structure HalfEdgeData where
  vertex : Option Nat
  face : Option Nat
  twin : Option Nat
  next : Option Nat
deriving DecidableEq

/-- `HalfEdge::default()` of the sources: all four handles unset. -/
def defaultHalfEdge : HalfEdgeData := ⟨none, none, none, none⟩

structure VertexData (P : Type) where
  position : P
  halfedge : Option Nat
deriving DecidableEq

structure FaceData where
  halfedge : Option Nat
deriving DecidableEq

/-- Modelled from the spec: the half-edge store (§4.B) wraps three arenas. -/
structure Mesh (P : Type) where
  vertices : List (Option (VertexData P))
  halfedges : List (Option HalfEdgeData)
  faces : List (Option FaceData)
deriving DecidableEq

/-- The uninterpreted position arithmetic used by the operations (glam `Vec3`
float operations in the sources). -/
structure GeomOps (P : Type) where
  lerp : P → P → ℚ → P
  add : P → P → P
  sub : P → P → P
  smul : ℚ → P → P
  normalize : P → P

variable {P : Type}

def heAt (m : Mesh P) (h : Nat) : Option HalfEdgeData := aget m.halfedges h

def vAt (m : Mesh P) (v : Nat) : Option (VertexData P) := aget m.vertices v

def fAt (m : Mesh P) (f : Nat) : Option FaceData := aget m.faces f

/-- Modelled from the spec: `alloc_halfedge` (§4.B); fresh id = arena length. -/
def allocHalfedge (m : Mesh P) (e : HalfEdgeData) : Nat × Mesh P :=
  (m.halfedges.length, { m with halfedges := m.halfedges ++ [some e] })

def allocVertex (m : Mesh P) (pos : P) (h : Option Nat) : Nat × Mesh P :=
  (m.vertices.length, { m with vertices := m.vertices ++ [some ⟨pos, h⟩] })

def allocFace (m : Mesh P) (h : Option Nat) : Nat × Mesh P :=
  (m.faces.length, { m with faces := m.faces ++ [some ⟨h⟩] })

/-- Modelled from the spec: `remove_halfedge`; frees the slot. A remove of a
dead handle is a no-op here (the sources detect and reject it; no verified
path removes a dead handle). -/
def removeHalfedge (m : Mesh P) (h : Nat) : Mesh P :=
  { m with halfedges := m.halfedges.set h none }

def removeVertex (m : Mesh P) (v : Nat) : Mesh P :=
  { m with vertices := m.vertices.set v none }

def removeFace (m : Mesh P) (f : Nat) : Mesh P :=
  { m with faces := m.faces.set f none }

/-- Modelled from the spec: the indexed write `mesh[h].field = v` (§4.B).
Writing through a dead handle panics in the sources; embedded as a no-op,
unreachable on verified paths (liveness is proved at every use). -/
def updHE (m : Mesh P) (h : Nat) (g : HalfEdgeData → HalfEdgeData) : Mesh P :=
  match aget m.halfedges h with
  | some e => { m with halfedges := m.halfedges.set h (some (g e)) }
  | none => m

def updV (m : Mesh P) (v : Nat) (g : VertexData P → VertexData P) : Mesh P :=
  match aget m.vertices v with
  | some e => { m with vertices := m.vertices.set v (some (g e)) }
  | none => m

def updF (m : Mesh P) (f : Nat) (g : FaceData → FaceData) : Mesh P :=
  match aget m.faces f with
  | some e => { m with faces := m.faces.set f (some (g e)) }
  | none => m

/-- `mesh[h].twin = t` -/
def setTwin (m : Mesh P) (h : Nat) (t : Option Nat) : Mesh P :=
  updHE m h (fun e => { e with twin := t })

/-- `mesh[h].next = n` -/
def setNext (m : Mesh P) (h : Nat) (n : Option Nat) : Mesh P :=
  updHE m h (fun e => { e with next := n })

/-- `mesh[h].vertex = v` -/
def setVertexField (m : Mesh P) (h : Nat) (v : Option Nat) : Mesh P :=
  updHE m h (fun e => { e with vertex := v })

/-- `mesh[h].face = f` -/
def setFaceField (m : Mesh P) (h : Nat) (f : Option Nat) : Mesh P :=
  updHE m h (fun e => { e with face := f })

/-- `mesh[v].halfedge = h` -/
def setVertexHalfedge (m : Mesh P) (v : Nat) (h : Option Nat) : Mesh P :=
  updV m v (fun e => { e with halfedge := h })

/-- `mesh[f].halfedge = h` -/
def setFaceHalfedge (m : Mesh P) (f : Nat) (h : Option Nat) : Mesh P :=
  updF m f (fun e => { e with halfedge := h })

/-- `mesh.update_vertex_position(v, g)` -/
def updatePosition (m : Mesh P) (v : Nat) (g : P → P) : Mesh P :=
  updV m v (fun e => { e with position := g e.position })

/-! ## Errors

Modelled from the spec (§7): the error taxonomy.  Traversal steps that the
sources evaluate with a panicking `.end()` or `.unwrap()` are embedded as the
corresponding traversal error; verified paths prove them unreachable. -/

inductive Err where
  | missingTwin
  | missingNext
  | missingFace
  | missingHalfedge
  | halfedgeHasNoFace
  | halfedgeFromToNotFound
  | cycleExceeded
  | verticesShareNoFace
  | verticesAlreadyConnected
  | faceTooSmallToCut
  | isolatedVertex
  | boundaryEdgeNotAllowed
deriving DecidableEq

/-! ## Traversal

Modelled from the spec (§4.C): the chained query steps used by the edit
operations, as total functions with explicit fuel where the sources loop. -/

/-- `at_halfedge(h).twin()` -/
def twinOf (m : Mesh P) (h : Nat) : Option Nat := (heAt m h).bind (·.twin)

/-- `at_halfedge(h).next()` -/
def nextOf (m : Mesh P) (h : Nat) : Option Nat := (heAt m h).bind (·.next)

/-- `at_halfedge(h).vertex()` (start vertex) -/
def vertexOf (m : Mesh P) (h : Nat) : Option Nat := (heAt m h).bind (·.vertex)

/-- `at_halfedge(h).face()` -/
def faceOf (m : Mesh P) (h : Nat) : Option Nat := (heAt m h).bind (·.face)

/-- Destination vertex: start vertex of the twin. -/
def dstOf (m : Mesh P) (h : Nat) : Option Nat := (twinOf m h).bind (vertexOf m)

/-- `at_halfedge(h).src_dst_pair()` -/
def srcDstPair (m : Mesh P) (h : Nat) : Except Err (Nat × Nat) :=
  match vertexOf m h, dstOf m h with
  | some v, some w => .ok (v, w)
  | _, _ => .error Err.missingHalfedge

/-- `at_halfedge(h).is_boundary()`: the incident face is absent. -/
def isBoundaryHE (m : Mesh P) (h : Nat) : Bool := (faceOf m h).isNone

/-- `mesh.vertex_position(v)`; panics on a dead handle in the sources
(total here via `Option`, proved live at every verified use). -/
def positionOf (m : Mesh P) (v : Nat) : Option P := (vAt m v).map (·.position)

/-- One fan step around a vertex: `cycle_around_fan` = `twin().next()`. -/
def fanStep (m : Mesh P) (h : Nat) : Option Nat := (twinOf m h).bind (nextOf m)

/-- Walk of `previous()`: from `cur`, follow `next` until the half-edge whose
`next` is `h` (the start); fuel bounds the walk. -/
def prevWalk (m : Mesh P) (h : Nat) : Nat → Nat → Option Nat
  | 0, _ => none
  | fuel + 1, cur =>
    match nextOf m cur with
    | none => none
    | some n => if n = h then some cur else prevWalk m h fuel n

/-- `at_halfedge(h).previous()`: `next` is followed all the way around the
loop (O(face valence) per the spec). -/
def prevOf (m : Mesh P) (h : Nat) : Option Nat :=
  prevWalk m h (m.halfedges.length + 1) h

/-- Collector for `mesh.halfedge_loop(h0)`: `cur` plus the `next`-successors
until `h0` reappears or a link is missing or fuel runs out. -/
def loopWalk (m : Mesh P) (h0 : Nat) : Nat → Nat → List Nat
  | 0, cur => [cur]
  | fuel + 1, cur =>
    cur :: (match nextOf m cur with
      | none => []
      | some n => if n = h0 then [] else loopWalk m h0 fuel n)

/-- `mesh.halfedge_loop(h0)`: the face (or boundary) cycle starting at `h0`. -/
def halfedgeLoop (m : Mesh P) (h0 : Nat) : List Nat :=
  loopWalk m h0 m.halfedges.length h0

/-- `mesh.face_edges(f)` / `at_face(f).halfedges()`. -/
def faceEdges (m : Mesh P) (f : Nat) : List Nat :=
  match (fAt m f).bind (·.halfedge) with
  | some h0 => halfedgeLoop m h0
  | none => []

/-- `mesh.face_vertices(f)` / `at_face(f).vertices()`. -/
def faceVertices (m : Mesh P) (f : Nat) : List Nat :=
  (faceEdges m f).filterMap (vertexOf m)

/-- Collector for the vertex fan: from `cur`, repeatedly `twin().next()`
until `h0` reappears; `none` on a broken link or fuel exhaustion. -/
def fanWalk (m : Mesh P) (h0 : Nat) : Nat → Nat → Option (List Nat)
  | 0, _ => none
  | fuel + 1, cur =>
    match fanStep m cur with
    | none => none
    | some n => if n = h0 then some [cur] else (fanWalk m h0 fuel n).map (cur :: ·)

/-- `at_vertex(v).outgoing_halfedges()`: empty for a vertex with no
half-edge; otherwise the fan from `v.halfedge`. -/
def outgoingHalfedges (m : Mesh P) (v : Nat) : Except Err (List Nat) :=
  match vAt m v with
  | none => .error Err.missingHalfedge
  | some vd =>
    match vd.halfedge with
    | none => .ok []
    | some h0 =>
      match fanWalk m h0 (m.halfedges.length + 1) h0 with
      | some l => .ok l
      | none => .error Err.cycleExceeded

/-- `at_vertex(v).incoming_halfedges()`: the twins of the outgoing fan. -/
def incomingHalfedges (m : Mesh P) (v : Nat) : Except Err (List Nat) :=
  match outgoingHalfedges m v with
  | .error e => .error e
  | .ok l =>
    match l.mapM (twinOf m) with
    | some tws => .ok tws
    | none => .error Err.missingTwin

/-- `at_vertex(v).halfedge_to(w)`: the outgoing half-edge of `v` whose
destination is `w`. -/
def halfedgeTo (m : Mesh P) (v w : Nat) : Except Err Nat :=
  match outgoingHalfedges m v with
  | .error e => .error e
  | .ok l =>
    match l.find? (fun h => dstOf m h = some w) with
    | some h => .ok h
    | none => .error Err.halfedgeFromToNotFound

/-! ## Read-after-write lemmas -/

theorem heAt_updHE_self (m : Mesh P) (a : Nat) (g : HalfEdgeData → HalfEdgeData) :
    heAt (updHE m a g) a = (heAt m a).map g := by
  unfold updHE heAt
  cases hm : aget m.halfedges a with
  | none => simp [hm]
  | some e => simp [hm, aget_set_self _ _ _ (aget_lt_length hm)]

theorem heAt_updHE_ne (m : Mesh P) (a : Nat) (g : HalfEdgeData → HalfEdgeData)
    (h : Nat) (hne : h ≠ a) : heAt (updHE m a g) h = heAt m h := by
  unfold updHE heAt
  cases hm : aget m.halfedges a with
  | none => simp [hm]
  | some e => simp [hm, aget_set_ne _ _ _ _ (fun he => hne he.symm)]

theorem vertices_updHE (m : Mesh P) (a : Nat) (g : HalfEdgeData → HalfEdgeData) :
    (updHE m a g).vertices = m.vertices := by
  unfold updHE; cases aget m.halfedges a <;> rfl

theorem faces_updHE (m : Mesh P) (a : Nat) (g : HalfEdgeData → HalfEdgeData) :
    (updHE m a g).faces = m.faces := by
  unfold updHE; cases aget m.halfedges a <;> rfl

theorem length_he_updHE (m : Mesh P) (a : Nat) (g : HalfEdgeData → HalfEdgeData) :
    (updHE m a g).halfedges.length = m.halfedges.length := by
  unfold updHE; cases aget m.halfedges a <;> simp

theorem vAt_updV_self (m : Mesh P) (a : Nat) (g : VertexData P → VertexData P) :
    vAt (updV m a g) a = (vAt m a).map g := by
  unfold updV vAt
  cases hm : aget m.vertices a with
  | none => simp [hm]
  | some e => simp [hm, aget_set_self _ _ _ (aget_lt_length hm)]

theorem vAt_updV_ne (m : Mesh P) (a : Nat) (g : VertexData P → VertexData P)
    (v : Nat) (hne : v ≠ a) : vAt (updV m a g) v = vAt m v := by
  unfold updV vAt
  cases hm : aget m.vertices a with
  | none => simp [hm]
  | some e => simp [hm, aget_set_ne _ _ _ _ (fun he => hne he.symm)]

theorem halfedges_updV (m : Mesh P) (a : Nat) (g : VertexData P → VertexData P) :
    (updV m a g).halfedges = m.halfedges := by
  unfold updV; cases aget m.vertices a <;> rfl

theorem faces_updV (m : Mesh P) (a : Nat) (g : VertexData P → VertexData P) :
    (updV m a g).faces = m.faces := by
  unfold updV; cases aget m.vertices a <;> rfl

theorem length_v_updV (m : Mesh P) (a : Nat) (g : VertexData P → VertexData P) :
    (updV m a g).vertices.length = m.vertices.length := by
  unfold updV; cases aget m.vertices a <;> simp

theorem fAt_updF_self (m : Mesh P) (a : Nat) (g : FaceData → FaceData) :
    fAt (updF m a g) a = (fAt m a).map g := by
  unfold updF fAt
  cases hm : aget m.faces a with
  | none => simp [hm]
  | some e => simp [hm, aget_set_self _ _ _ (aget_lt_length hm)]

theorem fAt_updF_ne (m : Mesh P) (a : Nat) (g : FaceData → FaceData)
    (f : Nat) (hne : f ≠ a) : fAt (updF m a g) f = fAt m f := by
  unfold updF fAt
  cases hm : aget m.faces a with
  | none => simp [hm]
  | some e => simp [hm, aget_set_ne _ _ _ _ (fun he => hne he.symm)]

theorem halfedges_updF (m : Mesh P) (a : Nat) (g : FaceData → FaceData) :
    (updF m a g).halfedges = m.halfedges := by
  unfold updF; cases aget m.faces a <;> rfl

theorem vertices_updF (m : Mesh P) (a : Nat) (g : FaceData → FaceData) :
    (updF m a g).vertices = m.vertices := by
  unfold updF; cases aget m.faces a <;> rfl

theorem length_f_updF (m : Mesh P) (a : Nat) (g : FaceData → FaceData) :
    (updF m a g).faces.length = m.faces.length := by
  unfold updF; cases aget m.faces a <;> simp

theorem heAt_alloc_self (m : Mesh P) (e : HalfEdgeData) :
    heAt (allocHalfedge m e).2 m.halfedges.length = some e := by
  unfold allocHalfedge heAt; exact aget_append_self _ _

theorem heAt_alloc_ne (m : Mesh P) (e : HalfEdgeData) (h : Nat)
    (hne : h ≠ m.halfedges.length) : heAt (allocHalfedge m e).2 h = heAt m h := by
  unfold allocHalfedge heAt
  rcases Nat.lt_or_ge h m.halfedges.length with hlt | hge
  · exact aget_append_lt _ _ _ hlt
  · have hgt : m.halfedges.length < h := Nat.lt_of_le_of_ne hge (fun a => hne a.symm)
    rw [aget_ge_length _ _ (Nat.le_of_lt hgt), aget_ge_length]
    simp; omega

theorem vAt_allocV_self (m : Mesh P) (p : P) (h0 : Option Nat) :
    vAt (allocVertex m p h0).2 m.vertices.length = some ⟨p, h0⟩ := by
  unfold allocVertex vAt; exact aget_append_self _ _

theorem vAt_allocV_ne (m : Mesh P) (p : P) (h0 : Option Nat) (v : Nat)
    (hne : v ≠ m.vertices.length) : vAt (allocVertex m p h0).2 v = vAt m v := by
  unfold allocVertex vAt
  rcases Nat.lt_or_ge v m.vertices.length with hlt | hge
  · exact aget_append_lt _ _ _ hlt
  · have hgt : m.vertices.length < v := Nat.lt_of_le_of_ne hge (fun a => hne a.symm)
    rw [aget_ge_length _ _ (Nat.le_of_lt hgt), aget_ge_length]
    simp; omega

theorem fAt_allocF_self (m : Mesh P) (h0 : Option Nat) :
    fAt (allocFace m h0).2 m.faces.length = some ⟨h0⟩ := by
  unfold allocFace fAt; exact aget_append_self _ _

theorem fAt_allocF_ne (m : Mesh P) (h0 : Option Nat) (f : Nat)
    (hne : f ≠ m.faces.length) : fAt (allocFace m h0).2 f = fAt m f := by
  unfold allocFace fAt
  rcases Nat.lt_or_ge f m.faces.length with hlt | hge
  · exact aget_append_lt _ _ _ hlt
  · have hgt : m.faces.length < f := Nat.lt_of_le_of_ne hge (fun a => hne a.symm)
    rw [aget_ge_length _ _ (Nat.le_of_lt hgt), aget_ge_length]
    simp; omega

theorem heAt_remove_self (m : Mesh P) (a : Nat) :
    heAt (removeHalfedge m a) a = none := by
  unfold removeHalfedge heAt
  rcases Nat.lt_or_ge a m.halfedges.length with hlt | hge
  · exact aget_set_self _ _ _ hlt
  · rw [List.set_eq_of_length_le hge]; exact aget_ge_length _ _ hge

theorem heAt_remove_ne (m : Mesh P) (a h : Nat) (hne : h ≠ a) :
    heAt (removeHalfedge m a) h = heAt m h := by
  unfold removeHalfedge heAt
  exact aget_set_ne _ _ _ _ (fun he => hne he.symm)

theorem vAt_removeV_self (m : Mesh P) (a : Nat) :
    vAt (removeVertex m a) a = none := by
  unfold removeVertex vAt
  rcases Nat.lt_or_ge a m.vertices.length with hlt | hge
  · exact aget_set_self _ _ _ hlt
  · rw [List.set_eq_of_length_le hge]; exact aget_ge_length _ _ hge

theorem vAt_removeV_ne (m : Mesh P) (a v : Nat) (hne : v ≠ a) :
    vAt (removeVertex m a) v = vAt m v := by
  unfold removeVertex vAt
  exact aget_set_ne _ _ _ _ (fun he => hne he.symm)

theorem fAt_removeF_self (m : Mesh P) (a : Nat) :
    fAt (removeFace m a) a = none := by
  unfold removeFace fAt
  rcases Nat.lt_or_ge a m.faces.length with hlt | hge
  · exact aget_set_self _ _ _ hlt
  · rw [List.set_eq_of_length_le hge]; exact aget_ge_length _ _ hge

theorem fAt_removeF_ne (m : Mesh P) (a f : Nat) (hne : f ≠ a) :
    fAt (removeFace m a) f = fAt m f := by
  unfold removeFace fAt
  exact aget_set_ne _ _ _ _ (fun he => hne he.symm)

/-! ## Read combinators -/

theorem ebind_ok {ε α β : Type} (a : α) (f : α → Except ε β) :
    (Except.ok a >>= f) = f a := rfl

theorem ebind_err {ε α β : Type} (e : ε) (f : α → Except ε β) :
    ((Except.error e : Except ε α) >>= f) = .error e := rfl

/-- `at_halfedge(h).twin().try_end()` -/
def exTwin (m : Mesh P) (h : Nat) : Except Err Nat :=
  match twinOf m h with
  | some t => .ok t
  | none => .error Err.missingTwin

/-- `at_halfedge(h).next().try_end()` -/
def exNext (m : Mesh P) (h : Nat) : Except Err Nat :=
  match nextOf m h with
  | some n => .ok n
  | none => .error Err.missingNext

/-- `at_halfedge(h).face().try_end()`; per the sources, a missing face
surfaces as `HalfedgeHasNoFace`. -/
def exFace (m : Mesh P) (h : Nat) : Except Err Nat :=
  match faceOf m h with
  | some f => .ok f
  | none => .error Err.halfedgeHasNoFace

/-- `at_halfedge(h).vertex().try_end()` -/
def exVertex (m : Mesh P) (h : Nat) : Except Err Nat :=
  match vertexOf m h with
  | some v => .ok v
  | none => .error Err.missingHalfedge

/-- `at_halfedge(h).previous().try_end()` -/
def exPrev (m : Mesh P) (h : Nat) : Except Err Nat :=
  match prevOf m h with
  | some p => .ok p
  | none => .error Err.missingNext

/-- `at_halfedge(h).cycle_around_fan().try_end()` -/
def exFanStep (m : Mesh P) (h : Nat) : Except Err Nat :=
  match fanStep m h with
  | some n => .ok n
  | none => .error Err.missingNext

/-- `src_dst_pair` as `Except` (the sources `.unwrap()` it in
`dissolve_edge`; panic modelled as the error). -/
def exSrcDst (m : Mesh P) (h : Nat) : Except Err (Nat × Nat) := srcDstPair m h

/-- `mesh.vertex_position(v)` with the dead-handle panic as an error. -/
def exPosition (m : Mesh P) (v : Nat) : Except Err P :=
  match positionOf m v with
  | some p => .ok p
  | none => .error Err.missingHalfedge

/-! ## `dissolve_edge`

Removes `h_l` and its twin `h_r`, merging their faces; the L side face is
kept.  All fallible reads precede the first mutation in the sources, so an
error leaves the mesh untouched. -/

def dissolveEdgeReads (m : Mesh P) (h_l : Nat) :
    Except Err (Nat × Nat × Nat × Nat × Nat × Nat × Nat × Nat × Nat) := do
  let h_r ← exTwin m h_l
  let f_l ← exFace m h_l
  let f_r ← exFace m h_r
  let (v, w) ← exSrcDst m h_l
  let h_l_nxt ← exNext m h_l
  let h_l_prv ← exPrev m h_l
  let h_r_nxt ← exNext m h_r
  let h_r_prv ← exPrev m h_r
  pure (h_r, f_l, f_r, v, w, h_l_nxt, h_l_prv, h_r_nxt, h_r_prv)

def dissolveEdge (m : Mesh P) (h_l : Nat) : (Except Err Unit) × Mesh P :=
  match dissolveEdgeReads m h_l with
  | .error e => (.error e, m)
  | .ok (h_r, f_l, f_r, v, w, h_l_nxt, h_l_prv, h_r_nxt, h_r_prv) =>
    let halfedges_r := halfedgeLoop m h_r
    let m1 := setNext m h_r_prv (some h_l_nxt)
    let m2 := setNext m1 h_l_prv (some h_r_nxt)
    let m3 := halfedges_r.foldl (fun mm hh => setFaceField mm hh (some f_l)) m2
    let m4 := if (fAt m3 f_l).bind (·.halfedge) = some h_l
      then setFaceHalfedge m3 f_l (some h_l_prv) else m3
    let m5 := if (vAt m4 v).bind (·.halfedge) = some h_l
      then setVertexHalfedge m4 v (some h_l_nxt) else m4
    let m6 := if (vAt m5 w).bind (·.halfedge) = some h_r
      then setVertexHalfedge m5 w (some h_r_nxt) else m5
    (.ok (), removeFace (removeHalfedge (removeHalfedge m6 h_l) h_r) f_r)

/-! ## `divide_edge`

Divides an edge, creating a vertex in between and a new pair of halfedges.
Id stability: `h` remains on the second half (from the new vertex `x` to the
original destination `w`); the new edge runs from `v` to `x`. -/

def divideEdgeReads (m : Mesh P) (h_l : Nat) :
    Except Err (Nat × Nat × Nat × Nat × Nat) := do
  let h_r ← exTwin m h_l
  let h_l_prev ← exPrev m h_l
  let h_r_next ← exNext m h_r
  let (v, w) ← exSrcDst m h_l
  pure (h_r, h_l_prev, h_r_next, v, w)

/-- The write phase of `divide_edge`, after all reads succeeded. -/
def divideWrites (m : Mesh P) (h_l h_r h_l_prev h_r_next v w : Nat) (pos : P) :
    Nat × Mesh P :=
  let f_l := faceOf m h_l
  let f_r := faceOf m h_r
  let (x, ma) := allocVertex m pos none
  let (h_l_2, mb) := allocHalfedge ma defaultHalfEdge
  let (h_r_2, mc) := allocHalfedge mb defaultHalfEdge
  let m1 := setNext mc h_l_2 (some h_l)
  let m2 := setNext m1 h_l_prev (some h_l_2)
  let m3 := setNext m2 h_r (some h_r_2)
  let m4 := setNext m3 h_r_2 (some h_r_next)
  let m5 := setTwin m4 h_l_2 (some h_r_2)
  let m6 := setTwin m5 h_r_2 (some h_l_2)
  let m7 := setTwin m6 h_l (some h_r)
  let m8 := setTwin m7 h_r (some h_l)
  let m9 := setVertexField m8 h_l (some x)
  let m10 := setVertexField m9 h_r (some w)
  let m11 := setVertexField m10 h_r_2 (some x)
  let m12 := setVertexField m11 h_l_2 (some v)
  let m13 := setFaceField m12 h_l_2 f_l
  let m14 := setFaceField m13 h_r_2 f_r
  let m15 := setVertexHalfedge m14 x (some h_l)
  let m16 := setVertexHalfedge m15 v (some h_l_2)
  (x, m16)

def divideEdge (G : GeomOps P) (m : Mesh P) (h_l : Nat) (t : ℚ) :
    (Except Err Nat) × Mesh P :=
  match divideEdgeReads m h_l with
  | .error e => (.error e, m)
  | .ok (h_r, h_l_prev, h_r_next, v, w) =>
    match positionOf m v, positionOf m w with
    | some v_pos, some w_pos =>
      let pos := G.lerp v_pos w_pos t
      let r := divideWrites m h_l h_r h_l_prev h_r_next v w pos
      (.ok r.1, r.2)
    | _, _ => (.error Err.missingHalfedge, m)

/-! ## `duplicate_edge`

Creates a 2-sided face on the inside of this edge; the two new halfedges
cross-twin with the two original ones. -/

def duplicateEdgeWrites (m : Mesh P) (h v w h_w_v : Nat) : Nat × Mesh P :=
  let h_v_w := h
  let (h2_v_w, ma) := allocHalfedge m defaultHalfEdge
  let (h2_w_v, mb) := allocHalfedge ma defaultHalfEdge
  let (inner_face, mc) := allocFace mb (some h2_v_w)
  let m1 := setFaceField mc h2_v_w (some inner_face)
  let m2 := setFaceField m1 h2_w_v (some inner_face)
  let m3 := setNext m2 h2_v_w (some h2_w_v)
  let m4 := setNext m3 h2_w_v (some h2_v_w)
  let m5 := setVertexField m4 h2_v_w (some v)
  let m6 := setVertexField m5 h2_w_v (some w)
  let m7 := setTwin m6 h2_v_w (some h_w_v)
  let m8 := setTwin m7 h2_w_v (some h_v_w)
  let m9 := setTwin m8 h_w_v (some h2_v_w)
  let m10 := setTwin m9 h_v_w (some h2_w_v)
  (h2_v_w, m10)

def duplicateEdge (m : Mesh P) (h : Nat) : (Except Err Nat) × Mesh P :=
  match (do
      let (v, w) ← exSrcDst m h
      let h_w_v ← exTwin m h
      pure (v, w, h_w_v) : Except Err (Nat × Nat × Nat)) with
  | .error e => (.error e, m)
  | .ok (v, w, h_w_v) =>
    let r := duplicateEdgeWrites m h v w h_w_v
    (.ok r.1, r.2)

/-! ## `collapse_edge`

Merges the src and dst vertices of `h` so that only the first one remains. -/

/-- The `if let Ok(f) = f { if at_face(f).halfedge()? == h { mesh[f].halfedge = repl } }`
pattern of `collapse_edge`. -/
def fixFaceRef (m : Mesh P) (fOpt : Option Nat) (h repl : Nat) :
    (Except Err Unit) × Mesh P :=
  match fOpt with
  | none => (.ok (), m)
  | some f =>
    match (fAt m f).bind (·.halfedge) with
    | none => (.error Err.missingHalfedge, m)
    | some fh => (.ok (), if fh = h then setFaceHalfedge m f (some repl) else m)

def collapseEdgeReads (m : Mesh P) (h : Nat) :
    Except Err (Nat × Nat × Nat × Nat × Nat × Nat × Nat × List Nat × Nat) := do
  let (v, w) ← exSrcDst m h
  let t ← exTwin m h
  let h_next ← exNext m h
  let h_prev ← exPrev m h
  let t_next ← exNext m t
  let t_prev ← exPrev m t
  let w_outgoing ← outgoingHalfedges m w
  let v_next_fan ← exFanStep m h
  pure (v, w, t, h_next, h_prev, t_next, t_prev, w_outgoing, v_next_fan)

def collapseEdge (m : Mesh P) (h : Nat) : (Except Err Nat) × Mesh P :=
  match collapseEdgeReads m h with
  | .error e => (.error e, m)
  | .ok (v, w, t, h_next, h_prev, t_next, t_prev, w_outgoing, v_next_fan) =>
    let f_h := faceOf m h
    let f_t := faceOf m t
    let m1 := w_outgoing.foldl (fun mm h_wo => setVertexField mm h_wo (some v)) m
    let m2 := setNext m1 t_prev (some t_next)
    let m3 := setNext m2 h_prev (some h_next)
    match fixFaceRef m3 f_h h h_next with
    | (.error e, mm) => (.error e, mm)
    | (.ok _, m4) =>
      match fixFaceRef m4 f_t t t_next with
      | (.error e, mm) => (.error e, mm)
      | (.ok _, m5) =>
        match (vAt m5 v).bind (·.halfedge) with
        | none => (.error Err.missingHalfedge, m5)
        | some vh =>
          let m6 := if vh = h then setVertexHalfedge m5 v (some v_next_fan) else m5
          (.ok v, removeVertex (removeHalfedge (removeHalfedge m6 t) h) w)

/-! ## `cut_face`

Inserts a new edge between two vertices sharing a face, splitting that face
in two.  The index arithmetic of the sources is `i32` with `rem_euclid`; all
indices here are in `[0, n)` with `n` the face valence, for which
`(i - 1).rem_euclid(n) = (i + n - 1) % n` and the inclusive range
`start..=end` (with `end` possibly wrapped by `+n`) is modelled by
`List.range (end + 1 - start)` shifted by `start` and reduced `% n`. -/

/-- The face-finding phase of `cut_face`: the first face around `v`'s
outgoing half-edges whose vertices contain `w`. -/
def cutFaceFindFace (m : Mesh P) (v w : Nat) : Except Err Nat :=
  match (do
      let outg ← outgoingHalfedges m v
      let faces ← outg.mapM (exFace m)
      pure faces : Except Err (List Nat)) with
  | .error e => .error e
  | .ok faces =>
    match faces.find? (fun f => (faceVertices m f).contains w) with
    | none => .error Err.verticesShareNoFace
    | some face => .ok face

/-- The write phase of `cut_face`, after all checks passed. -/
def cutFaceWrites (m : Mesh P) (face v w v_idx w_idx : Nat)
    (face_halfedges : List Nat) : Nat × Mesh P :=
  let n := face_halfedges.length
  let h_vprev_v := face_halfedges.getD ((v_idx + n - 1) % n) 0
  let h_v_vnext := face_halfedges.getD v_idx 0
  let h_wprev_w := face_halfedges.getD ((w_idx + n - 1) % n) 0
  let h_w_wnext := face_halfedges.getD w_idx 0
  let (h_v_w, ma) := allocHalfedge m defaultHalfEdge
  let (h_w_v, mb) := allocHalfedge ma defaultHalfEdge
  let (new_face, mc) := allocFace mb none
  let m1 := setVertexField mc h_v_w (some v)
  let m2 := setVertexField m1 h_w_v (some w)
  let m3 := setFaceField m2 h_v_w (some face)
  let m4 := setFaceField m3 h_w_v (some new_face)
  let m5 := setTwin m4 h_v_w (some h_w_v)
  let m6 := setTwin m5 h_w_v (some h_v_w)
  let m7 := setNext m6 h_v_w (some h_w_wnext)
  let m8 := setNext m7 h_w_v (some h_v_vnext)
  let m9 := setFaceHalfedge m8 new_face (some h_w_v)
  let m10 := setFaceHalfedge m9 face (some h_v_w)
  let m11 := setNext m10 h_vprev_v (some h_v_w)
  let m12 := setNext m11 h_wprev_w (some h_w_v)
  let start := v_idx
  let endIdx0 := (w_idx + n - 1) % n
  let endIdx := if endIdx0 < start then endIdx0 + n else endIdx0
  let m13 := (List.range (endIdx + 1 - start)).foldl
      (fun mm k =>
        setFaceField mm (face_halfedges.getD ((start + k) % n) 0) (some new_face))
      m12
  (h_v_w, m13)

def cutFace (m : Mesh P) (v w : Nat) : (Except Err Nat) × Mesh P :=
  match cutFaceFindFace m v w with
  | .error e => (.error e, m)
  | .ok face =>
    if (halfedgeTo m v w).isOk then (.error Err.verticesAlreadyConnected, m)
    else
      let face_halfedges := faceEdges m face
      if face_halfedges.length ≤ 3 then (.error Err.faceTooSmallToCut, m)
      else
        match face_halfedges.findIdx? (fun hh => vertexOf m hh = some v),
            face_halfedges.findIdx? (fun hh => vertexOf m hh = some w) with
        | some v_idx, some w_idx =>
          let r := cutFaceWrites m face v w v_idx w_idx face_halfedges
          (.ok r.1, r.2)
        | _, _ => (.error Err.missingHalfedge, m)

/-! ## `dissolve_vertex`

Removes `v` and all its incident edges, unifying the surrounding faces into
a single new face.  The per-edge loop interleaves reads and writes (reads
go through the current mesh), so it is embedded as a stateful recursion. -/

def dissolveVertexLoop : Mesh P → List Nat → List (Nat × Nat × Nat) →
    (Except Err (List (Nat × Nat × Nat))) × Mesh P
  | m, [], acc => (.ok acc, m)
  | m, h :: rest, acc =>
    match (do
        let tw ← exTwin m h
        let w ← exVertex m tw
        let nxt ← exNext m h
        let prv ← exPrev m tw
        let f ← exFace m h
        pure (tw, w, nxt, prv, f) : Except Err (Nat × Nat × Nat × Nat × Nat)) with
    | .error e => (.error e, m)
    | .ok (tw, w, nxt, prv, f) =>
      let m1 := setNext m prv (some nxt)
      let m2 := if (vAt m1 w).bind (·.halfedge) = some tw
        then setVertexHalfedge m1 w (some nxt) else m1
      dissolveVertexLoop m2 rest (acc ++ [(tw, h, f)])

def dissolveVertex (m : Mesh P) (v : Nat) : (Except Err Nat) × Mesh P :=
  match outgoingHalfedges m v with
  | .error e => (.error e, m)
  | .ok outgoing =>
    if outgoing.length = 0 then (.error Err.isolatedVertex, m)
    else
      let (new_face, ma) := allocFace m none
      match dissolveVertexLoop ma outgoing [] with
      | (.error e, mm) => (.error e, mm)
      | (.ok to_delete, mb) =>
        match exNext mb (outgoing.getD 0 0) with
        | .error e => (.error e, mb)
        | .ok start =>
          let outer_loop := halfedgeLoop mb start
          let mc := outer_loop.foldl (fun mm hh => setFaceField mm hh (some new_face)) mb
          let md := setFaceHalfedge mc new_face (some (outer_loop.getD 0 0))
          let me := removeVertex md v
          let mf := to_delete.foldl
              (fun mm td => removeFace (removeHalfedge (removeHalfedge mm td.1) td.2.1) td.2.2)
              me
          (.ok new_face, mf)

/-! ## `add_face`

Forms a face from a ring of vertices, reusing half-edges recorded in the
pair map.  `circular_tuple_windows` of itertools is the zip of a list with
its rotation by one. -/

def rotate1 {α : Type} : List α → List α
  | [] => []
  | a :: rest => rest ++ [a]

def circularPairs {α : Type} (l : List α) : List (α × α) := l.zip (rotate1 l)

/-- The `PairToHalfEdge` map `(from, to) → half-edge` (a `HashMap` in the
sources; only lookups and overwriting inserts are used, so an association
list with shadowing inserts is an exact model). -/
def pmLookup (pm : List ((Nat × Nat) × Nat)) (k : Nat × Nat) : Option Nat :=
  (pm.find? (fun e => e.1 = k)).map (·.2)

def pmInsert (pm : List ((Nat × Nat) × Nat)) (k : Nat × Nat) (h : Nat) :
    List ((Nat × Nat) × Nat) := (k, h) :: pm

/-- First loop of `add_face`: reuse or allocate the ring half-edges,
record them in the pair map, point each ring vertex at its outgoing edge. -/
def addFaceLoop1 (f : Nat) : Mesh P → List (Nat × Nat) → List ((Nat × Nat) × Nat) →
    List Nat → Mesh P × List ((Nat × Nat) × Nat) × List Nat
  | m, [], pm, acc => (m, pm, acc)
  | m, (v, v2) :: rest, pm, acc =>
    match pmLookup pm (v, v2) with
    | some h0 =>
      let m1 := setFaceField m h0 (some f)
      let pm1 := pmInsert pm (v, v2) h0
      let m2 := setVertexHalfedge m1 v (some h0)
      addFaceLoop1 f m2 rest pm1 (acc ++ [h0])
    | none =>
      let (h0, ma) := allocHalfedge m ⟨some v, some f, none, none⟩
      let pm1 := pmInsert pm (v, v2) h0
      let m2 := setVertexHalfedge ma v (some h0)
      addFaceLoop1 f m2 rest pm1 (acc ++ [h0])

/-- One step of the twin-assignment pass of `add_face`: look up the reverse
pair and cross-twin on a hit. -/
def addFaceTwinStep (pm1 : List ((Nat × Nat) × Nat)) (mm : Mesh P)
    (pr : (Nat × Nat) × Nat) : Mesh P :=
  match pmLookup pm1 (pr.1.2, pr.1.1) with
  | some h_b_a => setTwin (setTwin mm h_b_a (some pr.2)) pr.2 (some h_b_a)
  | none => mm

def addFace (m : Mesh P) (vs : List Nat) (pm : List ((Nat × Nat) × Nat)) :
    Nat × Mesh P × List ((Nat × Nat) × Nat) :=
  let (f, m0) := allocFace m none
  let (m1, pm1, halfedges) := addFaceLoop1 f m0 (circularPairs vs) pm []
  let m2 := (circularPairs halfedges).foldl (fun mm p => setNext mm p.1 (some p.2)) m1
  let m3 := setFaceHalfedge m2 f (some (halfedges.getD 0 0))
  let m4 := ((circularPairs vs).zip halfedges).foldl (addFaceTwinStep pm1) m3
  (f, m4, pm1)

/-! ## `split_vertex`

Splits `v` into `v` and a new vertex `w = v + Δ`; the fan between `v→v_r`
and `v→v_l` is re-homed to `w` and two new triangular faces span the gap.
The `dbg` branches of the sources only attach debug marks and are not
modelled. -/

/-- `if let Some(f) = f_old { mesh[f].halfedge = Some(h) }`. -/
def optSetFH (m : Mesh P) (fo : Option Nat) (hh : Option Nat) : Mesh P :=
  match fo with
  | some f => setFaceHalfedge m f hh
  | none => m

/-- `at_halfedge(h).is_boundary()?` -/
def exIsBoundary (m : Mesh P) (h : Nat) : Except Err Bool :=
  match heAt m h with
  | none => .error Err.missingHalfedge
  | some e => .ok e.face.isNone

def splitVertexReads (m : Mesh P) (v v_l v_r : Nat) :
    Except Err (Nat × Nat × Nat × Nat × List Nat × List Nat ×
      Option Nat × Option Nat × Nat × Nat) := do
  let h_r_v ← halfedgeTo m v_r v
  let h_v_r ← exTwin m h_r_v
  let h_v_l ← halfedgeTo m v v_l
  let h_l_v ← exTwin m h_v_l
  let incoming ← incomingHalfedges m v
  let outgoing ← outgoingHalfedges m v
  let h_in_start ← match incoming.findIdx? (· = h_r_v) with
    | some i => pure i
    | none => throw Err.missingHalfedge
  let h_in_end0 ← match incoming.findIdx? (· = h_l_v) with
    | some i => pure i
    | none => throw Err.missingHalfedge
  let h_in_end := if h_in_end0 < h_in_start then h_in_end0 + incoming.length else h_in_end0
  let incoming_hs := (List.range (h_in_end - (h_in_start + 1))).map
    (fun k => incoming.getD ((h_in_start + 1 + k) % incoming.length) 0)
  let h_out_start ← match outgoing.findIdx? (· = h_v_r) with
    | some i => pure i
    | none => throw Err.missingHalfedge
  let h_out_end0 ← match outgoing.findIdx? (· = h_v_l) with
    | some i => pure i
    | none => throw Err.missingHalfedge
  let h_out_end := if h_out_end0 < h_out_start then h_out_end0 + outgoing.length else h_out_end0
  let outgoing_hs := (List.range (h_out_end - (h_out_start + 1))).map
    (fun k => outgoing.getD ((h_out_start + 1 + k) % outgoing.length) 0)
  let bl ← exIsBoundary m h_v_l
  let f_l_old ← if bl then pure (none : Option Nat) else do
    let f ← exFace m h_v_l
    pure (some f)
  let br ← exIsBoundary m h_r_v
  let f_r_old ← if br then pure (none : Option Nat) else do
    let f ← exFace m h_r_v
    pure (some f)
  let prev_h_r_v ← exPrev m h_r_v
  let next_h_v_l ← exNext m h_v_l
  pure (h_r_v, h_v_r, h_v_l, h_l_v, incoming_hs, outgoing_hs,
    f_l_old, f_r_old, prev_h_r_v, next_h_v_l)

def splitVertex (G : GeomOps P) (m : Mesh P) (v v_l v_r : Nat) (delta : P) :
    (Except Err Nat) × Mesh P :=
  match exPosition m v with
  | .error e => (.error e, m)
  | .ok v_pos =>
    match splitVertexReads m v v_l v_r with
    | .error e => (.error e, m)
    | .ok (h_r_v, _h_v_r, h_v_l, _h_l_v, incoming_hs, outgoing_hs,
        f_l_old, f_r_old, prev_h_r_v, next_h_v_l) =>
      let (w, ma) := allocVertex m (G.add v_pos delta) none
      let (h_v_w, mb) := allocHalfedge ma defaultHalfEdge
      let (h_w_v, mc) := allocHalfedge mb defaultHalfEdge
      let (h_l_w, md) := allocHalfedge mc defaultHalfEdge
      let (h_w_l, me) := allocHalfedge md defaultHalfEdge
      let (h_r_w, mf) := allocHalfedge me defaultHalfEdge
      let (h_w_r, mg) := allocHalfedge mf defaultHalfEdge
      let (f_l, mh) := allocFace mg none
      let (f_r, mi) := allocFace mh none
      let m1 := setNext mi h_w_v (some h_v_l)
      let m2 := setNext m1 h_v_l (some h_l_w)
      let m3 := setNext m2 h_l_w (some h_w_v)
      let m4 := setFaceField m3 h_w_v (some f_l)
      let m5 := setFaceField m4 h_v_l (some f_l)
      let m6 := setFaceField m5 h_l_w (some f_l)
      let m7 := setNext m6 h_v_w (some h_w_r)
      let m8 := setNext m7 h_w_r (some h_r_v)
      let m9 := setNext m8 h_r_v (some h_v_w)
      let m10 := setFaceField m9 h_v_w (some f_r)
      let m11 := setFaceField m10 h_w_r (some f_r)
      let m12 := setFaceField m11 h_r_v (some f_r)
      let m13 := setVertexField m12 h_v_w (some v)
      let m14 := setVertexField m13 h_w_v (some w)
      let m15 := setVertexField m14 h_l_w (some v_l)
      let m16 := setVertexField m15 h_w_l (some w)
      let m17 := setVertexField m16 h_r_w (some v_r)
      let m18 := setVertexField m17 h_w_r (some w)
      let m19 := setFaceHalfedge m18 f_l (some h_l_w)
      let m20 := setFaceHalfedge m19 f_r (some h_w_r)
      let m21 := setVertexHalfedge m20 w (some h_w_v)
      let m22 := setTwin m21 h_v_w (some h_w_v)
      let m23 := setTwin m22 h_w_v (some h_v_w)
      let m24 := setTwin m23 h_l_w (some h_w_l)
      let m25 := setTwin m24 h_w_l (some h_l_w)
      let m26 := setTwin m25 h_r_w (some h_w_r)
      let m27 := setTwin m26 h_w_r (some h_r_w)
      let m28 := setFaceField m27 h_w_l f_l_old
      let m29 := optSetFH m28 f_l_old (some h_w_l)
      let m30 := setFaceField m29 h_r_w f_r_old
      let m31 := optSetFH m30 f_r_old (some h_r_w)
      let m32 := setVertexHalfedge m31 v (some h_v_w)
      let m33 := setNext m32 prev_h_r_v (some h_r_w)
      let m34 := setNext m33 h_w_l (some next_h_v_l)
      let m35 := setNext m34 h_r_w (some (outgoing_hs.getD 0 h_w_l))
      let m36 := if incoming_hs.length > 0
        then setNext m35 (incoming_hs.getD (incoming_hs.length - 1) 0) (some h_w_l)
        else m35
      let m37 := outgoing_hs.foldl (fun mm out_h => setVertexField mm out_h (some w)) m36
      (.ok w, m37)

/-! ## `chamfer_vertex` -/

def divideLoop (G : GeomOps P) : Mesh P → List Nat → ℚ → List Nat →
    (Except Err (List Nat)) × Mesh P
  | m, [], _, acc => (.ok acc, m)
  | m, h :: rest, t, acc =>
    match divideEdge G m h t with
    | (.error e, mm) => (.error e, mm)
    | (.ok x, mm) => divideLoop G mm rest t (acc ++ [x])

def cutLoop : Mesh P → List (Nat × Nat) → (Except Err Unit) × Mesh P
  | m, [] => (.ok (), m)
  | m, (a, b) :: rest =>
    match cutFace m a b with
    | (.error e, mm) => (.error e, mm)
    | (.ok _, mm) => cutLoop mm rest

/-- Chamfers a vertex: divide every outgoing edge, cut the chamfer ring
between consecutive new vertices, dissolve the original vertex.  The
returned vertex ids are in the order of `v`'s outgoing half-edges. -/
def chamferVertex (G : GeomOps P) (m : Mesh P) (v : Nat) (t : ℚ) :
    (Except Err (Nat × List Nat)) × Mesh P :=
  match outgoingHalfedges m v with
  | .error e => (.error e, m)
  | .ok outgoing =>
    match divideLoop G m outgoing t [] with
    | (.error e, mm) => (.error e, mm)
    | (.ok vertices, m1) =>
      match cutLoop m1 (circularPairs vertices) with
      | (.error e, mm) => (.error e, mm)
      | (.ok _, m2) =>
        match dissolveVertex m2 v with
        | (.error e, mm) => (.error e, mm)
        | (.ok f, m3) => (.ok (f, vertices), m3)

/-! ## `bevel_edges`

Phase 1 (`bevel_edges_connectivity`): duplicate every unique input edge,
chamfer every touched vertex, collapse the marked chamfer-ring pairs through
the translation map.  `BTreeSet`s are modelled as sorted duplicate-free
lists (matching `BTreeSet` iteration order); the translation `HashMap` as an
association list (only lookups and inserts of fresh keys are used). -/

/-- `BTreeSet::insert`: returns whether the element was new. -/
def sInsert (s : List Nat) (x : Nat) : Bool × List Nat :=
  match s with
  | [] => (true, [x])
  | a :: rest =>
    if x < a then (true, x :: a :: rest)
    else if x = a then (false, a :: rest)
    else
      let (b, r) := sInsert rest x
      (b, a :: r)

def bevelDupLoop : Mesh P → List Nat → List Nat → List Nat → List Nat →
    (Except Err (List Nat × List Nat × List Nat)) × Mesh P
  | m, [], etb, dup, vtc => (.ok (etb, dup, vtc), m)
  | m, h :: rest, etb, dup, vtc =>
    let (b1, etb1) := sInsert etb h
    if b1 = false then bevelDupLoop m rest etb1 dup vtc
    else
      match twinOf m h with
      | none => (.error Err.missingTwin, m)
      | some tw =>
        let (b2, etb2) := sInsert etb1 tw
        if b2 = false then bevelDupLoop m rest etb2 dup vtc
        else
          match duplicateEdge m h with
          | (.error e, mm) => (.error e, mm)
          | (.ok h_dup, m1) =>
            match nextOf m1 h_dup with
            | none => (.error Err.missingNext, m1)
            | some h_dup_next =>
              let (_, dup1) := sInsert dup h_dup
              let (_, dup2) := sInsert dup1 h_dup_next
              match srcDstPair m1 h with
              | .error e => (.error e, m1)
              | .ok (src, dst) =>
                let (_, vtc1) := sInsert vtc src
                let (_, vtc2) := sInsert vtc1 dst
                bevelDupLoop m1 rest etb2 dup2 vtc2

/-- The per-pair collapse classification of `bevel_edges_connectivity`
(lines 729-742 of `edit_ops.rs`). -/
def collapseFlag (etb dup : List Nat) (h h2 : Nat) : Bool :=
  let h_b := etb.contains h
  let h2_b := etb.contains h2
  let h_d := dup.contains h
  let h2_d := dup.contains h2
  let h_n := !h_b && !h_d
  let h2_n := !h2_b && !h2_d
  h_b && h2_n || h_d && h2_b || h_d && h2_n || h_n && h2_b

/-- The `collapse_indices` binary vector for one chamfered vertex. -/
def collapseIndices (etb dup : List Nat) (outgoing : List Nat) : List Bool :=
  (circularPairs outgoing).map (fun p => collapseFlag etb dup p.1 p.2)

/-- Translation map lookup (`HashMap::get`). -/
def tmLookup (mp : List (Nat × Nat)) (v : Nat) : Option Nat :=
  (mp.find? (fun e => e.1 = v)).map (·.2)

/-- The chain walk of `get_translated`, with explicit fuel: follow the map
until a vertex with no entry.  `none` means the fuel ran out (the source's
`while let` loop would still be running). -/
def getTranslatedFuel : Nat → List (Nat × Nat) → Nat → Option Nat
  | 0, _, _ => none
  | fuel + 1, mp, v =>
    match tmLookup mp v with
    | none => some v
    | some v2 => getTranslatedFuel fuel mp v2

/-- `get_translated`: for the maps built by the collapse loop the fuel
`mp.length + 1` always suffices (proved below), so the fallback is
unreachable there. -/
def getTranslated (mp : List (Nat × Nat)) (v : Nat) : Nat :=
  (getTranslatedFuel (mp.length + 1) mp v).getD v

def bevelCollapseLoop : Mesh P → List (Nat × Nat) → List (Nat × Nat) →
    (Except Err Unit) × Mesh P
  | m, [], _ => (.ok (), m)
  | m, (w0, v0) :: rest, tmap =>
    let v := getTranslated tmap v0
    let w := getTranslated tmap w0
    match halfedgeTo m w v with
    | .error e => (.error e, m)
    | .ok h =>
      match collapseEdge m h with
      | (.error e, mm) => (.error e, mm)
      | (.ok _, m1) => bevelCollapseLoop m1 rest ((v, w) :: tmap)

def bevelChamferVertex (G : GeomOps P) (etb dup : List Nat) (m : Mesh P) (v : Nat) :
    (Except Err Unit) × Mesh P :=
  match outgoingHalfedges m v with
  | .error e => (.error e, m)
  | .ok outgoing_halfedges =>
    let collapse_indices := collapseIndices etb dup outgoing_halfedges
    match chamferVertex G m v 0 with
    | (.error e, mm) => (.error e, mm)
    | (.ok (_, new_verts), m1) =>
      let collapse_ops := ((circularPairs new_verts).zip collapse_indices).filterMap
          (fun p => if p.2 then some (p.1.2, p.1.1) else none)
      bevelCollapseLoop m1 collapse_ops []

def bevelChamferLoop (G : GeomOps P) (etb dup : List Nat) : Mesh P → List Nat →
    (Except Err Unit) × Mesh P
  | m, [] => (.ok (), m)
  | m, v :: rest =>
    match bevelChamferVertex G etb dup m v with
    | (.error e, mm) => (.error e, mm)
    | (.ok _, m1) => bevelChamferLoop G etb dup m1 rest

def bevelEdgesConnectivity (G : GeomOps P) (m : Mesh P) (halfedges : List Nat) :
    (Except Err (List Nat)) × Mesh P :=
  match bevelDupLoop m halfedges [] [] [] with
  | (.error e, mm) => (.error e, mm)
  | (.ok (etb, dup, vtc), m1) =>
    match bevelChamferLoop G etb dup m1 vtc with
    | (.error e, mm) => (.error e, mm)
    | (.ok _, m2) => (.ok etb, m2)

/-- `move_ops.entry(v).or_insert(HashSet::new()).insert(p)`: the per-vertex
pull sets, deduplicated by position (`Vec3Ord` in the sources). -/
def moInsert [DecidableEq P] (mo : List (Nat × List P)) (v : Nat) (p : P) :
    List (Nat × List P) :=
  match mo with
  | [] => [(v, [p])]
  | (u, ps) :: rest =>
    if u = v then (u, if ps.contains p then ps else ps ++ [p]) :: rest
    else (u, ps) :: moInsert rest v p

/-- Phase 2 pull collection of `bevel_edges` (pure reads). -/
def bevelPullLoop [DecidableEq P] (m : Mesh P) : List Nat → List (Nat × List P) →
    Except Err (List (Nat × List P))
  | [], mo => .ok mo
  | h :: rest, mo => do
    let (v, w) ← exSrcDst m h
    let pv ← exPrev m h
    let v_to ← exVertex m pv
    let v_to_pos ← exPosition m v_to
    let n1 ← exNext m h
    let n2 ← exNext m n1
    let w_to ← exVertex m n2
    let w_to_pos ← exPosition m w_to
    bevelPullLoop m rest (moInsert (moInsert mo v v_to_pos) w w_to_pos)

/-- Position adjustment of `bevel_edges`.  The sources iterate a `HashMap`
in unspecified order; insertion order is used here (no claim depends on the
iteration order). -/
def bevelMoveLoop (G : GeomOps P) : Mesh P → List (Nat × List P) → ℚ → Mesh P
  | m, [], _ => m
  | m, (v, pulls) :: rest, amount =>
    let m1 := match positionOf m v with
      | none => m
      | some v_pos =>
        pulls.foldl
          (fun mm pull =>
            updatePosition mm v
              (fun pos => G.add pos (G.smul amount (G.normalize (G.sub pull v_pos)))))
          m
    bevelMoveLoop G m1 rest amount

/-- Bevels the given edges by a given distance amount. -/
def bevelEdges [DecidableEq P] (G : GeomOps P) (m : Mesh P) (halfedges : List Nat)
    (amount : ℚ) : (Except Err Unit) × Mesh P :=
  match bevelEdgesConnectivity G m halfedges with
  | (.error e, mm) => (.error e, mm)
  | (.ok beveled_edges, m1) =>
    match bevelPullLoop m1 beveled_edges [] with
    | .error e => (.error e, m1)
    | .ok move_ops => (.ok (), bevelMoveLoop G m1 move_ops amount)

/-! ## Core invariants

Decidable (`Bool`-valued) renderings of the core invariants of spec §3,
used as hypotheses of the theorems and checked by `decide` on the concrete
witness meshes. -/

def liveHE (m : Mesh P) (h : Nat) : Bool := (heAt m h).isSome

def liveV (m : Mesh P) (v : Nat) : Bool := (vAt m v).isSome

def liveF (m : Mesh P) (f : Nat) : Bool := (fAt m f).isSome

/-- Invariant 1: `twin` is an involution with no fixed points (where
assigned), and twin targets are live. -/
def twinOkB (m : Mesh P) : Bool :=
  (List.range m.halfedges.length).all fun h =>
    match heAt m h with
    | none => true
    | some e =>
      match e.twin with
      | none => true
      | some t =>
        decide (t ≠ h) &&
          (match heAt m t with
           | none => false
           | some et => decide (et.twin = some h))

/-- Every live half-edge has a twin (the mesh is fully twinned). -/
def twinTotalB (m : Mesh P) : Bool :=
  (List.range m.halfedges.length).all fun h =>
    match heAt m h with
    | none => true
    | some e => e.twin.isSome

/-- Every live half-edge has a live `next` (invariants 2 and 7). -/
def nextTotalB (m : Mesh P) : Bool :=
  (List.range m.halfedges.length).all fun h =>
    match heAt m h with
    | none => true
    | some e =>
      match e.next with
      | none => false
      | some n => liveHE m n

/-- Every live half-edge has a live start vertex. -/
def vertexTotalB (m : Mesh P) : Bool :=
  (List.range m.halfedges.length).all fun h =>
    match heAt m h with
    | none => true
    | some e =>
      match e.vertex with
      | none => false
      | some v => liveV m v

/-- Assigned `face` fields point at live faces. -/
def faceRefOkB (m : Mesh P) : Bool :=
  (List.range m.halfedges.length).all fun h =>
    match heAt m h with
    | none => true
    | some e =>
      match e.face with
      | none => true
      | some f => liveF m f

/-- Invariant 4 (representative part): every live face holds a live
half-edge of its own boundary, whose `face` is the face itself. -/
def faceOkB (m : Mesh P) : Bool :=
  (List.range m.faces.length).all fun f =>
    match fAt m f with
    | none => true
    | some fd =>
      match fd.halfedge with
      | none => false
      | some g => liveHE m g && decide (faceOf m g = some f)

/-- Invariant 4 (coherence part): every live half-edge with a face lies on
that face's boundary cycle. -/
def faceCoherentB (m : Mesh P) : Bool :=
  (List.range m.halfedges.length).all fun h =>
    match heAt m h with
    | none => true
    | some e =>
      match e.face with
      | none => true
      | some f => (faceEdges m f).contains h

/-- Invariants 2 and 7: the `next` cycle of every live half-edge closes,
repeats no element, stays live, and stays on one face (or on the boundary). -/
def loopOkB (m : Mesh P) : Bool :=
  (List.range m.halfedges.length).all fun h =>
    match heAt m h with
    | none => true
    | some _ =>
      let l := halfedgeLoop m h
      (match l.getLast? with
       | some g => decide (nextOf m g = some h)
       | none => false) &&
        l.Nodup && l.all (fun g => liveHE m g && decide (faceOf m g = faceOf m h))

/-- Invariant 5: the fan walk from every vertex representative closes,
repeats no element, and visits only half-edges starting at the vertex. -/
def fanOkB (m : Mesh P) : Bool :=
  (List.range m.vertices.length).all fun v =>
    match vAt m v with
    | none => true
    | some vd =>
      match vd.halfedge with
      | none => true
      | some h0 =>
        match fanWalk m h0 (m.halfedges.length + 1) h0 with
        | none => false
        | some l =>
          l.Nodup && l.all (fun g => liveHE m g && decide (vertexOf m g = some v))

/-- Invariant 6: no two distinct live half-edges realise the same directed
vertex pair. -/
def noDupB (m : Mesh P) : Bool :=
  (List.range m.halfedges.length).all fun h1 =>
    (List.range m.halfedges.length).all fun h2 =>
      !liveHE m h1 || !liveHE m h2 || decide (h1 = h2) ||
        match vertexOf m h1, dstOf m h1, vertexOf m h2, dstOf m h2 with
        | some a1, some b1, some a2, some b2 => !(decide (a1 = a2) && decide (b1 = b2))
        | _, _, _, _ => true

/-- The conjunction of the §3 core invariants used by the theorems. -/
def coreInv (m : Mesh P) : Bool :=
  twinOkB m && twinTotalB m && nextTotalB m && vertexTotalB m && faceRefOkB m &&
    faceOkB m && faceCoherentB m && loopOkB m && fanOkB m && noDupB m

/-! ## Concrete witness meshes -/

instance instDecEqExcept {E A : Type} [DecidableEq E] [DecidableEq A] :
    DecidableEq (Except E A)
  | .error a, .error b =>
    if h : a = b then .isTrue (by rw [h]) else .isFalse (fun hc => h (by cases hc; rfl))
  | .error _, .ok _ => .isFalse (fun hc => Except.noConfusion hc)
  | .ok _, .error _ => .isFalse (fun hc => Except.noConfusion hc)
  | .ok a, .ok b =>
    if h : a = b then .isTrue (by rw [h]) else .isFalse (fun hc => h (Except.ok.inj hc))

/-- Rational-coordinate instance of the abstract position operations
(`normalize` is irrelevant to connectivity and is taken to be the
identity). -/
def QGeom : GeomOps ℚ :=
  ⟨fun a b t => a + (b - a) * t, (· + ·), (· - ·), (· * ·), id⟩

/-- Unit-position instance used by the concrete witnesses: the claims under
verification are about connectivity only, and trivial positions keep every
witness kernel-evaluable. -/
def UGeom : GeomOps Unit :=
  ⟨fun _ _ _ => (), fun _ _ => (), fun _ _ => (), fun _ _ => (), fun _ => ()⟩

/-- A tetrahedron: 4 vertices, 4 triangles, 12 half-edges.
Faces: (0,1,2), (0,2,3), (0,3,1), (2,1,3). -/
def tetra : Mesh Unit where
  vertices :=
    [some ⟨(), some 0⟩, some ⟨(), some 1⟩, some ⟨(), some 2⟩, some ⟨(), some 5⟩]
  halfedges :=
    [some ⟨some 0, some 0, some 8, some 1⟩,
     some ⟨some 1, some 0, some 9, some 2⟩,
     some ⟨some 2, some 0, some 3, some 0⟩,
     some ⟨some 0, some 1, some 2, some 4⟩,
     some ⟨some 2, some 1, some 11, some 5⟩,
     some ⟨some 3, some 1, some 6, some 3⟩,
     some ⟨some 0, some 2, some 5, some 7⟩,
     some ⟨some 3, some 2, some 10, some 8⟩,
     some ⟨some 1, some 2, some 0, some 6⟩,
     some ⟨some 2, some 3, some 1, some 10⟩,
     some ⟨some 1, some 3, some 7, some 11⟩,
     some ⟨some 3, some 3, some 4, some 9⟩]
  faces := [some ⟨some 0⟩, some ⟨some 3⟩, some ⟨some 6⟩, some ⟨some 9⟩]

/-- Two quads glued along their four edges (a "pillow"): 4 vertices,
2 quad faces, 8 half-edges.  Faces: (0,1,2,3) and (3,2,1,0). -/
def pillow : Mesh Unit where
  vertices :=
    [some ⟨(), some 0⟩, some ⟨(), some 1⟩, some ⟨(), some 2⟩, some ⟨(), some 3⟩]
  halfedges :=
    [some ⟨some 0, some 0, some 6, some 1⟩,
     some ⟨some 1, some 0, some 5, some 2⟩,
     some ⟨some 2, some 0, some 4, some 3⟩,
     some ⟨some 3, some 0, some 7, some 0⟩,
     some ⟨some 3, some 1, some 2, some 5⟩,
     some ⟨some 2, some 1, some 1, some 6⟩,
     some ⟨some 1, some 1, some 0, some 7⟩,
     some ⟨some 0, some 1, some 3, some 4⟩]
  faces := [some ⟨some 0⟩, some ⟨some 4⟩]

/-- An open quad: one quad face (0,1,2,3) and its boundary loop of four
face-less half-edges. -/
def openQuad : Mesh Unit where
  vertices :=
    [some ⟨(), some 0⟩, some ⟨(), some 1⟩, some ⟨(), some 2⟩, some ⟨(), some 3⟩]
  halfedges :=
    [some ⟨some 0, some 0, some 4, some 1⟩,
     some ⟨some 1, some 0, some 7, some 2⟩,
     some ⟨some 2, some 0, some 6, some 3⟩,
     some ⟨some 3, some 0, some 5, some 0⟩,
     some ⟨some 1, none, some 0, some 5⟩,
     some ⟨some 0, none, some 3, some 6⟩,
     some ⟨some 3, none, some 2, some 7⟩,
     some ⟨some 2, none, some 1, some 4⟩]
  faces := [some ⟨some 0⟩]

/-- Four isolated vertices and no half-edges: the starting mesh for the
`add_face` witness. -/
def bareVerts : Mesh Unit where
  vertices := [some ⟨(), none⟩, some ⟨(), none⟩, some ⟨(), none⟩, some ⟨(), none⟩]
  halfedges := []
  faces := []

/-! ## Arena-component preservation -/

theorem halfedges_updV' (m : Mesh P) (a : Nat) (g : VertexData P → VertexData P) :
    (updV m a g).halfedges = m.halfedges := by
  unfold updV; cases aget m.vertices a <;> rfl

theorem halfedges_updF' (m : Mesh P) (a : Nat) (g : FaceData → FaceData) :
    (updF m a g).halfedges = m.halfedges := by
  unfold updF; cases aget m.faces a <;> rfl

theorem halfedges_removeV (m : Mesh P) (a : Nat) :
    (removeVertex m a).halfedges = m.halfedges := rfl

theorem halfedges_removeF (m : Mesh P) (a : Nat) :
    (removeFace m a).halfedges = m.halfedges := rfl

theorem halfedges_allocV (m : Mesh P) (p : P) (h0 : Option Nat) :
    (allocVertex m p h0).2.halfedges = m.halfedges := rfl

theorem halfedges_allocF (m : Mesh P) (h0 : Option Nat) :
    (allocFace m h0).2.halfedges = m.halfedges := rfl

theorem vertices_removeHE (m : Mesh P) (a : Nat) :
    (removeHalfedge m a).vertices = m.vertices := rfl

theorem vertices_removeF (m : Mesh P) (a : Nat) :
    (removeFace m a).vertices = m.vertices := rfl

theorem vertices_allocHE (m : Mesh P) (e : HalfEdgeData) :
    (allocHalfedge m e).2.vertices = m.vertices := rfl

theorem vertices_allocF (m : Mesh P) (h0 : Option Nat) :
    (allocFace m h0).2.vertices = m.vertices := rfl

theorem faces_removeHE (m : Mesh P) (a : Nat) :
    (removeHalfedge m a).faces = m.faces := rfl

theorem faces_removeV (m : Mesh P) (a : Nat) :
    (removeVertex m a).faces = m.faces := rfl

theorem faces_allocHE (m : Mesh P) (e : HalfEdgeData) :
    (allocHalfedge m e).2.faces = m.faces := rfl

theorem faces_allocV (m : Mesh P) (p : P) (h0 : Option Nat) :
    (allocVertex m p h0).2.faces = m.faces := rfl

/-! ## Field-read preservation through the setters -/

theorem liveHE_updHE (m : Mesh P) (a : Nat) (g : HalfEdgeData → HalfEdgeData)
    (b : Nat) : liveHE (updHE m a g) b = liveHE m b := by
  unfold liveHE
  rcases eq_or_ne b a with rfl | hne
  · rw [heAt_updHE_self]; cases heAt m b <;> rfl
  · rw [heAt_updHE_ne _ _ _ _ hne]

theorem twinOf_setTwin_self (m : Mesh P) (a : Nat) (t : Option Nat)
    (hl : (heAt m a).isSome) : twinOf (setTwin m a t) a = t := by
  unfold twinOf setTwin
  rw [heAt_updHE_self]
  rcases Option.isSome_iff_exists.mp hl with ⟨e, he⟩
  rw [he]; rfl

theorem twinOf_setTwin_ne (m : Mesh P) (a : Nat) (t : Option Nat) (b : Nat)
    (hne : b ≠ a) : twinOf (setTwin m a t) b = twinOf m b := by
  unfold twinOf setTwin
  rw [heAt_updHE_ne _ _ _ _ hne]

theorem twinOf_setNext (m : Mesh P) (a : Nat) (n : Option Nat) (b : Nat) :
    twinOf (setNext m a n) b = twinOf m b := by
  unfold twinOf setNext
  rcases eq_or_ne b a with rfl | hne
  · rw [heAt_updHE_self]; cases heAt m b <;> rfl
  · rw [heAt_updHE_ne _ _ _ _ hne]

theorem twinOf_setVertexField (m : Mesh P) (a : Nat) (v : Option Nat) (b : Nat) :
    twinOf (setVertexField m a v) b = twinOf m b := by
  unfold twinOf setVertexField
  rcases eq_or_ne b a with rfl | hne
  · rw [heAt_updHE_self]; cases heAt m b <;> rfl
  · rw [heAt_updHE_ne _ _ _ _ hne]

theorem twinOf_setFaceField (m : Mesh P) (a : Nat) (f : Option Nat) (b : Nat) :
    twinOf (setFaceField m a f) b = twinOf m b := by
  unfold twinOf setFaceField
  rcases eq_or_ne b a with rfl | hne
  · rw [heAt_updHE_self]; cases heAt m b <;> rfl
  · rw [heAt_updHE_ne _ _ _ _ hne]

theorem nextOf_setNext_self (m : Mesh P) (a : Nat) (n : Option Nat)
    (hl : (heAt m a).isSome) : nextOf (setNext m a n) a = n := by
  unfold nextOf setNext
  rw [heAt_updHE_self]
  rcases Option.isSome_iff_exists.mp hl with ⟨e, he⟩
  rw [he]; rfl

theorem nextOf_setNext_ne (m : Mesh P) (a : Nat) (n : Option Nat) (b : Nat)
    (hne : b ≠ a) : nextOf (setNext m a n) b = nextOf m b := by
  unfold nextOf setNext
  rw [heAt_updHE_ne _ _ _ _ hne]

theorem nextOf_setTwin (m : Mesh P) (a : Nat) (t : Option Nat) (b : Nat) :
    nextOf (setTwin m a t) b = nextOf m b := by
  unfold nextOf setTwin
  rcases eq_or_ne b a with rfl | hne
  · rw [heAt_updHE_self]; cases heAt m b <;> rfl
  · rw [heAt_updHE_ne _ _ _ _ hne]

theorem nextOf_setVertexField (m : Mesh P) (a : Nat) (v : Option Nat) (b : Nat) :
    nextOf (setVertexField m a v) b = nextOf m b := by
  unfold nextOf setVertexField
  rcases eq_or_ne b a with rfl | hne
  · rw [heAt_updHE_self]; cases heAt m b <;> rfl
  · rw [heAt_updHE_ne _ _ _ _ hne]

theorem nextOf_setFaceField (m : Mesh P) (a : Nat) (f : Option Nat) (b : Nat) :
    nextOf (setFaceField m a f) b = nextOf m b := by
  unfold nextOf setFaceField
  rcases eq_or_ne b a with rfl | hne
  · rw [heAt_updHE_self]; cases heAt m b <;> rfl
  · rw [heAt_updHE_ne _ _ _ _ hne]

theorem vertexOf_setVertexField_self (m : Mesh P) (a : Nat) (v : Option Nat)
    (hl : (heAt m a).isSome) : vertexOf (setVertexField m a v) a = v := by
  unfold vertexOf setVertexField
  rw [heAt_updHE_self]
  rcases Option.isSome_iff_exists.mp hl with ⟨e, he⟩
  rw [he]; rfl

theorem vertexOf_setVertexField_ne (m : Mesh P) (a : Nat) (v : Option Nat) (b : Nat)
    (hne : b ≠ a) : vertexOf (setVertexField m a v) b = vertexOf m b := by
  unfold vertexOf setVertexField
  rw [heAt_updHE_ne _ _ _ _ hne]

theorem vertexOf_setTwin (m : Mesh P) (a : Nat) (t : Option Nat) (b : Nat) :
    vertexOf (setTwin m a t) b = vertexOf m b := by
  unfold vertexOf setTwin
  rcases eq_or_ne b a with rfl | hne
  · rw [heAt_updHE_self]; cases heAt m b <;> rfl
  · rw [heAt_updHE_ne _ _ _ _ hne]

theorem vertexOf_setNext (m : Mesh P) (a : Nat) (n : Option Nat) (b : Nat) :
    vertexOf (setNext m a n) b = vertexOf m b := by
  unfold vertexOf setNext
  rcases eq_or_ne b a with rfl | hne
  · rw [heAt_updHE_self]; cases heAt m b <;> rfl
  · rw [heAt_updHE_ne _ _ _ _ hne]

theorem vertexOf_setFaceField (m : Mesh P) (a : Nat) (f : Option Nat) (b : Nat) :
    vertexOf (setFaceField m a f) b = vertexOf m b := by
  unfold vertexOf setFaceField
  rcases eq_or_ne b a with rfl | hne
  · rw [heAt_updHE_self]; cases heAt m b <;> rfl
  · rw [heAt_updHE_ne _ _ _ _ hne]

theorem faceOf_setFaceField_self (m : Mesh P) (a : Nat) (f : Option Nat)
    (hl : (heAt m a).isSome) : faceOf (setFaceField m a f) a = f := by
  unfold faceOf setFaceField
  rw [heAt_updHE_self]
  rcases Option.isSome_iff_exists.mp hl with ⟨e, he⟩
  rw [he]; rfl

theorem faceOf_setFaceField_ne (m : Mesh P) (a : Nat) (f : Option Nat) (b : Nat)
    (hne : b ≠ a) : faceOf (setFaceField m a f) b = faceOf m b := by
  unfold faceOf setFaceField
  rw [heAt_updHE_ne _ _ _ _ hne]

theorem faceOf_setTwin (m : Mesh P) (a : Nat) (t : Option Nat) (b : Nat) :
    faceOf (setTwin m a t) b = faceOf m b := by
  unfold faceOf setTwin
  rcases eq_or_ne b a with rfl | hne
  · rw [heAt_updHE_self]; cases heAt m b <;> rfl
  · rw [heAt_updHE_ne _ _ _ _ hne]

theorem faceOf_setNext (m : Mesh P) (a : Nat) (n : Option Nat) (b : Nat) :
    faceOf (setNext m a n) b = faceOf m b := by
  unfold faceOf setNext
  rcases eq_or_ne b a with rfl | hne
  · rw [heAt_updHE_self]; cases heAt m b <;> rfl
  · rw [heAt_updHE_ne _ _ _ _ hne]

theorem faceOf_setVertexField (m : Mesh P) (a : Nat) (v : Option Nat) (b : Nat) :
    faceOf (setVertexField m a v) b = faceOf m b := by
  unfold faceOf setVertexField
  rcases eq_or_ne b a with rfl | hne
  · rw [heAt_updHE_self]; cases heAt m b <;> rfl
  · rw [heAt_updHE_ne _ _ _ _ hne]

/-! ## Claim C5: the bevel collapse pattern -/

/-- Spec classification: an edge is "neither" when it is neither a beveled
edge nor a duplicated edge. -/
def SpecNeither (etb dup : List Nat) (h : Nat) : Prop := h ∉ etb ∧ h ∉ dup

/-- The spec's collapse condition for a consecutive outgoing pair `(h, h2)`:
collapse iff `(h beveled, h2 neither) ∨ (h duplicated, h2 beveled) ∨
(h duplicated, h2 neither) ∨ (h neither, h2 beveled)`. -/
def SpecCollapse (etb dup : List Nat) (h h2 : Nat) : Prop :=
  (h ∈ etb ∧ SpecNeither etb dup h2) ∨ (h ∈ dup ∧ h2 ∈ etb) ∨
    (h ∈ dup ∧ SpecNeither etb dup h2) ∨ (SpecNeither etb dup h ∧ h2 ∈ etb)

instance instDecSpecCollapse (etb dup : List Nat) (h h2 : Nat) :
    Decidable (SpecCollapse etb dup h h2) := by
  unfold SpecCollapse SpecNeither; infer_instance

theorem collapseFlag_iff_specCollapse (etb dup : List Nat) (h h2 : Nat) :
    collapseFlag etb dup h h2 = true ↔ SpecCollapse etb dup h h2 := by
  simp only [collapseFlag, SpecCollapse, SpecNeither, Bool.or_eq_true,
    Bool.and_eq_true, Bool.not_eq_true', List.elem_iff,
    Bool.not_eq_true, ← Bool.not_eq_true, Bool.not_eq_true']
  tauto

/-- C5: in `bevel_edges_connectivity`, for every chamfered vertex the
`collapse_indices` vector marks each consecutive outgoing pair `(h, h2)`
(cyclically) for collapse exactly per the spec classification
{beveled, duplicated, neither}. -/
theorem c5_bevel_collapse_pattern :
    ∀ etb dup : List Nat,
      (∀ h h2 : Nat, collapseFlag etb dup h h2 = true ↔ SpecCollapse etb dup h h2) ∧
        ∀ outgoing : List Nat,
          collapseIndices etb dup outgoing =
            (circularPairs outgoing).map (fun p => decide (SpecCollapse etb dup p.1 p.2)) := by
  intro etb dup
  refine ⟨collapseFlag_iff_specCollapse etb dup, ?_⟩
  intro outgoing
  unfold collapseIndices
  induction circularPairs outgoing with
  | nil => rfl
  | cons p rest ih =>
    simp only [List.map_cons, ih, List.cons.injEq, and_true]
    rcases hb : collapseFlag etb dup p.1 p.2 with _ | _
    · have hiff := (collapseFlag_iff_specCollapse etb dup p.1 p.2)
      rw [hb] at hiff
      have : ¬SpecCollapse etb dup p.1 p.2 := fun hc => by simpa using hiff.mpr hc
      simp [decide_eq_false this]
    · have := (collapseFlag_iff_specCollapse etb dup p.1 p.2).mp hb
      simp [decide_eq_true this]

/-! ## Claim C8: `bevel_edges([], amount)` is the identity -/

/-- C8: for every mesh and every amount, beveling the empty edge list
succeeds and returns the input mesh unchanged. -/
theorem c8_bevel_empty_identity {P : Type} [DecidableEq P] (G : GeomOps P)
    (m : Mesh P) (amount : ℚ) : bevelEdges G m [] amount = (.ok (), m) := rfl

/-! ## Claim C10: termination of `get_translated` -/

/-- The insertion discipline of the collapse loop of
`bevel_edges_connectivity`: every mapping `v → w` is inserted with both
endpoints already resolved through the map (so neither is a key), and with
`v ≠ w` (the two endpoints of the successfully collapsed edge). -/
inductive TMapBuilt : List (Nat × Nat) → Prop where
  | nil : TMapBuilt []
  | step (mp : List (Nat × Nat)) (v w : Nat) : TMapBuilt mp →
      tmLookup mp v = none → tmLookup mp w = none → v ≠ w →
      TMapBuilt ((v, w) :: mp)

theorem tmLookup_cons (v w u : Nat) (mp : List (Nat × Nat)) :
    tmLookup ((v, w) :: mp) u = if u = v then some w else tmLookup mp u := by
  unfold tmLookup
  rcases eq_or_ne u v with rfl | hne
  · simp [List.find?]
  · simp only [List.find?]
    rw [decide_eq_false (fun hc : v = u => hne hc.symm)]
    simp [if_neg hne]

theorem getTranslatedFuel_succ (fuel : Nat) (mp : List (Nat × Nat)) (v : Nat) :
    getTranslatedFuel (fuel + 1) mp v =
      (match tmLookup mp v with
       | none => some v
       | some v2 => getTranslatedFuel fuel mp v2) := rfl

/-- Lifting a terminating chain walk through one disciplined insertion. -/
theorem getTranslatedFuel_lift (v w : Nat) (mp : List (Nat × Nat))
    (hv : tmLookup mp v = none) (hw : tmLookup mp w = none) (hvw : v ≠ w) :
    ∀ fuel v0 r, getTranslatedFuel fuel mp v0 = some r → tmLookup mp r = none →
      ∃ r', getTranslatedFuel (fuel + 1) ((v, w) :: mp) v0 = some r' ∧
        tmLookup ((v, w) :: mp) r' = none := by
  intro fuel
  induction fuel with
  | zero => intro v0 r hr; simp [getTranslatedFuel] at hr
  | succ fuel ih =>
    intro v0 r hr hrn
    rw [getTranslatedFuel_succ] at hr
    rcases hl : tmLookup mp v0 with _ | v1
    · rw [hl] at hr
      rcases eq_or_ne v0 v with rfl | hne
      · refine ⟨w, ?_, ?_⟩
        · have e1 : tmLookup ((v0, w) :: mp) v0 = some w := by
            rw [tmLookup_cons, if_pos rfl]
          have e2 : tmLookup ((v0, w) :: mp) w = none := by
            rw [tmLookup_cons, if_neg (fun hc => hvw hc.symm)]
            exact hw
          rw [getTranslatedFuel_succ, e1]
          show getTranslatedFuel (fuel + 1) ((v0, w) :: mp) w = some w
          rw [getTranslatedFuel_succ, e2]
        · rw [tmLookup_cons, if_neg (fun hc => hvw hc.symm)]
          exact hw
      · refine ⟨v0, ?_, ?_⟩
        · rw [getTranslatedFuel_succ, tmLookup_cons, if_neg hne, hl]
        · rw [tmLookup_cons, if_neg hne]
          exact hl
    · rw [hl] at hr
      have hne : v0 ≠ v := fun hc => by rw [hc, hv] at hl; exact Option.noConfusion hl
      rcases ih v1 r hr hrn with ⟨r', hr', hrn'⟩
      refine ⟨r', ?_, hrn'⟩
      rw [getTranslatedFuel_succ, tmLookup_cons, if_neg hne, hl]
      exact hr'

/-- C10: for every translation map built by the collapse loop's insertion
discipline, the `get_translated` chain walk reaches a vertex with no entry
within `length + 1` steps and returns it. -/
theorem c10_get_translated_terminates (mp : List (Nat × Nat))
    (hb : TMapBuilt mp) : ∀ v0 : Nat, ∃ r : Nat,
      getTranslatedFuel (mp.length + 1) mp v0 = some r ∧ tmLookup mp r = none ∧
        getTranslated mp v0 = r := by
  induction hb with
  | nil =>
    intro v0
    refine ⟨v0, ?_, ?_, ?_⟩ <;> simp [getTranslatedFuel, tmLookup, getTranslated]
  | step mp v w hbm hv hw hvw ih =>
    intro v0
    rcases ih v0 with ⟨r, hr, hrn, _⟩
    rcases getTranslatedFuel_lift v w mp hv hw hvw _ v0 r hr hrn with ⟨r', hr', hrn'⟩
    refine ⟨r', by simpa using hr', hrn', ?_⟩
    unfold getTranslated
    simp only [List.length_cons]
    rw [show mp.length + 1 + 1 = mp.length + 1 + 1 from rfl] at hr'
    simp [hr']

/-- Witness for C10: the map built by collapsing 0 into 1 and then 1 into 2;
the chain from 0 resolves to 2, which has no entry. -/
theorem c10_witness :
    ∃ r : Nat, getTranslatedFuel 3 [(1, 2), (0, 1)] 0 = some r ∧
      tmLookup [(1, 2), (0, 1)] r = none ∧ getTranslated [(1, 2), (0, 1)] 0 = r :=
  c10_get_translated_terminates [(1, 2), (0, 1)]
    (TMapBuilt.step [(0, 1)] 1 2
      (TMapBuilt.step [] 0 1 TMapBuilt.nil (by decide) (by decide) (by decide))
      (by decide) (by decide) (by decide)) 0

/-! ## Claim C3: `dissolve_edge` on a boundary half-edge

The claim asserts the error `BoundaryEdgeNotAllowed`.  The sources reach the
boundary through `face().try_end()?`, which (per the source comment at
`edit_ops.rs:322`) surfaces as `HalfedgeHasNoFace`; `BoundaryEdgeNotAllowed`
is never produced by `dissolve_edge`.  The mesh-unchanged part of the claim
holds: all fallible reads precede the first mutation. -/

/-- C3 counterexample: on the open quad, dissolving the boundary half-edge 4
returns `HalfedgeHasNoFace` — not `BoundaryEdgeNotAllowed` — (and leaves the
mesh unchanged), so the claim's error kind is wrong. -/
theorem c3_counterexample :
    isBoundaryHE openQuad 4 = true ∧
      dissolveEdge openQuad 4 = (.error Err.halfedgeHasNoFace, openQuad) ∧
      Err.halfedgeHasNoFace ≠ Err.boundaryEdgeNotAllowed := by
  refine ⟨rfl, rfl, by decide⟩

/-- C3 (amended): for every mesh and every half-edge `h` with a twin, if `h`
is a boundary half-edge (its own face or its twin's face is absent), then
`dissolve_edge` returns the error `HalfedgeHasNoFace` and leaves the mesh
unchanged. -/
theorem c3_dissolve_boundary_rejected {P : Type} (m : Mesh P) (h t : Nat)
    (htw : twinOf m h = some t)
    (hb : faceOf m h = none ∨ faceOf m t = none) :
    dissolveEdge m h = (.error Err.halfedgeHasNoFace, m) := by
  have hreads : dissolveEdgeReads m h = .error Err.halfedgeHasNoFace := by
    unfold dissolveEdgeReads
    rcases hb with hb | hb
    · simp [exTwin, htw, exFace, hb, ebind_ok, ebind_err]
    · rcases hfl : faceOf m h with _ | f_l
      · simp [exTwin, htw, exFace, hfl, ebind_ok, ebind_err]
      · simp [exTwin, htw, exFace, hfl, hb, ebind_ok, ebind_err]
  unfold dissolveEdge
  rw [hreads]

/-- Witness for C3's amended theorem at the open quad's boundary edge 4. -/
theorem c3_witness :
    twinOf openQuad 4 = some 0 ∧ (faceOf openQuad 4 = none ∨ faceOf openQuad 0 = none) ∧
      dissolveEdge openQuad 4 = (.error Err.halfedgeHasNoFace, openQuad) :=
  ⟨by decide, Or.inl (by decide),
    c3_dissolve_boundary_rejected openQuad 4 0 (by decide) (Or.inl (by decide))⟩

/-! ## Inversion lemmas for the read combinators -/

theorem exTwin_ok {m : Mesh P} {h t : Nat} : exTwin m h = .ok t ↔ twinOf m h = some t := by
  unfold exTwin; cases twinOf m h <;> simp

theorem exNext_ok {m : Mesh P} {h n : Nat} : exNext m h = .ok n ↔ nextOf m h = some n := by
  unfold exNext; cases nextOf m h <;> simp

theorem exFace_ok {m : Mesh P} {h f : Nat} : exFace m h = .ok f ↔ faceOf m h = some f := by
  unfold exFace; cases faceOf m h <;> simp

theorem exVertex_ok {m : Mesh P} {h v : Nat} : exVertex m h = .ok v ↔ vertexOf m h = some v := by
  unfold exVertex; cases vertexOf m h <;> simp

theorem exPrev_ok {m : Mesh P} {h p : Nat} : exPrev m h = .ok p ↔ prevOf m h = some p := by
  unfold exPrev; cases prevOf m h <;> simp

theorem exFanStep_ok {m : Mesh P} {h n : Nat} : exFanStep m h = .ok n ↔ fanStep m h = some n := by
  unfold exFanStep; cases fanStep m h <;> simp

theorem exPosition_ok {m : Mesh P} {v : Nat} {p : P} :
    exPosition m v = .ok p ↔ positionOf m v = some p := by
  unfold exPosition; cases positionOf m v <;> simp

theorem srcDstPair_ok {m : Mesh P} {h v w : Nat} :
    srcDstPair m h = .ok (v, w) ↔ vertexOf m h = some v ∧ dstOf m h = some w := by
  unfold srcDstPair
  rcases h1 : vertexOf m h with _ | a <;> rcases h2 : dstOf m h with _ | b <;> simp

/-! ## Liveness from reads -/

theorem live_of_twinOf {m : Mesh P} {h t : Nat} (ht : twinOf m h = some t) :
    (heAt m h).isSome := by
  rcases he : heAt m h with _ | e
  · rw [twinOf, he] at ht; exact Option.noConfusion ht
  · rfl

theorem live_of_nextOf {m : Mesh P} {h n : Nat} (hn : nextOf m h = some n) :
    (heAt m h).isSome := by
  rcases he : heAt m h with _ | e
  · rw [nextOf, he] at hn; exact Option.noConfusion hn
  · rfl

theorem live_of_vertexOf {m : Mesh P} {h v : Nat} (hv : vertexOf m h = some v) :
    (heAt m h).isSome := by
  rcases he : heAt m h with _ | e
  · rw [vertexOf, he] at hv; exact Option.noConfusion hv
  · rfl

theorem live_of_faceOf {m : Mesh P} {h f : Nat} (hf : faceOf m h = some f) :
    (heAt m h).isSome := by
  rcases he : heAt m h with _ | e
  · rw [faceOf, he] at hf; exact Option.noConfusion hf
  · rfl

theorem lt_of_live {m : Mesh P} {h : Nat} (hl : (heAt m h).isSome) :
    h < m.halfedges.length := by
  rcases Option.isSome_iff_exists.mp hl with ⟨e, he⟩
  exact aget_lt_length he

theorem prevWalk_live {m : Mesh P} {h : Nat} :
    ∀ {fuel cur p : Nat}, prevWalk m h fuel cur = some p → (heAt m p).isSome := by
  intro fuel
  induction fuel with
  | zero => intro cur p hp; exact Option.noConfusion hp
  | succ fuel ih =>
    intro cur p hp
    rw [prevWalk] at hp
    rcases hn : nextOf m cur with _ | n
    · rw [hn] at hp; exact Option.noConfusion hp
    · simp only [hn] at hp
      by_cases hnh : n = h
      · rw [if_pos hnh] at hp
        cases hp
        exact live_of_nextOf hn
      · rw [if_neg hnh] at hp
        exact ih hp

theorem prevOf_live {m : Mesh P} {h p : Nat} (hp : prevOf m h = some p) :
    (heAt m p).isSome := prevWalk_live hp

theorem prevOf_next {m : Mesh P} {h : Nat} :
    ∀ {fuel cur p : Nat}, prevWalk m h fuel cur = some p → nextOf m p = some h := by
  intro fuel
  induction fuel with
  | zero => intro cur p hp; exact Option.noConfusion hp
  | succ fuel ih =>
    intro cur p hp
    rw [prevWalk] at hp
    rcases hn : nextOf m cur with _ | n
    · rw [hn] at hp; exact Option.noConfusion hp
    · simp only [hn] at hp
      by_cases hnh : n = h
      · rw [if_pos hnh] at hp
        cases hp
        rw [hn, hnh]
      · rw [if_neg hnh] at hp
        exact ih hp

/-! ## Invariant extraction -/

theorem coreInv_twinOk {m : Mesh P} (hm : coreInv m = true) : twinOkB m = true := by
  unfold coreInv at hm; simp only [Bool.and_eq_true] at hm; exact hm.1.1.1.1.1.1.1.1.1

theorem coreInv_nextTotal {m : Mesh P} (hm : coreInv m = true) : nextTotalB m = true := by
  unfold coreInv at hm; simp only [Bool.and_eq_true] at hm; exact hm.1.1.1.1.1.1.1.2

theorem coreInv_vertexTotal {m : Mesh P} (hm : coreInv m = true) : vertexTotalB m = true := by
  unfold coreInv at hm; simp only [Bool.and_eq_true] at hm; exact hm.1.1.1.1.1.1.2

theorem coreInv_twinTotal {m : Mesh P} (hm : coreInv m = true) : twinTotalB m = true := by
  unfold coreInv at hm; simp only [Bool.and_eq_true] at hm; exact hm.1.1.1.1.1.1.1.1.2

theorem coreInv_faceRefOk {m : Mesh P} (hm : coreInv m = true) : faceRefOkB m = true := by
  unfold coreInv at hm; simp only [Bool.and_eq_true] at hm; exact hm.1.1.1.1.1.2

theorem coreInv_faceOk {m : Mesh P} (hm : coreInv m = true) : faceOkB m = true := by
  unfold coreInv at hm; simp only [Bool.and_eq_true] at hm; exact hm.1.1.1.1.2

theorem coreInv_faceCoherent {m : Mesh P} (hm : coreInv m = true) : faceCoherentB m = true := by
  unfold coreInv at hm; simp only [Bool.and_eq_true] at hm; exact hm.1.1.1.2

theorem coreInv_loopOk {m : Mesh P} (hm : coreInv m = true) : loopOkB m = true := by
  unfold coreInv at hm; simp only [Bool.and_eq_true] at hm; exact hm.1.1.2

theorem coreInv_fanOk {m : Mesh P} (hm : coreInv m = true) : fanOkB m = true := by
  unfold coreInv at hm; simp only [Bool.and_eq_true] at hm; exact hm.1.2

theorem coreInv_noDup {m : Mesh P} (hm : coreInv m = true) : noDupB m = true := by
  unfold coreInv at hm; simp only [Bool.and_eq_true] at hm; exact hm.2

theorem twinOk_spec {m : Mesh P} (hm : twinOkB m = true) {h t : Nat}
    (ht : twinOf m h = some t) : t ≠ h ∧ twinOf m t = some h := by
  rcases he : heAt m h with _ | e
  · rw [twinOf, he] at ht; exact Option.noConfusion ht
  · have hlt : h < m.halfedges.length := aget_lt_length (l := m.halfedges) he
    have hall := List.all_eq_true.mp hm h (List.mem_range.mpr hlt)
    have het : e.twin = some t := by
      rw [twinOf, he] at ht; simpa using ht
    simp only [he, het] at hall
    rcases het2 : heAt m t with _ | et
    · simp only [het2] at hall; simp at hall
    · simp only [het2] at hall
      simp only [Bool.and_eq_true, decide_eq_true_eq] at hall
      refine ⟨hall.1, ?_⟩
      rw [twinOf, het2]
      simpa using hall.2

/-! ## Half-edge reads through vertex/face-arena operations and allocation -/

theorem heAt_setVH (m : Mesh P) (a : Nat) (hh : Option Nat) (b : Nat) :
    heAt (setVertexHalfedge m a hh) b = heAt m b := by
  unfold heAt setVertexHalfedge; rw [halfedges_updV']

theorem heAt_setFH (m : Mesh P) (a : Nat) (hh : Option Nat) (b : Nat) :
    heAt (setFaceHalfedge m a hh) b = heAt m b := by
  unfold heAt setFaceHalfedge; rw [halfedges_updF']

theorem heAt_updPos (m : Mesh P) (a : Nat) (g : P → P) (b : Nat) :
    heAt (updatePosition m a g) b = heAt m b := by
  unfold heAt updatePosition; rw [halfedges_updV']

theorem heAt_removeV (m : Mesh P) (a b : Nat) :
    heAt (removeVertex m a) b = heAt m b := rfl

theorem heAt_removeF (m : Mesh P) (a b : Nat) :
    heAt (removeFace m a) b = heAt m b := rfl

theorem heAt_allocV (m : Mesh P) (p : P) (h0 : Option Nat) (b : Nat) :
    heAt (allocVertex m p h0).2 b = heAt m b := rfl

theorem heAt_allocF (m : Mesh P) (h0 : Option Nat) (b : Nat) :
    heAt (allocFace m h0).2 b = heAt m b := rfl

theorem twinOf_setVH (m : Mesh P) (a : Nat) (hh : Option Nat) (b : Nat) :
    twinOf (setVertexHalfedge m a hh) b = twinOf m b := by
  unfold twinOf; rw [heAt_setVH]

theorem twinOf_setFH (m : Mesh P) (a : Nat) (hh : Option Nat) (b : Nat) :
    twinOf (setFaceHalfedge m a hh) b = twinOf m b := by
  unfold twinOf; rw [heAt_setFH]

theorem nextOf_setVH (m : Mesh P) (a : Nat) (hh : Option Nat) (b : Nat) :
    nextOf (setVertexHalfedge m a hh) b = nextOf m b := by
  unfold nextOf; rw [heAt_setVH]

theorem nextOf_setFH (m : Mesh P) (a : Nat) (hh : Option Nat) (b : Nat) :
    nextOf (setFaceHalfedge m a hh) b = nextOf m b := by
  unfold nextOf; rw [heAt_setFH]

theorem vertexOf_setVH (m : Mesh P) (a : Nat) (hh : Option Nat) (b : Nat) :
    vertexOf (setVertexHalfedge m a hh) b = vertexOf m b := by
  unfold vertexOf; rw [heAt_setVH]

theorem vertexOf_setFH (m : Mesh P) (a : Nat) (hh : Option Nat) (b : Nat) :
    vertexOf (setFaceHalfedge m a hh) b = vertexOf m b := by
  unfold vertexOf; rw [heAt_setFH]

theorem faceOf_setVH (m : Mesh P) (a : Nat) (hh : Option Nat) (b : Nat) :
    faceOf (setVertexHalfedge m a hh) b = faceOf m b := by
  unfold faceOf; rw [heAt_setVH]

theorem faceOf_setFH (m : Mesh P) (a : Nat) (hh : Option Nat) (b : Nat) :
    faceOf (setFaceHalfedge m a hh) b = faceOf m b := by
  unfold faceOf; rw [heAt_setFH]

theorem twinOf_allocHE_ne (m : Mesh P) (e : HalfEdgeData) (b : Nat)
    (hne : b ≠ m.halfedges.length) : twinOf (allocHalfedge m e).2 b = twinOf m b := by
  unfold twinOf; rw [heAt_alloc_ne _ _ _ hne]

theorem twinOf_allocHE_self (m : Mesh P) (e : HalfEdgeData) :
    twinOf (allocHalfedge m e).2 m.halfedges.length = e.twin := by
  unfold twinOf; rw [heAt_alloc_self]; rfl

theorem nextOf_allocHE_ne (m : Mesh P) (e : HalfEdgeData) (b : Nat)
    (hne : b ≠ m.halfedges.length) : nextOf (allocHalfedge m e).2 b = nextOf m b := by
  unfold nextOf; rw [heAt_alloc_ne _ _ _ hne]

theorem nextOf_allocHE_self (m : Mesh P) (e : HalfEdgeData) :
    nextOf (allocHalfedge m e).2 m.halfedges.length = e.next := by
  unfold nextOf; rw [heAt_alloc_self]; rfl

theorem vertexOf_allocHE_ne (m : Mesh P) (e : HalfEdgeData) (b : Nat)
    (hne : b ≠ m.halfedges.length) : vertexOf (allocHalfedge m e).2 b = vertexOf m b := by
  unfold vertexOf; rw [heAt_alloc_ne _ _ _ hne]

theorem vertexOf_allocHE_self (m : Mesh P) (e : HalfEdgeData) :
    vertexOf (allocHalfedge m e).2 m.halfedges.length = e.vertex := by
  unfold vertexOf; rw [heAt_alloc_self]; rfl

theorem faceOf_allocHE_ne (m : Mesh P) (e : HalfEdgeData) (b : Nat)
    (hne : b ≠ m.halfedges.length) : faceOf (allocHalfedge m e).2 b = faceOf m b := by
  unfold faceOf; rw [heAt_alloc_ne _ _ _ hne]

theorem faceOf_allocHE_self (m : Mesh P) (e : HalfEdgeData) :
    faceOf (allocHalfedge m e).2 m.halfedges.length = e.face := by
  unfold faceOf; rw [heAt_alloc_self]; rfl

/-! ## Vertex and face reads through half-edge operations -/

theorem vAt_updHE (m : Mesh P) (a : Nat) (g : HalfEdgeData → HalfEdgeData) (u : Nat) :
    vAt (updHE m a g) u = vAt m u := by
  unfold vAt; rw [vertices_updHE]

theorem vAt_updF (m : Mesh P) (a : Nat) (g : FaceData → FaceData) (u : Nat) :
    vAt (updF m a g) u = vAt m u := by
  unfold vAt; rw [vertices_updF]

theorem vAt_removeHE (m : Mesh P) (a u : Nat) : vAt (removeHalfedge m a) u = vAt m u := rfl

theorem vAt_removeF (m : Mesh P) (a u : Nat) : vAt (removeFace m a) u = vAt m u := rfl

theorem vAt_allocHE (m : Mesh P) (e : HalfEdgeData) (u : Nat) :
    vAt (allocHalfedge m e).2 u = vAt m u := rfl

theorem vAt_allocF (m : Mesh P) (h0 : Option Nat) (u : Nat) :
    vAt (allocFace m h0).2 u = vAt m u := rfl

theorem fAt_updHE (m : Mesh P) (a : Nat) (g : HalfEdgeData → HalfEdgeData) (f : Nat) :
    fAt (updHE m a g) f = fAt m f := by
  unfold fAt; rw [faces_updHE]

theorem fAt_updV (m : Mesh P) (a : Nat) (g : VertexData P → VertexData P) (f : Nat) :
    fAt (updV m a g) f = fAt m f := by
  unfold fAt; rw [faces_updV]

theorem fAt_removeHE (m : Mesh P) (a f : Nat) : fAt (removeHalfedge m a) f = fAt m f := rfl

theorem fAt_removeV (m : Mesh P) (a f : Nat) : fAt (removeVertex m a) f = fAt m f := rfl

theorem fAt_allocHE (m : Mesh P) (e : HalfEdgeData) (f : Nat) :
    fAt (allocHalfedge m e).2 f = fAt m f := rfl

theorem fAt_allocV (m : Mesh P) (p : P) (h0 : Option Nat) (f : Nat) :
    fAt (allocVertex m p h0).2 f = fAt m f := rfl

theorem liveHE_allocHE (m : Mesh P) (e : HalfEdgeData) (b : Nat) :
    liveHE (allocHalfedge m e).2 b = (decide (b = m.halfedges.length) || liveHE m b) := by
  unfold liveHE
  rcases eq_or_ne b m.halfedges.length with rfl | hne
  · rw [heAt_alloc_self]; simp
  · rw [heAt_alloc_ne _ _ _ hne, decide_eq_false hne]; simp

theorem liveHE_setVH (m : Mesh P) (a : Nat) (hh : Option Nat) (b : Nat) :
    liveHE (setVertexHalfedge m a hh) b = liveHE m b := by
  unfold liveHE; rw [heAt_setVH]

theorem liveHE_setFH (m : Mesh P) (a : Nat) (hh : Option Nat) (b : Nat) :
    liveHE (setFaceHalfedge m a hh) b = liveHE m b := by
  unfold liveHE; rw [heAt_setFH]

/-! ## Characterization of `divide_edge`'s write phase -/

theorem aget_append2_lt {α : Type} (l : List (Option α)) (x y : Option α) (i : Nat)
    (h : i < l.length) : aget (l ++ [x] ++ [y]) i = aget l i := by
  rw [aget_append_lt _ _ _ (by simp; omega), aget_append_lt _ _ _ h]

theorem aget_append2_first {α : Type} (l : List (Option α)) (x y : Option α) :
    aget (l ++ [x] ++ [y]) l.length = x := by
  rw [aget_append_lt _ _ _ (by simp), aget_append_self]

theorem aget_append2_second {α : Type} (l : List (Option α)) (x y : Option α) :
    aget (l ++ [x] ++ [y]) (l.length + 1) = y := by
  have : (l ++ [x]).length = l.length + 1 := by simp
  rw [← this, aget_append_self]

theorem aget_append2_ge {α : Type} (l : List (Option α)) (x y : Option α) (i : Nat)
    (h : l.length + 2 ≤ i) : aget (l ++ [x] ++ [y]) i = none := by
  apply aget_ge_length
  simp; omega

theorem liveHE_setTwin (m : Mesh P) (a : Nat) (t : Option Nat) (b : Nat) :
    liveHE (setTwin m a t) b = liveHE m b := liveHE_updHE _ _ _ _

theorem liveHE_setNext (m : Mesh P) (a : Nat) (n : Option Nat) (b : Nat) :
    liveHE (setNext m a n) b = liveHE m b := liveHE_updHE _ _ _ _

theorem liveHE_setVertexField (m : Mesh P) (a : Nat) (v : Option Nat) (b : Nat) :
    liveHE (setVertexField m a v) b = liveHE m b := liveHE_updHE _ _ _ _

theorem liveHE_setFaceField (m : Mesh P) (a : Nat) (f : Option Nat) (b : Nat) :
    liveHE (setFaceField m a f) b = liveHE m b := liveHE_updHE _ _ _ _

theorem divideWrites_len_he (m : Mesh P) (h_l h_r h_l_prev h_r_next v w : Nat) (pos : P) :
    (divideWrites m h_l h_r h_l_prev h_r_next v w pos).2.halfedges.length =
      m.halfedges.length + 2 := by
  simp only [divideWrites, allocVertex, allocHalfedge, setVertexHalfedge, setFaceField,
    setVertexField, setTwin, setNext, halfedges_updV', length_he_updHE]
  simp

theorem divideWrites_fst (m : Mesh P) (h_l h_r h_l_prev h_r_next v w : Nat) (pos : P) :
    (divideWrites m h_l h_r h_l_prev h_r_next v w pos).1 = m.vertices.length := rfl

theorem divideWrites_twinOf (m : Mesh P) (h_l h_r h_l_prev h_r_next v w : Nat) (pos : P)
    (hl : (heAt m h_l).isSome) (hr : (heAt m h_r).isSome) (hlr : h_l ≠ h_r) (y : Nat) :
    twinOf (divideWrites m h_l h_r h_l_prev h_r_next v w pos).2 y =
      (if y = h_r then some h_l
       else if y = h_l then some h_r
       else if y = m.halfedges.length + 1 then some m.halfedges.length
       else if y = m.halfedges.length then some (m.halfedges.length + 1)
       else twinOf m y) := by
  have hllt := lt_of_live hl
  have hrlt := lt_of_live hr
  simp only [divideWrites, allocVertex, allocHalfedge, List.length_append, List.length_cons,
    List.length_nil]
  rw [twinOf_setVH, twinOf_setVH, twinOf_setFaceField, twinOf_setFaceField,
    twinOf_setVertexField, twinOf_setVertexField, twinOf_setVertexField,
    twinOf_setVertexField]
  by_cases hy1 : y = h_r
  · subst hy1
    rw [if_pos rfl, twinOf_setTwin_self]
    show liveHE _ y = true
    rw [liveHE_setTwin, liveHE_setTwin, liveHE_setTwin, liveHE_setNext, liveHE_setNext,
      liveHE_setNext, liveHE_setNext]
    show (aget (m.halfedges ++ [some defaultHalfEdge] ++ [some defaultHalfEdge]) y).isSome = true
    rw [aget_append2_lt _ _ _ _ hrlt]
    exact hr
  · rw [if_neg hy1, twinOf_setTwin_ne _ _ _ _ hy1]
    by_cases hy2 : y = h_l
    · subst hy2
      rw [if_pos rfl, twinOf_setTwin_self]
      show liveHE _ y = true
      rw [liveHE_setTwin, liveHE_setTwin, liveHE_setNext, liveHE_setNext,
        liveHE_setNext, liveHE_setNext]
      show (aget (m.halfedges ++ [some defaultHalfEdge] ++ [some defaultHalfEdge]) y).isSome
        = true
      rw [aget_append2_lt _ _ _ _ hllt]
      exact hl
    · rw [if_neg hy2, twinOf_setTwin_ne _ _ _ _ hy2]
      by_cases hy3 : y = m.halfedges.length + 1
      · subst hy3
        rw [if_pos rfl, twinOf_setTwin_self]
        show liveHE _ _ = true
        rw [liveHE_setTwin, liveHE_setNext, liveHE_setNext, liveHE_setNext, liveHE_setNext]
        show (aget (m.halfedges ++ [some defaultHalfEdge] ++ [some defaultHalfEdge])
          (m.halfedges.length + 1)).isSome = true
        rw [aget_append2_second]
        rfl
      · rw [if_neg hy3, twinOf_setTwin_ne _ _ _ _ hy3]
        by_cases hy4 : y = m.halfedges.length
        · subst hy4
          rw [if_pos rfl, twinOf_setTwin_self]
          show liveHE _ _ = true
          rw [liveHE_setNext, liveHE_setNext, liveHE_setNext, liveHE_setNext]
          show (aget (m.halfedges ++ [some defaultHalfEdge] ++ [some defaultHalfEdge])
            m.halfedges.length).isSome = true
          rw [aget_append2_first]
          rfl
        · rw [if_neg hy4, twinOf_setTwin_ne _ _ _ _ hy4]
          rw [twinOf_setNext, twinOf_setNext, twinOf_setNext, twinOf_setNext]
          show (aget (m.halfedges ++ [some defaultHalfEdge] ++ [some defaultHalfEdge]) y).bind
            (fun e => e.twin) = twinOf m y
          rcases Nat.lt_or_ge y m.halfedges.length with hlt | hge
          · rw [aget_append2_lt _ _ _ _ hlt]
            rfl
          · rw [aget_append2_ge _ _ _ y (by omega)]
            rw [twinOf, heAt, aget_ge_length _ _ hge]

theorem vAt_setTwin (m : Mesh P) (a : Nat) (t : Option Nat) (u : Nat) :
    vAt (setTwin m a t) u = vAt m u := vAt_updHE _ _ _ _

theorem vAt_setNext (m : Mesh P) (a : Nat) (n : Option Nat) (u : Nat) :
    vAt (setNext m a n) u = vAt m u := vAt_updHE _ _ _ _

theorem vAt_setVertexField (m : Mesh P) (a : Nat) (vv : Option Nat) (u : Nat) :
    vAt (setVertexField m a vv) u = vAt m u := vAt_updHE _ _ _ _

theorem vAt_setFaceField (m : Mesh P) (a : Nat) (f : Option Nat) (u : Nat) :
    vAt (setFaceField m a f) u = vAt m u := vAt_updHE _ _ _ _

theorem vAt_setFH (m : Mesh P) (a : Nat) (hh : Option Nat) (u : Nat) :
    vAt (setFaceHalfedge m a hh) u = vAt m u := vAt_updF _ _ _ _

theorem fAt_setTwin (m : Mesh P) (a : Nat) (t : Option Nat) (f : Nat) :
    fAt (setTwin m a t) f = fAt m f := fAt_updHE _ _ _ _

theorem fAt_setNext (m : Mesh P) (a : Nat) (n : Option Nat) (f : Nat) :
    fAt (setNext m a n) f = fAt m f := fAt_updHE _ _ _ _

theorem fAt_setVertexField (m : Mesh P) (a : Nat) (vv : Option Nat) (f : Nat) :
    fAt (setVertexField m a vv) f = fAt m f := fAt_updHE _ _ _ _

theorem fAt_setFaceField (m : Mesh P) (a : Nat) (ff : Option Nat) (f : Nat) :
    fAt (setFaceField m a ff) f = fAt m f := fAt_updHE _ _ _ _

theorem fAt_setVH (m : Mesh P) (a : Nat) (hh : Option Nat) (f : Nat) :
    fAt (setVertexHalfedge m a hh) f = fAt m f := fAt_updV _ _ _ _

theorem divideWrites_nextOf (m : Mesh P) (h_l h_r h_l_prev h_r_next v w : Nat) (pos : P)
    (hr : (heAt m h_r).isSome) (hp : (heAt m h_l_prev).isSome) (y : Nat) :
    nextOf (divideWrites m h_l h_r h_l_prev h_r_next v w pos).2 y =
      (if y = m.halfedges.length + 1 then some h_r_next
       else if y = h_r then some (m.halfedges.length + 1)
       else if y = h_l_prev then some m.halfedges.length
       else if y = m.halfedges.length then some h_l
       else nextOf m y) := by
  have hrlt := lt_of_live hr
  have hplt := lt_of_live hp
  simp only [divideWrites, allocVertex, allocHalfedge, List.length_append, List.length_cons,
    List.length_nil]
  rw [nextOf_setVH, nextOf_setVH, nextOf_setFaceField, nextOf_setFaceField,
    nextOf_setVertexField, nextOf_setVertexField, nextOf_setVertexField,
    nextOf_setVertexField, nextOf_setTwin, nextOf_setTwin, nextOf_setTwin, nextOf_setTwin]
  by_cases hy1 : y = m.halfedges.length + 1
  · subst hy1
    rw [if_pos rfl, nextOf_setNext_self]
    show liveHE _ _ = true
    rw [liveHE_setNext, liveHE_setNext, liveHE_setNext]
    show (aget (m.halfedges ++ [some defaultHalfEdge] ++ [some defaultHalfEdge])
      (m.halfedges.length + 1)).isSome = true
    rw [aget_append2_second]
    rfl
  · rw [if_neg hy1, nextOf_setNext_ne _ _ _ _ hy1]
    by_cases hy2 : y = h_r
    · subst hy2
      rw [if_pos rfl, nextOf_setNext_self]
      show liveHE _ _ = true
      rw [liveHE_setNext, liveHE_setNext]
      show (aget (m.halfedges ++ [some defaultHalfEdge] ++ [some defaultHalfEdge]) y).isSome
        = true
      rw [aget_append2_lt _ _ _ _ hrlt]
      exact hr
    · rw [if_neg hy2, nextOf_setNext_ne _ _ _ _ hy2]
      by_cases hy3 : y = h_l_prev
      · subst hy3
        rw [if_pos rfl, nextOf_setNext_self]
        show liveHE _ _ = true
        rw [liveHE_setNext]
        show (aget (m.halfedges ++ [some defaultHalfEdge] ++ [some defaultHalfEdge]) y).isSome
          = true
        rw [aget_append2_lt _ _ _ _ hplt]
        exact hp
      · rw [if_neg hy3, nextOf_setNext_ne _ _ _ _ hy3]
        by_cases hy4 : y = m.halfedges.length
        · subst hy4
          rw [if_pos rfl, nextOf_setNext_self]
          show (aget (m.halfedges ++ [some defaultHalfEdge] ++ [some defaultHalfEdge])
            m.halfedges.length).isSome = true
          rw [aget_append2_first]
          rfl
        · rw [if_neg hy4, nextOf_setNext_ne _ _ _ _ hy4]
          show (aget (m.halfedges ++ [some defaultHalfEdge] ++ [some defaultHalfEdge]) y).bind
            (fun e => e.next) = nextOf m y
          rcases Nat.lt_or_ge y m.halfedges.length with hlt | hge
          · rw [aget_append2_lt _ _ _ _ hlt]
            rfl
          · rw [aget_append2_ge _ _ _ y (by omega)]
            rw [nextOf, heAt, aget_ge_length _ _ hge]

theorem divideWrites_vertexOf (m : Mesh P) (h_l h_r h_l_prev h_r_next v w : Nat) (pos : P)
    (hl : (heAt m h_l).isSome) (hr : (heAt m h_r).isSome) (hlr : h_l ≠ h_r) (y : Nat) :
    vertexOf (divideWrites m h_l h_r h_l_prev h_r_next v w pos).2 y =
      (if y = m.halfedges.length then some v
       else if y = m.halfedges.length + 1 then some m.vertices.length
       else if y = h_r then some w
       else if y = h_l then some m.vertices.length
       else vertexOf m y) := by
  have hllt := lt_of_live hl
  have hrlt := lt_of_live hr
  simp only [divideWrites, allocVertex, allocHalfedge, List.length_append, List.length_cons,
    List.length_nil]
  rw [vertexOf_setVH, vertexOf_setVH, vertexOf_setFaceField, vertexOf_setFaceField]
  by_cases hy1 : y = m.halfedges.length
  · subst hy1
    rw [if_pos rfl, vertexOf_setVertexField_self]
    show liveHE _ _ = true
    rw [liveHE_setVertexField, liveHE_setVertexField, liveHE_setVertexField,
      liveHE_setTwin, liveHE_setTwin, liveHE_setTwin, liveHE_setTwin,
      liveHE_setNext, liveHE_setNext, liveHE_setNext, liveHE_setNext]
    show (aget (m.halfedges ++ [some defaultHalfEdge] ++ [some defaultHalfEdge])
      m.halfedges.length).isSome = true
    rw [aget_append2_first]
    rfl
  · rw [if_neg hy1, vertexOf_setVertexField_ne _ _ _ _ hy1]
    by_cases hy2 : y = m.halfedges.length + 1
    · subst hy2
      rw [if_pos rfl, vertexOf_setVertexField_self]
      show liveHE _ _ = true
      rw [liveHE_setVertexField, liveHE_setVertexField,
        liveHE_setTwin, liveHE_setTwin, liveHE_setTwin, liveHE_setTwin,
        liveHE_setNext, liveHE_setNext, liveHE_setNext, liveHE_setNext]
      show (aget (m.halfedges ++ [some defaultHalfEdge] ++ [some defaultHalfEdge])
        (m.halfedges.length + 1)).isSome = true
      rw [aget_append2_second]
      rfl
    · rw [if_neg hy2, vertexOf_setVertexField_ne _ _ _ _ hy2]
      by_cases hy3 : y = h_r
      · subst hy3
        rw [if_pos rfl, vertexOf_setVertexField_self]
        show liveHE _ _ = true
        rw [liveHE_setVertexField,
          liveHE_setTwin, liveHE_setTwin, liveHE_setTwin, liveHE_setTwin,
          liveHE_setNext, liveHE_setNext, liveHE_setNext, liveHE_setNext]
        show (aget (m.halfedges ++ [some defaultHalfEdge] ++ [some defaultHalfEdge]) y).isSome
          = true
        rw [aget_append2_lt _ _ _ _ hrlt]
        exact hr
      · rw [if_neg hy3, vertexOf_setVertexField_ne _ _ _ _ hy3]
        by_cases hy4 : y = h_l
        · subst hy4
          rw [if_pos rfl, vertexOf_setVertexField_self]
          show liveHE _ _ = true
          rw [liveHE_setTwin, liveHE_setTwin, liveHE_setTwin, liveHE_setTwin,
            liveHE_setNext, liveHE_setNext, liveHE_setNext, liveHE_setNext]
          show (aget (m.halfedges ++ [some defaultHalfEdge] ++ [some defaultHalfEdge]) y).isSome
            = true
          rw [aget_append2_lt _ _ _ _ hllt]
          exact hl
        · rw [if_neg hy4, vertexOf_setVertexField_ne _ _ _ _ hy4,
            vertexOf_setTwin, vertexOf_setTwin, vertexOf_setTwin, vertexOf_setTwin,
            vertexOf_setNext, vertexOf_setNext, vertexOf_setNext, vertexOf_setNext]
          show (aget (m.halfedges ++ [some defaultHalfEdge] ++ [some defaultHalfEdge]) y).bind
            (fun e => e.vertex) = vertexOf m y
          rcases Nat.lt_or_ge y m.halfedges.length with hlt | hge
          · rw [aget_append2_lt _ _ _ _ hlt]
            rfl
          · rw [aget_append2_ge _ _ _ y (by omega)]
            rw [vertexOf, heAt, aget_ge_length _ _ hge]

theorem divideWrites_faceOf (m : Mesh P) (h_l h_r h_l_prev h_r_next v w : Nat) (pos : P)
    (y : Nat) :
    faceOf (divideWrites m h_l h_r h_l_prev h_r_next v w pos).2 y =
      (if y = m.halfedges.length + 1 then faceOf m h_r
       else if y = m.halfedges.length then faceOf m h_l
       else faceOf m y) := by
  simp only [divideWrites, allocVertex, allocHalfedge, List.length_append, List.length_cons,
    List.length_nil]
  rw [faceOf_setVH, faceOf_setVH]
  by_cases hy1 : y = m.halfedges.length + 1
  · subst hy1
    rw [if_pos rfl, faceOf_setFaceField_self]
    show liveHE _ _ = true
    rw [liveHE_setFaceField, liveHE_setVertexField, liveHE_setVertexField,
      liveHE_setVertexField, liveHE_setVertexField,
      liveHE_setTwin, liveHE_setTwin, liveHE_setTwin, liveHE_setTwin,
      liveHE_setNext, liveHE_setNext, liveHE_setNext, liveHE_setNext]
    show (aget (m.halfedges ++ [some defaultHalfEdge] ++ [some defaultHalfEdge])
      (m.halfedges.length + 1)).isSome = true
    rw [aget_append2_second]
    rfl
  · rw [if_neg hy1, faceOf_setFaceField_ne _ _ _ _ hy1]
    by_cases hy2 : y = m.halfedges.length
    · subst hy2
      rw [if_pos rfl, faceOf_setFaceField_self]
      show liveHE _ _ = true
      rw [liveHE_setVertexField, liveHE_setVertexField,
        liveHE_setVertexField, liveHE_setVertexField,
        liveHE_setTwin, liveHE_setTwin, liveHE_setTwin, liveHE_setTwin,
        liveHE_setNext, liveHE_setNext, liveHE_setNext, liveHE_setNext]
      show (aget (m.halfedges ++ [some defaultHalfEdge] ++ [some defaultHalfEdge])
        m.halfedges.length).isSome = true
      rw [aget_append2_first]
      rfl
    · rw [if_neg hy2, faceOf_setFaceField_ne _ _ _ _ hy2,
        faceOf_setVertexField, faceOf_setVertexField, faceOf_setVertexField,
        faceOf_setVertexField,
        faceOf_setTwin, faceOf_setTwin, faceOf_setTwin, faceOf_setTwin,
        faceOf_setNext, faceOf_setNext, faceOf_setNext, faceOf_setNext]
      show (aget (m.halfedges ++ [some defaultHalfEdge] ++ [some defaultHalfEdge]) y).bind
        (fun e => e.face) = faceOf m y
      rcases Nat.lt_or_ge y m.halfedges.length with hlt | hge
      · rw [aget_append2_lt _ _ _ _ hlt]
        rfl
      · rw [aget_append2_ge _ _ _ y (by omega)]
        rw [faceOf, heAt, aget_ge_length _ _ hge]

theorem divideWrites_liveHE (m : Mesh P) (h_l h_r h_l_prev h_r_next v w : Nat) (pos : P)
    (y : Nat) :
    liveHE (divideWrites m h_l h_r h_l_prev h_r_next v w pos).2 y =
      (decide (y = m.halfedges.length) || decide (y = m.halfedges.length + 1) ||
        liveHE m y) := by
  simp only [divideWrites, allocVertex, allocHalfedge, List.length_append, List.length_cons,
    List.length_nil]
  rw [show ∀ (mm : Mesh P) (a : Nat) (hh : Option Nat) (b : Nat),
      liveHE (setVertexHalfedge mm a hh) b = liveHE mm b from fun mm a hh b => by
        unfold liveHE; rw [heAt_setVH]]
  rw [show ∀ (mm : Mesh P) (a : Nat) (hh : Option Nat) (b : Nat),
      liveHE (setVertexHalfedge mm a hh) b = liveHE mm b from fun mm a hh b => by
        unfold liveHE; rw [heAt_setVH]]
  rw [liveHE_setFaceField, liveHE_setFaceField, liveHE_setVertexField, liveHE_setVertexField,
    liveHE_setVertexField, liveHE_setVertexField,
    liveHE_setTwin, liveHE_setTwin, liveHE_setTwin, liveHE_setTwin,
    liveHE_setNext, liveHE_setNext, liveHE_setNext, liveHE_setNext]
  show (aget (m.halfedges ++ [some defaultHalfEdge] ++ [some defaultHalfEdge]) y).isSome = _
  by_cases hy1 : y = m.halfedges.length
  · subst hy1
    rw [aget_append2_first]
    simp [liveHE]
  · by_cases hy2 : y = m.halfedges.length + 1
    · subst hy2
      rw [aget_append2_second]
      simp [liveHE]
    · rw [decide_eq_false hy1, decide_eq_false hy2]
      rcases Nat.lt_or_ge y m.halfedges.length with hlt | hge
      · rw [aget_append2_lt _ _ _ _ hlt]
        simp [liveHE, heAt]
      · rw [aget_append2_ge _ _ _ y (by omega)]
        unfold liveHE heAt
        rw [aget_ge_length _ _ hge]
        simp

theorem vAt_setVH_self (m : Mesh P) (a : Nat) (hh : Option Nat) :
    vAt (setVertexHalfedge m a hh) a = (vAt m a).map (fun e => { e with halfedge := hh }) :=
  vAt_updV_self _ _ _

theorem vAt_setVH_ne (m : Mesh P) (a : Nat) (hh : Option Nat) (u : Nat) (hne : u ≠ a) :
    vAt (setVertexHalfedge m a hh) u = vAt m u := vAt_updV_ne _ _ _ _ hne

theorem vAt_mk (vs : List (Option (VertexData P))) (hs : List (Option HalfEdgeData))
    (fs : List (Option FaceData)) (u : Nat) : vAt (Mesh.mk vs hs fs) u = aget vs u := rfl

theorem heAt_mk (vs : List (Option (VertexData P))) (hs : List (Option HalfEdgeData))
    (fs : List (Option FaceData)) (h : Nat) : heAt (Mesh.mk vs hs fs) h = aget hs h := rfl

theorem fAt_mk (vs : List (Option (VertexData P))) (hs : List (Option HalfEdgeData))
    (fs : List (Option FaceData)) (f : Nat) : fAt (Mesh.mk vs hs fs) f = aget fs f := rfl

theorem divideWrites_vAt (m : Mesh P) (h_l h_r h_l_prev h_r_next v w : Nat) (pos : P)
    (hv : (vAt m v).isSome) (u : Nat) :
    vAt (divideWrites m h_l h_r h_l_prev h_r_next v w pos).2 u =
      (if u = v then (vAt m v).map (fun e => { e with halfedge := some m.halfedges.length })
       else if u = m.vertices.length then some ⟨pos, some h_l⟩
       else vAt m u) := by
  have hvlt : v < m.vertices.length := by
    rcases Option.isSome_iff_exists.mp hv with ⟨e, he⟩
    exact aget_lt_length he
  simp only [divideWrites, allocVertex, allocHalfedge, List.length_append, List.length_cons,
    List.length_nil]
  by_cases hu1 : u = v
  · subst hu1
    rw [if_pos rfl, vAt_setVH_self,
      vAt_setVH_ne _ _ _ _ (by omega),
      vAt_setFaceField, vAt_setFaceField, vAt_setVertexField,
      vAt_setVertexField, vAt_setVertexField, vAt_setVertexField,
      vAt_setTwin, vAt_setTwin, vAt_setTwin, vAt_setTwin,
      vAt_setNext, vAt_setNext, vAt_setNext, vAt_setNext]
    rw [vAt_mk, aget_append_lt _ _ _ hvlt]
    rfl
  · rw [if_neg hu1, vAt_setVH_ne _ _ _ _ hu1]
    by_cases hu2 : u = m.vertices.length
    · subst hu2
      rw [if_pos rfl, vAt_setVH_self,
        vAt_setFaceField, vAt_setFaceField, vAt_setVertexField,
        vAt_setVertexField, vAt_setVertexField, vAt_setVertexField,
        vAt_setTwin, vAt_setTwin, vAt_setTwin, vAt_setTwin,
        vAt_setNext, vAt_setNext, vAt_setNext, vAt_setNext]
      rw [vAt_mk, aget_append_self]
      rfl
    · rw [if_neg hu2, vAt_setVH_ne _ _ _ _ hu2,
        vAt_setFaceField, vAt_setFaceField, vAt_setVertexField,
        vAt_setVertexField, vAt_setVertexField, vAt_setVertexField,
        vAt_setTwin, vAt_setTwin, vAt_setTwin, vAt_setTwin,
        vAt_setNext, vAt_setNext, vAt_setNext, vAt_setNext]
      rw [vAt_mk]
      rcases Nat.lt_or_ge u m.vertices.length with hlt | hge
      · rw [aget_append_lt _ _ _ hlt]
        rfl
      · rw [aget_ge_length _ _ (by simp; omega)]
        rw [vAt, aget_ge_length _ _ hge]

theorem divideWrites_faces (m : Mesh P) (h_l h_r h_l_prev h_r_next v w : Nat) (pos : P) :
    (divideWrites m h_l h_r h_l_prev h_r_next v w pos).2.faces = m.faces := by
  simp only [divideWrites, allocVertex, allocHalfedge, setVertexHalfedge, setFaceField,
    setVertexField, setTwin, setNext, faces_updV, faces_updHE]

theorem divideWrites_len_v (m : Mesh P) (h_l h_r h_l_prev h_r_next v w : Nat) (pos : P) :
    (divideWrites m h_l h_r h_l_prev h_r_next v w pos).2.vertices.length =
      m.vertices.length + 1 := by
  simp only [divideWrites, allocVertex, allocHalfedge, setVertexHalfedge, setFaceField,
    setVertexField, setTwin, setNext, halfedges_updV', length_v_updV, vertices_updHE]
  simp

/-! ## Claim C2: id stability of `divide_edge` -/

theorem divideEdgeReads_ok {m : Mesh P} {h h_r h_l_prev h_r_next v w : Nat}
    (hr : divideEdgeReads m h = .ok (h_r, h_l_prev, h_r_next, v, w)) :
    twinOf m h = some h_r ∧ prevOf m h = some h_l_prev ∧ nextOf m h_r = some h_r_next ∧
      vertexOf m h = some v ∧ dstOf m h = some w := by
  unfold divideEdgeReads at hr
  rcases h1 : exTwin m h with e1 | a1
  · rw [h1] at hr; simp [ebind_err] at hr
  · rw [h1, ebind_ok] at hr
    rcases h2 : exPrev m h with e2 | a2
    · rw [h2] at hr; simp [ebind_err] at hr
    · rw [h2, ebind_ok] at hr
      rcases h3 : exNext m a1 with e3 | a3
      · rw [h3] at hr; simp [ebind_err] at hr
      · rw [h3, ebind_ok] at hr
        rcases h4 : exSrcDst m h with e4 | ⟨a4, a5⟩
        · rw [h4] at hr; simp [ebind_err] at hr
        · rw [h4, ebind_ok] at hr
          simp only [pure, Except.pure, Except.ok.injEq, Prod.mk.injEq] at hr
          obtain ⟨hh1, hh2, hh3, hh4, hh5⟩ := hr
          subst hh1; subst hh2; subst hh3; subst hh4; subst hh5
          refine ⟨exTwin_ok.mp h1, exPrev_ok.mp h2, exNext_ok.mp h3, ?_, ?_⟩
          · exact (srcDstPair_ok.mp h4).1
          · exact (srcDstPair_ok.mp h4).2

theorem divideEdge_ok {G : GeomOps P} {m : Mesh P} {h : Nat} {t : ℚ} {x : Nat} {m' : Mesh P}
    (hd : divideEdge G m h t = (.ok x, m')) :
    ∃ h_r h_l_prev h_r_next v w pv pw,
      divideEdgeReads m h = .ok (h_r, h_l_prev, h_r_next, v, w) ∧
        positionOf m v = some pv ∧ positionOf m w = some pw ∧
        x = m.vertices.length ∧
        m' = (divideWrites m h h_r h_l_prev h_r_next v w (G.lerp pv pw t)).2 := by
  unfold divideEdge at hd
  rcases hres : divideEdgeReads m h with e | ⟨h_r, h_l_prev, h_r_next, v, w⟩
  · simp only [hres] at hd
    exact absurd (congrArg Prod.fst hd) (by simp)
  · simp only [hres] at hd
    rcases hpv : positionOf m v with _ | pv
    · simp only [hpv] at hd
      exact absurd (congrArg Prod.fst hd) (by simp)
    · rcases hpw : positionOf m w with _ | pw
      · simp only [hpv, hpw] at hd
        exact absurd (congrArg Prod.fst hd) (by simp)
      · simp only [hpv, hpw, Prod.mk.injEq, Except.ok.injEq] at hd
        obtain ⟨hx, hm⟩ := hd
        refine ⟨h_r, h_l_prev, h_r_next, v, w, pv, pw, rfl, hpv, hpw, ?_, hm.symm⟩
        rw [← hx, divideWrites_fst]

/-- C2: when `divide_edge(h, t)` succeeds on the half-edge `h` from `v` to
`w`, returning the new vertex `x`, the handle `h` still refers to a live
half-edge whose start vertex is `x` and whose destination is `w`, and the
newly allocated half-edge (id `m.halfedges.length`) runs from `v` to `x`. -/
theorem dstOf_def (m : Mesh P) (h : Nat) :
    dstOf m h = (twinOf m h).bind (vertexOf m) := rfl

theorem c2_divide_edge_id_stability (G : GeomOps P) (m : Mesh P) (h : Nat) (t : ℚ)
    (x : Nat) (m' : Mesh P) (v w : Nat)
    (hinv : coreInv m = true)
    (hd : divideEdge G m h t = (.ok x, m'))
    (hsd : srcDstPair m h = .ok (v, w)) :
    liveHE m' h = true ∧ vertexOf m' h = some x ∧ dstOf m' h = some w ∧
      vertexOf m' m.halfedges.length = some v ∧
      dstOf m' m.halfedges.length = some x ∧ x = m.vertices.length := by
  obtain ⟨h_r, h_l_prev, h_r_next, v', w', pv, pw, hreads, hpv, hpw, hx, hm⟩ :=
    divideEdge_ok hd
  obtain ⟨htw, hprev, hnext, hvx, hdx⟩ := divideEdgeReads_ok hreads
  obtain ⟨hsv, hsw⟩ := srcDstPair_ok.mp hsd
  have hveq : v = v' := by rw [hvx] at hsv; exact (Option.some.inj hsv).symm
  have hweq : w = w' := by rw [hdx] at hsw; exact (Option.some.inj hsw).symm
  subst hveq; subst hweq; subst hx
  have hlh : (heAt m h).isSome := live_of_twinOf htw
  have ⟨hrne, htwr⟩ := twinOk_spec (coreInv_twinOk hinv) htw
  have hlr : (heAt m h_r).isSome := live_of_twinOf htwr
  have hlth := lt_of_live hlh
  have hltr := lt_of_live hlr
  have hne : h ≠ h_r := fun hc => hrne hc.symm
  have e_live : liveHE m' h = true := by
    rw [hm, divideWrites_liveHE]
    unfold liveHE
    simp [hlh]
  have e_vert_h : vertexOf m' h = some m.vertices.length := by
    rw [hm, divideWrites_vertexOf m h h_r h_l_prev h_r_next v w _ hlh hlr hne h,
      if_neg (by omega), if_neg (by omega), if_neg hne, if_pos rfl]
  have e_twin_h : twinOf m' h = some h_r := by
    rw [hm, divideWrites_twinOf m h h_r h_l_prev h_r_next v w _ hlh hlr hne h,
      if_neg hne, if_pos rfl]
  have e_vert_hr : vertexOf m' h_r = some w := by
    rw [hm, divideWrites_vertexOf m h h_r h_l_prev h_r_next v w _ hlh hlr hne h_r,
      if_neg (by omega), if_neg (by omega), if_pos rfl]
  have e_vert_nh : vertexOf m' m.halfedges.length = some v := by
    rw [hm, divideWrites_vertexOf m h h_r h_l_prev h_r_next v w _ hlh hlr hne
      m.halfedges.length, if_pos rfl]
  have e_twin_nh : twinOf m' m.halfedges.length = some (m.halfedges.length + 1) := by
    rw [hm, divideWrites_twinOf m h h_r h_l_prev h_r_next v w _ hlh hlr hne
      m.halfedges.length, if_neg (by omega), if_neg (by omega), if_neg (by omega),
      if_pos rfl]
  have e_vert_nh1 : vertexOf m' (m.halfedges.length + 1) = some m.vertices.length := by
    rw [hm, divideWrites_vertexOf m h h_r h_l_prev h_r_next v w _ hlh hlr hne
      (m.halfedges.length + 1), if_neg (by omega), if_pos rfl]
  refine ⟨e_live, e_vert_h, ?_, e_vert_nh, ?_, rfl⟩
  · rw [dstOf_def, e_twin_h]
    exact e_vert_hr
  · rw [dstOf_def, e_twin_nh]
    exact e_vert_nh1

/-- Witness for C2: dividing half-edge 0 of the tetrahedron (from vertex 0
to vertex 1) at the midpoint. -/
theorem c2_witness :
    coreInv tetra = true ∧
      divideEdge UGeom tetra 0 0 = (.ok 4, (divideEdge UGeom tetra 0 0).2) ∧
      srcDstPair tetra 0 = .ok (0, 1) ∧
      (liveHE (divideEdge UGeom tetra 0 0).2 0 = true ∧
        vertexOf (divideEdge UGeom tetra 0 0).2 0 = some 4 ∧
        dstOf (divideEdge UGeom tetra 0 0).2 0 = some 1 ∧
        vertexOf (divideEdge UGeom tetra 0 0).2 12 = some 0 ∧
        dstOf (divideEdge UGeom tetra 0 0).2 12 = some 4 ∧ (4 : Nat) = 4) := by
  have h1 : coreInv tetra = true := by decide
  have h2 : divideEdge UGeom tetra 0 0 = (.ok 4, (divideEdge UGeom tetra 0 0).2) := by
    have hfst : (divideEdge UGeom tetra 0 0).1 = .ok 4 := by decide
    rw [← hfst]
  have h3 : srcDstPair tetra 0 = .ok (0, 1) := by decide
  exact ⟨h1, h2, h3,
    c2_divide_edge_id_stability UGeom tetra 0 0 4 (divideEdge UGeom tetra 0 0).2
      0 1 h1 h2 h3⟩

/-! ## Claim C6: `chamfer_vertex` returns vertices in outgoing order -/

theorem divideEdge_fresh {G : GeomOps P} {m : Mesh P} {h : Nat} {t : ℚ} {x : Nat}
    {mm : Mesh P} (hd : divideEdge G m h t = (.ok x, mm)) :
    x = m.vertices.length ∧ mm.vertices.length = m.vertices.length + 1 := by
  obtain ⟨h_r, h_l_prev, h_r_next, v, w, pv, pw, _, _, _, hx, hm⟩ := divideEdge_ok hd
  exact ⟨hx, by rw [hm, divideWrites_len_v]⟩

theorem divideLoop_cons (G : GeomOps P) (m : Mesh P) (h : Nat) (rest : List Nat)
    (t : ℚ) (acc : List Nat) :
    divideLoop G m (h :: rest) t acc =
      (match divideEdge G m h t with
       | (.error e, mm) => (.error e, mm)
       | (.ok x, mm) => divideLoop G mm rest t (acc ++ [x])) := rfl

theorem divideLoop_cons_ok {G : GeomOps P} {m : Mesh P} {h : Nat} {rest : List Nat}
    {t : ℚ} {acc vs : List Nat} {m1 : Mesh P}
    (hl : divideLoop G m (h :: rest) t acc = (.ok vs, m1)) :
    ∃ x mm, divideEdge G m h t = (.ok x, mm) ∧
      divideLoop G mm rest t (acc ++ [x]) = (.ok vs, m1) := by
  rw [divideLoop] at hl
  rcases hd : divideEdge G m h t with ⟨res, mm⟩
  rcases res with e | x
  · rw [hd] at hl
    exact absurd (congrArg Prod.fst hl) (by simp)
  · rw [hd] at hl
    exact ⟨x, mm, rfl, hl⟩

theorem range_map_shift (a k : Nat) :
    a :: (List.range k).map (fun i => a + 1 + i) = (List.range (k + 1)).map (fun i => a + i) := by
  rw [List.range_succ_eq_map, List.map_cons, List.map_map]
  simp only [Nat.add_zero, List.cons.injEq, true_and]
  apply List.map_congr_left
  intro i _
  simp only [Function.comp_apply]
  omega

theorem divideLoop_values {G : GeomOps P} {t : ℚ} :
    ∀ (hs : List Nat) (m : Mesh P) (acc vs : List Nat) (m1 : Mesh P),
      divideLoop G m hs t acc = (.ok vs, m1) →
        vs = acc ++ (List.range hs.length).map (fun i => m.vertices.length + i) ∧
          m1.vertices.length = m.vertices.length + hs.length := by
  intro hs
  induction hs with
  | nil =>
    intro m acc vs m1 hl
    rw [divideLoop] at hl
    simp only [Prod.mk.injEq, Except.ok.injEq] at hl
    obtain ⟨h1, h2⟩ := hl
    subst h1; subst h2
    simp
  | cons h rest ih =>
    intro m acc vs m1 hl
    obtain ⟨x, mm, hd, hrest⟩ := divideLoop_cons_ok hl
    obtain ⟨hx, hnv⟩ := divideEdge_fresh hd
    obtain ⟨hvals, hlen⟩ := ih mm (acc ++ [x]) vs m1 hrest
    subst hx
    constructor
    · rw [hvals, hnv, List.append_assoc]
      rw [show [m.vertices.length] ++ (List.range rest.length).map
          (fun i => m.vertices.length + 1 + i)
        = (List.range (rest.length + 1)).map (fun i => m.vertices.length + i) from
        range_map_shift m.vertices.length rest.length]
      simp
    · rw [hlen, hnv]
      simp [Nat.add_assoc, Nat.add_comm 1 rest.length]

theorem divideLoop_steps {G : GeomOps P} {t : ℚ} :
    ∀ (hs : List Nat) (m : Mesh P) (acc vs : List Nat) (m1 : Mesh P),
      divideLoop G m hs t acc = (.ok vs, m1) →
        ∀ i, i < hs.length →
          ∃ mi mi', divideLoop G m (hs.take i) t acc =
              (.ok (acc ++ (List.range i).map (fun k => m.vertices.length + k)), mi) ∧
            divideEdge G mi (hs.getD i 0) t = (.ok (m.vertices.length + i), mi') := by
  intro hs
  induction hs with
  | nil =>
    intro m acc vs m1 _ i hi
    exact absurd hi (by simp)
  | cons h rest ih =>
    intro m acc vs m1 hl i hi
    obtain ⟨x, mm, hd, hrest⟩ := divideLoop_cons_ok hl
    obtain ⟨hx, hnv⟩ := divideEdge_fresh hd
    cases i with
    | zero =>
      refine ⟨m, mm, ?_, ?_⟩
      · rw [List.take_zero, divideLoop]
        simp
      · simpa [hx] using hd
    | succ i =>
      have hi' : i < rest.length := by simpa using hi
      obtain ⟨mi, mi', hloop, hstep⟩ := ih mm (acc ++ [x]) vs m1 hrest i hi'
      refine ⟨mi, mi', ?_, ?_⟩
      · rw [show (h :: rest).take (i + 1) = h :: rest.take i from rfl, divideLoop_cons]
        simp only [hd]
        rw [hloop, hnv]
        subst hx
        rw [List.append_assoc]
        rw [show [m.vertices.length] ++ (List.range i).map
            (fun k => m.vertices.length + 1 + k)
          = (List.range (i + 1)).map (fun k => m.vertices.length + k) from
          range_map_shift m.vertices.length i]
      · rw [show (h :: rest).getD (i + 1) 0 = rest.getD i 0 from rfl, hstep, hnv]
        rw [show m.vertices.length + 1 + i = m.vertices.length + (i + 1) from by omega]

theorem chamferVertex_ok {G : GeomOps P} {m : Mesh P} {v : Nat} {t : ℚ} {f : Nat}
    {vs : List Nat} (hch : (chamferVertex G m v t).1 = .ok (f, vs)) :
    ∃ os m1, outgoingHalfedges m v = .ok os ∧ divideLoop G m os t [] = (.ok vs, m1) := by
  unfold chamferVertex at hch
  rcases hout : outgoingHalfedges m v with e | os
  · simp only [hout] at hch
    exact Except.noConfusion hch
  · simp only [hout] at hch
    rcases hdl : divideLoop G m os t [] with ⟨res, m1⟩
    rcases res with e | vertices
    · simp only [hdl] at hch
      exact Except.noConfusion hch
    · simp only [hdl] at hch
      rcases hcl : cutLoop m1 (circularPairs vertices) with ⟨res2, m2⟩
      rcases res2 with e | u
      · simp only [hcl] at hch
        exact Except.noConfusion hch
      · simp only [hcl] at hch
        rcases hdv : dissolveVertex m2 v with ⟨res3, m3⟩
        rcases res3 with e | f'
        · simp only [hdv] at hch
          exact Except.noConfusion hch
        · simp only [hdv] at hch
          simp only [Except.ok.injEq, Prod.mk.injEq] at hch
          obtain ⟨_, hvs⟩ := hch
          subst hvs
          exact ⟨os, m1, rfl, hdl⟩

/-- C6: when `chamfer_vertex(v, t)` succeeds returning `(f, new_vertices)`,
`new_vertices` has the same length as `v`'s outgoing half-edge list at
entry, `new_vertices` consists of the freshly allocated vertex ids in
order, and for every index `i`, `new_vertices[i]` is exactly the vertex
returned by applying `divide_edge` to the `i`-th outgoing half-edge in the
mesh state reached after dividing the first `i` of them. -/
theorem c6_chamfer_vertex_order (G : GeomOps P) (m : Mesh P) (v : Nat) (t : ℚ)
    (f : Nat) (vs os : List Nat)
    (hch : (chamferVertex G m v t).1 = .ok (f, vs))
    (hout : outgoingHalfedges m v = .ok os) :
    vs.length = os.length ∧
      vs = (List.range os.length).map (fun i => m.vertices.length + i) ∧
      ∀ i, i < os.length →
        ∃ mi mi', divideLoop G m (os.take i) t [] =
            (.ok ((List.range i).map (fun k => m.vertices.length + k)), mi) ∧
          divideEdge G mi (os.getD i 0) t = (.ok (vs.getD i 0), mi') := by
  obtain ⟨os', m1, hout', hdl⟩ := chamferVertex_ok hch
  have hos : os' = os := by
    rw [hout] at hout'; exact (Except.ok.inj hout').symm
  subst hos
  obtain ⟨hvals, _⟩ := divideLoop_values os' m [] vs m1 hdl
  simp only [List.nil_append] at hvals
  refine ⟨by rw [hvals]; simp, hvals, ?_⟩
  intro i hi
  obtain ⟨mi, mi', hloop, hstep⟩ := divideLoop_steps os' m [] vs m1 hdl i hi
  simp only [List.nil_append] at hloop
  refine ⟨mi, mi', hloop, ?_⟩
  rw [hstep, hvals]
  rw [show ((List.range os'.length).map (fun i => m.vertices.length + i)).getD i 0
    = m.vertices.length + i from by
      rw [List.getD_eq_getElem?_getD, List.getElem?_map, List.getElem?_range hi]
      rfl]

/-- Witness for C6: chamfering vertex 0 of the tetrahedron (outgoing
half-edges `[0, 6, 3]`) returns the new vertices `[4, 5, 6]` in order. -/
theorem c6_witness :
    (chamferVertex UGeom tetra 0 0).1 = .ok (7, [4, 5, 6]) ∧
      outgoingHalfedges tetra 0 = .ok [0, 6, 3] ∧
      (([4, 5, 6] : List Nat).length = ([0, 6, 3] : List Nat).length ∧
        ([4, 5, 6] : List Nat) = (List.range ([0, 6, 3] : List Nat).length).map
          (fun i => tetra.vertices.length + i) ∧
        ∀ i, i < ([0, 6, 3] : List Nat).length →
          ∃ mi mi', divideLoop UGeom tetra (([0, 6, 3] : List Nat).take i) 0 [] =
              (.ok ((List.range i).map (fun k => tetra.vertices.length + k)), mi) ∧
            divideEdge UGeom mi (([0, 6, 3] : List Nat).getD i 0) 0 =
              (.ok (([4, 5, 6] : List Nat).getD i 0), mi')) := by
  have h1 : (chamferVertex UGeom tetra 0 0).1 = .ok (7, [4, 5, 6]) := by decide
  have h2 : outgoingHalfedges tetra 0 = .ok [0, 6, 3] := by decide
  exact ⟨h1, h2, c6_chamfer_vertex_order UGeom tetra 0 0 7 [4, 5, 6] [0, 6, 3] h1 h2⟩

/-! ## Claim C7: face reassignment in `cut_face` -/

theorem liveHE_foldl_setFaceField (nf : Option Nat) :
    ∀ (l : List Nat) (m0 : Mesh P) (b : Nat),
      liveHE (l.foldl (fun mm a => setFaceField mm a nf) m0) b = liveHE m0 b := by
  intro l
  induction l with
  | nil => intro m0 b; rfl
  | cons a rest ih =>
    intro m0 b
    rw [List.foldl_cons, ih, liveHE_setFaceField]

theorem foldl_setFaceField_not_mem (nf : Option Nat) :
    ∀ (l : List Nat) (m0 : Mesh P) (b : Nat), b ∉ l →
      faceOf (l.foldl (fun mm a => setFaceField mm a nf) m0) b = faceOf m0 b := by
  intro l
  induction l with
  | nil => intro m0 b _; rfl
  | cons a rest ih =>
    intro m0 b hb
    rw [List.foldl_cons, ih _ _ (fun hc => hb (List.mem_cons_of_mem _ hc)),
      faceOf_setFaceField_ne _ _ _ _
        (fun hc => hb (by rw [hc]; exact List.mem_cons_self a rest))]

theorem foldl_setFaceField_mem (nf : Option Nat) :
    ∀ (l : List Nat) (m0 : Mesh P) (b : Nat), b ∈ l → liveHE m0 b = true →
      faceOf (l.foldl (fun mm a => setFaceField mm a nf) m0) b = nf := by
  intro l
  induction l with
  | nil => intro m0 b hb; exact absurd hb (List.not_mem_nil b)
  | cons a rest ih =>
    intro m0 b hb hlive
    rw [List.foldl_cons]
    by_cases hbr : b ∈ rest
    · exact ih _ _ hbr (by rw [liveHE_setFaceField]; exact hlive)
    · have hba : b = a := by
        rcases List.mem_cons.mp hb with hba | hbr2
        · exact hba
        · exact absurd hbr2 hbr
      subst hba
      rw [foldl_setFaceField_not_mem nf rest _ _ hbr, faceOf_setFaceField_self _ _ _ hlive]

theorem mod_small_or_shift (n a : Nat) (hn : 0 < n) (h : a < 2 * n) :
    a % n = if a < n then a else a - n := by
  by_cases hlt : a < n
  · rw [if_pos hlt, Nat.mod_eq_of_lt hlt]
  · rw [if_neg hlt, Nat.mod_eq_sub_mod (Nat.le_of_not_lt hlt),
      Nat.mod_eq_of_lt (by omega)]

theorem cut_idx_roundtrip (n v_idx j : Nat) (hv : v_idx < n) (hj : j < n) :
    (v_idx + ((j + n - v_idx) % n)) % n = j := by
  have hn : 0 < n := Nat.lt_of_le_of_lt (Nat.zero_le _) hj
  rcases Nat.lt_or_ge j v_idx with hlt | hge
  · rw [mod_small_or_shift n (j + n - v_idx) hn (by omega), if_pos (by omega),
      show v_idx + (j + n - v_idx) = j + n from by omega, Nat.add_mod_right,
      Nat.mod_eq_of_lt hj]
  · rw [mod_small_or_shift n (j + n - v_idx) hn (by omega), if_neg (by omega),
      show v_idx + (j + n - v_idx - n) = j from by omega, Nat.mod_eq_of_lt hj]

theorem cut_idx_fwd (n v_idx k : Nat) (hv : v_idx < n) (hk : k < n) :
    ((v_idx + k) % n + n - v_idx) % n = k := by
  have hn : 0 < n := Nat.lt_of_le_of_lt (Nat.zero_le _) hk
  rcases Nat.lt_or_ge (v_idx + k) n with hlt | hge
  · rw [Nat.mod_eq_of_lt hlt, show v_idx + k + n - v_idx = k + n from by omega,
      Nat.add_mod_right, Nat.mod_eq_of_lt hk]
  · rw [mod_small_or_shift n (v_idx + k) hn (by omega), if_neg (by omega),
      show v_idx + k - n + n - v_idx = k from by omega, Nat.mod_eq_of_lt hk]

theorem cut_count_eq (n v_idx w_idx : Nat) (hv : v_idx < n) (hw : w_idx < n)
    (hne : v_idx ≠ w_idx) :
    ((if (w_idx + n - 1) % n < v_idx then (w_idx + n - 1) % n + n
      else (w_idx + n - 1) % n) + 1 - v_idx) = (w_idx + n - v_idx) % n := by
  have hn : 0 < n := Nat.lt_of_le_of_lt (Nat.zero_le _) hv
  rcases Nat.eq_zero_or_pos w_idx with hw0 | hwpos
  · subst hw0
    rw [show 0 + n - 1 = n - 1 from by omega, Nat.mod_eq_of_lt (by omega),
      if_neg (by omega), show 0 + n - v_idx = n - v_idx from by omega,
      Nat.mod_eq_of_lt (by omega)]
    omega
  · rw [mod_small_or_shift n (w_idx + n - 1) hn (by omega)]
    rw [if_neg (show ¬(w_idx + n - 1 < n) from by omega)]
    rcases Nat.lt_or_ge w_idx v_idx with hlt | hge
    · rw [if_pos (by omega)]
      rw [mod_small_or_shift n (w_idx + n - v_idx) hn (by omega)]
      rw [if_pos (by omega)]
      omega
    · rw [if_neg (by omega)]
      rw [mod_small_or_shift n (w_idx + n - v_idx) hn (by omega)]
      rw [if_neg (by omega)]
      omega

theorem findIdx?_spec_aux {α : Type} (p : α → Bool) :
    ∀ (l : List α) (s i : Nat), List.findIdx? p l s = some i →
      s ≤ i ∧ i - s < l.length ∧ ∀ d : α, p (l.getD (i - s) d) = true := by
  intro l
  induction l with
  | nil =>
    intro s i hi
    exact Option.noConfusion hi
  | cons a rest ih =>
    intro s i hi
    rw [List.findIdx?_cons] at hi
    by_cases hpa : p a
    · rw [if_pos hpa] at hi
      cases hi
      refine ⟨Nat.le_refl _, by simp, ?_⟩
      intro d
      simpa using hpa
    · rw [if_neg hpa] at hi
      obtain ⟨hsi, hlen, hp⟩ := ih (s + 1) i hi
      refine ⟨by omega, by simp; omega, ?_⟩
      intro d
      rw [show i - s = (i - (s + 1)) + 1 from by omega]
      simpa using hp d

theorem findIdx?_spec {α : Type} (p : α → Bool) (l : List α) (i : Nat)
    (h : l.findIdx? p = some i) :
    i < l.length ∧ ∀ d : α, p (l.getD i d) = true := by
  obtain ⟨_, hlen, hp⟩ := findIdx?_spec_aux p l 0 i h
  rw [Nat.sub_zero] at hlen hp
  exact ⟨hlen, hp⟩

theorem find?_some_mem {α : Type} (p : α → Bool) (l : List α) (a : α)
    (h : l.find? p = some a) : a ∈ l ∧ p a = true :=
  ⟨List.mem_of_find?_eq_some h, List.find?_some h⟩

theorem mapM_exFace_mem {m : Mesh P} :
    ∀ (l fs : List Nat), l.mapM (exFace m) = .ok fs →
      ∀ f ∈ fs, ∃ h ∈ l, faceOf m h = some f := by
  intro l
  induction l with
  | nil =>
    intro fs hfs f hf
    simp only [List.mapM_nil, pure, Except.pure, Except.ok.injEq] at hfs
    subst hfs
    exact absurd hf (List.not_mem_nil f)
  | cons a rest ih =>
    intro fs hfs f hf
    rw [List.mapM_cons] at hfs
    rcases ha : exFace m a with e | fa
    · rw [ha] at hfs; simp [ebind_err] at hfs
    · rw [ha, ebind_ok] at hfs
      rcases hrest : rest.mapM (exFace m) with e | frest
      · rw [hrest] at hfs; simp [ebind_err] at hfs
      · rw [hrest, ebind_ok] at hfs
        simp only [pure, Except.pure, Except.ok.injEq] at hfs
        subst hfs
        rcases List.mem_cons.mp hf with hfa | hfr
        · exact ⟨a, List.mem_cons_self a rest, by rw [hfa]; exact exFace_ok.mp ha⟩
        · obtain ⟨h, hh, hfh⟩ := ih frest hrest f hfr
          exact ⟨h, List.mem_cons_of_mem a hh, hfh⟩

theorem loopOk_spec {m : Mesh P} (hm : loopOkB m = true) {h : Nat}
    (hl : (heAt m h).isSome) :
    (∃ g, (halfedgeLoop m h).getLast? = some g ∧ nextOf m g = some h) ∧
      (halfedgeLoop m h).Nodup ∧
      ∀ g ∈ halfedgeLoop m h, (heAt m g).isSome ∧ faceOf m g = faceOf m h := by
  have hlt := lt_of_live hl
  have hall := List.all_eq_true.mp hm h (List.mem_range.mpr hlt)
  rcases he : heAt m h with _ | e
  · rw [he] at hl; exact Bool.noConfusion hl
  · simp only [he, Bool.and_eq_true] at hall
    obtain ⟨⟨h1, h2⟩, h3⟩ := hall
    refine ⟨?_, by simpa using h2, ?_⟩
    · rcases hlast : (halfedgeLoop m h).getLast? with _ | g
      · rw [hlast] at h1; exact Bool.noConfusion h1
      · rw [hlast] at h1
        exact ⟨g, rfl, of_decide_eq_true h1⟩
    · intro g hg
      have := List.all_eq_true.mp h3 g hg
      simp only [Bool.and_eq_true, decide_eq_true_eq] at this
      exact ⟨this.1, this.2⟩

theorem faceOk_spec {m : Mesh P} (hm : faceOkB m = true) {f : Nat} {fd : FaceData}
    (hf : fAt m f = some fd) :
    ∃ g, fd.halfedge = some g ∧ (heAt m g).isSome ∧ faceOf m g = some f := by
  have hlt : f < m.faces.length := aget_lt_length hf
  have hall := List.all_eq_true.mp hm f (List.mem_range.mpr hlt)
  simp only [hf] at hall
  rcases hfh : fd.halfedge with _ | g
  · rw [hfh] at hall; exact Bool.noConfusion hall
  · rw [hfh] at hall
    simp only [Bool.and_eq_true, decide_eq_true_eq] at hall
    exact ⟨g, rfl, hall.1, hall.2⟩

theorem faceRefOk_spec {m : Mesh P} (hm : faceRefOkB m = true) {h f : Nat}
    (hfo : faceOf m h = some f) : (fAt m f).isSome := by
  rcases he : heAt m h with _ | e
  · rw [faceOf, he] at hfo; exact Option.noConfusion hfo
  · have hlt : h < m.halfedges.length := aget_lt_length he
    have hall := List.all_eq_true.mp hm h (List.mem_range.mpr hlt)
    have hef : e.face = some f := by rw [faceOf, he] at hfo; simpa using hfo
    simp only [he, hef] at hall
    exact hall

theorem faceEdges_eq {m : Mesh P} {f : Nat} {fd : FaceData} {g : Nat}
    (hf : fAt m f = some fd) (hg : fd.halfedge = some g) :
    faceEdges m f = halfedgeLoop m g := by
  unfold faceEdges
  rw [hf, Option.some_bind, hg]

theorem cutFaceFindFace_ok {m : Mesh P} {v w face : Nat}
    (hcf : cutFaceFindFace m v w = .ok face) :
    ∃ outg faces, outgoingHalfedges m v = .ok outg ∧
      outg.mapM (exFace m) = .ok faces ∧
      faces.find? (fun f => (faceVertices m f).contains w) = some face := by
  unfold cutFaceFindFace at hcf
  rcases hout : outgoingHalfedges m v with e | outg
  · simp only [hout, ebind_err] at hcf
    exact Except.noConfusion hcf
  · simp only [hout, ebind_ok] at hcf
    rcases hmap : outg.mapM (exFace m) with e | faces
    · simp only [hmap, ebind_err] at hcf
      exact Except.noConfusion hcf
    · simp only [hmap, ebind_ok] at hcf
      rcases hfind : faces.find? (fun f => (faceVertices m f).contains w) with _ | fc
      · simp only [pure, Except.pure, hfind] at hcf
        exact Except.noConfusion hcf
      · simp only [pure, Except.pure, hfind, Except.ok.injEq] at hcf
        subst hcf
        exact ⟨outg, faces, rfl, hmap, hfind⟩

theorem foldl_setFaceFieldG_not_mem (nf : Option Nat) (g : Nat → Nat) (l : List Nat)
    (m0 : Mesh P) (b : Nat) (hb : b ∉ l.map g) :
    faceOf (l.foldl (fun mm k => setFaceField mm (g k) nf) m0) b = faceOf m0 b := by
  rw [show (l.foldl (fun mm k => setFaceField mm (g k) nf) m0)
      = ((l.map g).foldl (fun mm a => setFaceField mm a nf) m0) from
      (List.foldl_map g (fun mm a => setFaceField mm a nf) l m0).symm]
  exact foldl_setFaceField_not_mem nf _ m0 b hb

theorem foldl_setFaceFieldG_mem (nf : Option Nat) (g : Nat → Nat) (l : List Nat)
    (m0 : Mesh P) (b : Nat) (hb : b ∈ l.map g) (hlive : liveHE m0 b = true) :
    faceOf (l.foldl (fun mm k => setFaceField mm (g k) nf) m0) b = nf := by
  rw [show (l.foldl (fun mm k => setFaceField mm (g k) nf) m0)
      = ((l.map g).foldl (fun mm a => setFaceField mm a nf) m0) from
      (List.foldl_map g (fun mm a => setFaceField mm a nf) l m0).symm]
  exact foldl_setFaceField_mem nf _ m0 b hb hlive

theorem cutFaceWrites_faceOf (m : Mesh P) (face v w v_idx w_idx : Nat) (cyc : List Nat)
    (y : Nat) (hy : (heAt m y).isSome) :
    faceOf (cutFaceWrites m face v w v_idx w_idx cyc).2 y =
      (if y ∈ (List.range
            ((if (w_idx + cyc.length - 1) % cyc.length < v_idx
                then (w_idx + cyc.length - 1) % cyc.length + cyc.length
                else (w_idx + cyc.length - 1) % cyc.length) + 1 - v_idx)).map
            (fun k => cyc.getD ((v_idx + k) % cyc.length) 0)
       then some m.faces.length
       else faceOf m y) := by
  have hylt := lt_of_live hy
  have hy1 : y ≠ m.halfedges.length := by omega
  have hy2 : y ≠ m.halfedges.length + 1 := by omega
  simp only [cutFaceWrites, allocHalfedge, allocFace, List.length_append,
    List.length_cons, List.length_nil]
  by_cases hmem : y ∈ (List.range
      ((if (w_idx + cyc.length - 1) % cyc.length < v_idx
          then (w_idx + cyc.length - 1) % cyc.length + cyc.length
          else (w_idx + cyc.length - 1) % cyc.length) + 1 - v_idx)).map
      (fun k => cyc.getD ((v_idx + k) % cyc.length) 0)
  · rw [if_pos hmem]
    rw [foldl_setFaceFieldG_mem _ _ _ _ _ hmem]
    rw [liveHE_setNext, liveHE_setNext, liveHE_setFH, liveHE_setFH,
      liveHE_setNext, liveHE_setNext, liveHE_setTwin, liveHE_setTwin,
      liveHE_setFaceField, liveHE_setFaceField,
      liveHE_setVertexField, liveHE_setVertexField]
    show (aget (m.halfedges ++ [some defaultHalfEdge] ++ [some defaultHalfEdge]) y).isSome
      = true
    rw [aget_append2_lt _ _ _ _ hylt]
    exact hy
  · rw [if_neg hmem]
    rw [foldl_setFaceFieldG_not_mem _ _ _ _ _ hmem]
    rw [faceOf_setNext, faceOf_setNext, faceOf_setFH, faceOf_setFH,
      faceOf_setNext, faceOf_setNext, faceOf_setTwin, faceOf_setTwin,
      faceOf_setFaceField_ne _ _ _ _ hy2, faceOf_setFaceField_ne _ _ _ _ hy1,
      faceOf_setVertexField, faceOf_setVertexField]
    show (aget (m.halfedges ++ [some defaultHalfEdge] ++ [some defaultHalfEdge]) y).bind
      (fun e => e.face) = faceOf m y
    rw [aget_append2_lt _ _ _ _ hylt]
    rfl

theorem cutFace_ok_eq (m : Mesh P) (v w face v_idx w_idx : Nat)
    (hface : cutFaceFindFace m v w = .ok face)
    (hnc : (halfedgeTo m v w).isOk = false)
    (hlen : ¬ (faceEdges m face).length ≤ 3)
    (hvidx : (faceEdges m face).findIdx? (fun hh => vertexOf m hh = some v) = some v_idx)
    (hwidx : (faceEdges m face).findIdx? (fun hh => vertexOf m hh = some w) = some w_idx) :
    cutFace m v w =
      (.ok (cutFaceWrites m face v w v_idx w_idx (faceEdges m face)).1,
       (cutFaceWrites m face v w v_idx w_idx (faceEdges m face)).2) := by
  unfold cutFace
  simp only [hface, hnc, Bool.false_eq_true, if_false, hlen, hvidx, hwidx]

/-- C7: when `cut_face(v, w)` succeeds on face `f` with boundary cycle `cyc`
(of length `n`, `v` at index `v_idx`, `w` at index `w_idx`), it returns the
freshly allocated half-edge id, and the `j`-th half-edge of the original
cycle is reassigned to the newly created face exactly when its cyclic offset
from `v_idx` is smaller than the offset of `w_idx` — i.e. exactly the
half-edges from the one starting at `v` (inclusive) up to the one starting
at `w` (exclusive) move to the new face, all others keeping face `f`. -/
theorem c7_cut_face_reassignment (m : Mesh P) (v w face v_idx w_idx : Nat)
    (hinv : coreInv m = true)
    (hvw : v ≠ w)
    (hface : cutFaceFindFace m v w = .ok face)
    (hnc : (halfedgeTo m v w).isOk = false)
    (hlen : ¬ (faceEdges m face).length ≤ 3)
    (hvidx : (faceEdges m face).findIdx? (fun hh => vertexOf m hh = some v) = some v_idx)
    (hwidx : (faceEdges m face).findIdx? (fun hh => vertexOf m hh = some w) = some w_idx) :
    (cutFace m v w).1 = .ok m.halfedges.length ∧
      ∀ j, j < (faceEdges m face).length →
        faceOf (cutFace m v w).2 ((faceEdges m face).getD j 0) =
          some (if (j + (faceEdges m face).length - v_idx) % (faceEdges m face).length
              < (w_idx + (faceEdges m face).length - v_idx) % (faceEdges m face).length
            then m.faces.length else face) := by
  have hcut := cutFace_ok_eq m v w face v_idx w_idx hface hnc hlen hvidx hwidx
  obtain ⟨hvlt, hvp⟩ := findIdx?_spec _ _ _ hvidx
  obtain ⟨hwlt, hwp⟩ := findIdx?_spec _ _ _ hwidx
  have hv_at : vertexOf m ((faceEdges m face).getD v_idx 0) = some v :=
    of_decide_eq_true (hvp 0)
  have hw_at : vertexOf m ((faceEdges m face).getD w_idx 0) = some w :=
    of_decide_eq_true (hwp 0)
  have hne_idx : v_idx ≠ w_idx := by
    intro he
    rw [he, hw_at] at hv_at
    exact hvw (Option.some.injEq _ _ ▸ hv_at ▸ rfl)
  have hn3 : 3 < (faceEdges m face).length := Nat.lt_of_not_le hlen
  have hn0 : 0 < (faceEdges m face).length := by omega
  -- the cycle consists of live half-edges, all on face `face`, without duplicates
  obtain ⟨outg, faces, _, hmap, hfind⟩ := cutFaceFindFace_ok hface
  obtain ⟨hfmem, _⟩ := find?_some_mem _ _ _ hfind
  obtain ⟨h0, _, hfo0⟩ := mapM_exFace_mem _ _ hmap face hfmem
  have hfs : (fAt m face).isSome := faceRefOk_spec (coreInv_faceRefOk hinv) hfo0
  obtain ⟨fd, hfd⟩ := Option.isSome_iff_exists.mp hfs
  obtain ⟨g0, hg0, hg0live, hg0face⟩ := faceOk_spec (coreInv_faceOk hinv) hfd
  have hedges : faceEdges m face = halfedgeLoop m g0 := faceEdges_eq hfd hg0
  obtain ⟨_, hnodup, hmemprop⟩ := loopOk_spec (coreInv_loopOk hinv) hg0live
  have hcycmem : ∀ j, j < (faceEdges m face).length →
      ((heAt m ((faceEdges m face).getD j 0)).isSome ∧
        faceOf m ((faceEdges m face).getD j 0) = some face) := by
    intro j hj
    have hjm : (faceEdges m face).getD j 0 ∈ halfedgeLoop m g0 := by
      rw [← hedges]
      rw [List.getD_eq_getElem (faceEdges m face) 0 hj]
      exact List.getElem_mem hj
    obtain ⟨hlv, hfo⟩ := hmemprop _ hjm
    exact ⟨hlv, by rw [hfo, hg0face]⟩
  constructor
  · rw [hcut]
    simp only [cutFaceWrites, allocHalfedge, allocFace]
  · intro j hj
    obtain ⟨hylive, hyface⟩ := hcycmem j hj
    rw [hcut]
    rw [cutFaceWrites_faceOf m face v w v_idx w_idx (faceEdges m face) _ hylive]
    rw [cut_count_eq (faceEdges m face).length v_idx w_idx hvlt hwlt hne_idx]
    by_cases hc : (j + (faceEdges m face).length - v_idx) % (faceEdges m face).length
        < (w_idx + (faceEdges m face).length - v_idx) % (faceEdges m face).length
    · rw [if_pos hc, if_pos]
      exact List.mem_map.mpr
        ⟨(j + (faceEdges m face).length - v_idx) % (faceEdges m face).length,
          List.mem_range.mpr hc,
          by rw [cut_idx_roundtrip (faceEdges m face).length v_idx j hvlt hj]⟩
    · rw [if_neg hc, if_neg, hyface]
      intro hmem
      obtain ⟨k, hkr, hkg⟩ := List.mem_map.mp hmem
      have hk := List.mem_range.mp hkr
      have hkn : k < (faceEdges m face).length :=
        Nat.lt_of_lt_of_le hk (Nat.le_of_lt (Nat.mod_lt _ hn0))
      have hidx1 : (v_idx + k) % (faceEdges m face).length < (faceEdges m face).length :=
        Nat.mod_lt _ hn0
      rw [List.getD_eq_getElem (faceEdges m face) 0 hidx1,
        List.getD_eq_getElem (faceEdges m face) 0 hj] at hkg
      have hnodup2 : (faceEdges m face).Nodup := by rw [hedges]; exact hnodup
      have hieq : (v_idx + k) % (faceEdges m face).length = j :=
        (List.Nodup.getElem_inj_iff hnodup2).mp hkg
      have hkval : k = (j + (faceEdges m face).length - v_idx) % (faceEdges m face).length := by
        have := cut_idx_fwd (faceEdges m face).length v_idx k hvlt hkn
        rw [hieq] at this
        exact this.symm
      rw [← hkval] at hc
      exact hc hk

theorem c7_witness :
    (cutFace pillow 0 2).1 = .ok pillow.halfedges.length ∧
      ∀ j, j < (faceEdges pillow 0).length →
        faceOf (cutFace pillow 0 2).2 ((faceEdges pillow 0).getD j 0) =
          some (if (j + (faceEdges pillow 0).length - 0) % (faceEdges pillow 0).length
              < (2 + (faceEdges pillow 0).length - 0) % (faceEdges pillow 0).length
            then pillow.faces.length else 0) :=
  c7_cut_face_reassignment pillow 0 2 0 0 2 (by decide) (by decide) (by decide)
    (by decide) (by decide) (by decide) (by decide)

theorem fanOk_spec {m : Mesh P} (hm : fanOkB m = true) {v : Nat} {l : List Nat}
    (hout : outgoingHalfedges m v = .ok l) : ∀ g ∈ l, vertexOf m g = some v := by
  unfold outgoingHalfedges at hout
  rcases hv : vAt m v with _ | vd
  · simp only [hv] at hout
    exact Except.noConfusion hout
  · simp only [hv] at hout
    rcases hh0 : vd.halfedge with _ | h0
    · simp only [hh0, Except.ok.injEq] at hout
      subst hout
      intro g hg
      exact absurd hg (List.not_mem_nil g)
    · simp only [hh0] at hout
      rcases hfan : fanWalk m h0 (m.halfedges.length + 1) h0 with _ | fl
      · simp only [hfan] at hout
        exact Except.noConfusion hout
      · simp only [hfan, Except.ok.injEq] at hout
        subst hout
        have hvlt : v < m.vertices.length := aget_lt_length hv
        have hall := List.all_eq_true.mp hm v (List.mem_range.mpr hvlt)
        simp only [hv, hh0, hfan, Bool.and_eq_true] at hall
        intro g hg
        have := List.all_eq_true.mp hall.2 g hg
        simp only [Bool.and_eq_true, decide_eq_true_eq] at this
        exact this.2

theorem faceCoherent_spec {m : Mesh P} (hm : faceCoherentB m = true) {h f : Nat}
    (hfo : faceOf m h = some f) : h ∈ faceEdges m f := by
  rcases he : heAt m h with _ | e
  · rw [faceOf, he] at hfo; exact Option.noConfusion hfo
  · have hef : e.face = some f := by rw [faceOf, he] at hfo; simpa using hfo
    have hlt : h < m.halfedges.length := aget_lt_length he
    have hall := List.all_eq_true.mp hm h (List.mem_range.mpr hlt)
    simp only [he, hef] at hall
    exact List.elem_iff.mp hall

theorem findIdx?_isSome_of_mem {α : Type} (p : α → Bool) {l : List α} {a : α}
    (ha : a ∈ l) (hp : p a = true) : ∃ i, l.findIdx? p = some i := by
  rcases hf : l.findIdx? p with _ | i
  · have := List.findIdx?_eq_none_iff.mp hf a ha
    rw [hp] at this
    exact Bool.noConfusion this
  · exact ⟨i, rfl⟩

/-- C4 counterexample: on the tetrahedron, vertices 0 and 2 share face 0,
a triangle (3 sides), yet `cut_face 0 2` fails with
`VerticesAlreadyConnected`, not `FaceTooSmallToCut`: the already-connected
check precedes the face-size check, falsifying the claim that the
face-too-small error is produced whenever the shared face has fewer than
4 sides. -/
theorem c4_counterexample :
    cutFaceFindFace tetra 0 2 = .ok 0 ∧
    (faceEdges tetra 0).length ≤ 3 ∧
    (cutFace tetra 0 2).1 = .error Err.verticesAlreadyConnected ∧
    (cutFace tetra 0 2).1 ≠ .error Err.faceTooSmallToCut := by
  refine ⟨by decide, by decide, by decide, by decide⟩

/-- C4 (amended): `cut_face(v, w)` fails exactly when (1) the shared-face
search fails (in particular when `v` and `w` share no face), or (2) `v` and
`w` are already connected by an edge, or (3) the shared face has fewer than
4 sides — but the checks run in this order, so when both (2) and (3) hold
the error is `VerticesAlreadyConnected`, not `FaceTooSmallToCut`; the
face-too-small error is produced only when the vertices are not already
connected. When none of the three conditions holds, the cut succeeds and
returns the freshly allocated half-edge id. -/
theorem c4_cut_face_error_conditions (m : Mesh P) (v w : Nat)
    (hinv : coreInv m = true) :
    ((∃ e, (cutFace m v w).1 = .error e) ↔
      ((∃ e, cutFaceFindFace m v w = .error e) ∨
       (halfedgeTo m v w).isOk = true ∨
       (∃ face, cutFaceFindFace m v w = .ok face ∧
         (faceEdges m face).length ≤ 3))) ∧
    (∀ face, cutFaceFindFace m v w = .ok face →
      ((halfedgeTo m v w).isOk = true →
          (cutFace m v w).1 = .error Err.verticesAlreadyConnected) ∧
      ((halfedgeTo m v w).isOk = false → (faceEdges m face).length ≤ 3 →
          (cutFace m v w).1 = .error Err.faceTooSmallToCut) ∧
      ((halfedgeTo m v w).isOk = false → 3 < (faceEdges m face).length →
          (cutFace m v w).1 = .ok m.halfedges.length)) := by
  rcases hff : cutFaceFindFace m v w with e | face
  · have h1 : cutFace m v w = (.error e, m) := by
      unfold cutFace; simp only [hff]
    constructor
    · constructor
      · intro _; exact Or.inl ⟨e, rfl⟩
      · intro _; exact ⟨e, by rw [h1]⟩
    · intro face hface
      exact Except.noConfusion hface
  · by_cases hcon : (halfedgeTo m v w).isOk = true
    · have h1 : cutFace m v w = (.error Err.verticesAlreadyConnected, m) := by
        unfold cutFace; simp only [hff, hcon, if_true]
      constructor
      · constructor
        · intro _; exact Or.inr (Or.inl hcon)
        · intro _; exact ⟨Err.verticesAlreadyConnected, by rw [h1]⟩
      · intro face' hface'
        obtain rfl : face = face' := by
          exact Except.ok.inj hface'
        refine ⟨fun _ => by rw [h1], fun hf _ => ?_, fun hf _ => ?_⟩
        · rw [hcon] at hf; exact Bool.noConfusion hf
        · rw [hcon] at hf; exact Bool.noConfusion hf
    · have hconf : (halfedgeTo m v w).isOk = false := by
        revert hcon; cases (halfedgeTo m v w).isOk <;> simp
      by_cases hsm : (faceEdges m face).length ≤ 3
      · have h1 : cutFace m v w = (.error Err.faceTooSmallToCut, m) := by
          unfold cutFace
          simp only [hff, hconf, Bool.false_eq_true, if_false, if_pos hsm]
        constructor
        · constructor
          · intro _; exact Or.inr (Or.inr ⟨face, rfl, hsm⟩)
          · intro _; exact ⟨Err.faceTooSmallToCut, by rw [h1]⟩
        · intro face' hface'
          obtain rfl : face = face' := Except.ok.inj hface'
          refine ⟨fun hc => absurd hc hcon, fun _ _ => by rw [h1],
            fun _ hgt => absurd hsm (by omega)⟩
      · -- success: both findIdx? lookups hit under the core invariants
        obtain ⟨outg, faces, hout, hmap, hfind⟩ := cutFaceFindFace_ok hff
        obtain ⟨hfmem, hfp⟩ := find?_some_mem _ _ _ hfind
        obtain ⟨h0, h0mem, hfo0⟩ := mapM_exFace_mem _ _ hmap face hfmem
        have hv0 : vertexOf m h0 = some v :=
          fanOk_spec (coreInv_fanOk hinv) hout h0 h0mem
        have h0cyc : h0 ∈ faceEdges m face :=
          faceCoherent_spec (coreInv_faceCoherent hinv) hfo0
        obtain ⟨v_idx, hvidx⟩ :=
          findIdx?_isSome_of_mem (fun hh => decide (vertexOf m hh = some v))
            h0cyc (decide_eq_true hv0)
        have hwv : w ∈ faceVertices m face := List.elem_iff.mp hfp
        obtain ⟨hw0, hw0mem, hw0v⟩ := List.mem_filterMap.mp hwv
        obtain ⟨w_idx, hwidx⟩ :=
          findIdx?_isSome_of_mem (fun hh => decide (vertexOf m hh = some w))
            hw0mem (decide_eq_true hw0v)
        have h1 := cutFace_ok_eq m v w face v_idx w_idx hff hconf hsm hvidx hwidx
        have h2 : (cutFace m v w).1 = .ok m.halfedges.length := by
          rw [h1]
          simp only [cutFaceWrites, allocHalfedge, allocFace]
        constructor
        · constructor
          · intro ⟨e, he⟩
            rw [h2] at he
            exact Except.noConfusion he
          · rintro (⟨e, he⟩ | hc | ⟨face', hface', hsm'⟩)
            · exact Except.noConfusion he
            · exact absurd hc hcon
            · obtain rfl : face = face' := Except.ok.inj hface'
              exact absurd hsm' hsm
        · intro face' hface'
          obtain rfl : face = face' := Except.ok.inj hface'
          exact ⟨fun hc => absurd hc hcon, fun _ hle => absurd hle hsm,
            fun _ _ => h2⟩

theorem c4_witness :
    ((∃ e, (cutFace pillow 0 2).1 = .error e) ↔
      ((∃ e, cutFaceFindFace pillow 0 2 = .error e) ∨
       (halfedgeTo pillow 0 2).isOk = true ∨
       (∃ face, cutFaceFindFace pillow 0 2 = .ok face ∧
         (faceEdges pillow face).length ≤ 3))) ∧
    (∀ face, cutFaceFindFace pillow 0 2 = .ok face →
      ((halfedgeTo pillow 0 2).isOk = true →
          (cutFace pillow 0 2).1 = .error Err.verticesAlreadyConnected) ∧
      ((halfedgeTo pillow 0 2).isOk = false → (faceEdges pillow face).length ≤ 3 →
          (cutFace pillow 0 2).1 = .error Err.faceTooSmallToCut) ∧
      ((halfedgeTo pillow 0 2).isOk = false → 3 < (faceEdges pillow face).length →
          (cutFace pillow 0 2).1 = .ok pillow.halfedges.length)) :=
  c4_cut_face_error_conditions pillow 0 2 (by decide)

/-! ## C1: twin involution across the edit operations -/

/-- The twin involution property of the spec: every live half-edge with an
assigned twin is its twin's twin, and never its own twin. -/
def TwinInv (m : Mesh P) : Prop :=
  ∀ h t : Nat, twinOf m h = some t → twinOf m t = some h ∧ t ≠ h

theorem twinInv_of_twinOkB {m : Mesh P} (hm : twinOkB m = true) : TwinInv m := by
  intro h t ht
  obtain ⟨hne, hback⟩ := twinOk_spec hm ht
  exact ⟨hback, hne⟩

theorem twinOf_removeHE_self (m : Mesh P) (a : Nat) :
    twinOf (removeHalfedge m a) a = none := by
  unfold twinOf; rw [heAt_remove_self]; rfl

theorem twinOf_removeHE_ne (m : Mesh P) (a b : Nat) (hne : b ≠ a) :
    twinOf (removeHalfedge m a) b = twinOf m b := by
  unfold twinOf; rw [heAt_remove_ne _ _ _ hne]

theorem twinOf_removeV (m : Mesh P) (a b : Nat) :
    twinOf (removeVertex m a) b = twinOf m b := rfl

theorem twinOf_removeF (m : Mesh P) (a b : Nat) :
    twinOf (removeFace m a) b = twinOf m b := rfl

theorem twinOf_allocV (m : Mesh P) (p : P) (h0 : Option Nat) (b : Nat) :
    twinOf (allocVertex m p h0).2 b = twinOf m b := rfl

theorem twinOf_allocF (m : Mesh P) (h0 : Option Nat) (b : Nat) :
    twinOf (allocFace m h0).2 b = twinOf m b := rfl

theorem twinOf_foldl_setFaceField (nf : Option Nat) :
    ∀ (l : List Nat) (m0 : Mesh P) (b : Nat),
      twinOf (l.foldl (fun mm a => setFaceField mm a nf) m0) b = twinOf m0 b := by
  intro l
  induction l with
  | nil => intro m0 b; rfl
  | cons a rest ih => intro m0 b; rw [List.foldl_cons, ih, twinOf_setFaceField]

theorem twinOf_foldl_setVertexField :
    ∀ (l : List Nat) (m0 : Mesh P) (nv : Option Nat) (b : Nat),
      twinOf (l.foldl (fun mm a => setVertexField mm a nv) m0) b = twinOf m0 b := by
  intro l
  induction l with
  | nil => intro m0 nv b; rfl
  | cons a rest ih => intro m0 nv b; rw [List.foldl_cons, ih, twinOf_setVertexField]

theorem twinOf_ite_setFH (c : Prop) [Decidable c] (m : Mesh P) (a : Nat)
    (o : Option Nat) (y : Nat) :
    twinOf (if c then setFaceHalfedge m a o else m) y = twinOf m y := by
  split
  · exact twinOf_setFH _ _ _ _
  · rfl

theorem twinOf_ite_setVH (c : Prop) [Decidable c] (m : Mesh P) (a : Nat)
    (o : Option Nat) (y : Nat) :
    twinOf (if c then setVertexHalfedge m a o else m) y = twinOf m y := by
  split
  · exact twinOf_setVH _ _ _ _
  · rfl

theorem twinOf_ite_setNext (c : Prop) [Decidable c] (m : Mesh P) (a : Nat)
    (o : Option Nat) (y : Nat) :
    twinOf (if c then setNext m a o else m) y = twinOf m y := by
  split
  · exact twinOf_setNext _ _ _ _
  · rfl

theorem twinOf_foldl_setFaceFieldG (nf : Option Nat) (g : Nat → Nat) :
    ∀ (l : List Nat) (m0 : Mesh P) (b : Nat),
      twinOf (l.foldl (fun mm k => setFaceField mm (g k) nf) m0) b = twinOf m0 b := by
  intro l
  induction l with
  | nil => intro m0 b; rfl
  | cons a rest ih => intro m0 b; rw [List.foldl_cons, ih, twinOf_setFaceField]

theorem cutFaceWrites_twinOf (m : Mesh P) (face v w v_idx w_idx : Nat)
    (cyc : List Nat) (y : Nat) :
    twinOf (cutFaceWrites m face v w v_idx w_idx cyc).2 y =
      (if y = m.halfedges.length then some (m.halfedges.length + 1)
       else if y = m.halfedges.length + 1 then some m.halfedges.length
       else twinOf m y) := by
  simp only [cutFaceWrites, allocHalfedge, allocFace, List.length_append,
    List.length_cons, List.length_nil]
  rw [twinOf_foldl_setFaceFieldG, twinOf_setNext, twinOf_setNext, twinOf_setFH,
    twinOf_setFH, twinOf_setNext, twinOf_setNext]
  by_cases hy0 : y = m.halfedges.length
  · subst hy0
    rw [if_pos rfl, twinOf_setTwin_ne _ _ _ _ (by omega), twinOf_setTwin_self]
    show liveHE _ _ = true
    rw [liveHE_setFaceField, liveHE_setFaceField, liveHE_setVertexField,
      liveHE_setVertexField]
    show (aget (m.halfedges ++ [some defaultHalfEdge] ++ [some defaultHalfEdge])
      m.halfedges.length).isSome = true
    rw [aget_append2_first]
    rfl
  · rw [if_neg hy0]
    by_cases hy1 : y = m.halfedges.length + 1
    · subst hy1
      rw [if_pos rfl, twinOf_setTwin_self]
      show liveHE _ _ = true
      rw [liveHE_setTwin, liveHE_setFaceField, liveHE_setFaceField,
        liveHE_setVertexField, liveHE_setVertexField]
      show (aget (m.halfedges ++ [some defaultHalfEdge] ++ [some defaultHalfEdge])
        (m.halfedges.length + 1)).isSome = true
      rw [aget_append2_second]
      rfl
    · rw [if_neg hy1, twinOf_setTwin_ne _ _ _ _ hy1, twinOf_setTwin_ne _ _ _ _ hy0,
        twinOf_setFaceField, twinOf_setFaceField, twinOf_setVertexField,
        twinOf_setVertexField]
      show (aget (m.halfedges ++ [some defaultHalfEdge] ++ [some defaultHalfEdge]) y).bind
        (fun e => e.twin) = twinOf m y
      rcases Nat.lt_or_ge y m.halfedges.length with hlt | hge
      · rw [aget_append2_lt _ _ _ _ hlt]; rfl
      · rw [aget_append2_ge _ _ _ _ (by omega)]
        unfold twinOf heAt
        rw [aget_ge_length _ _ (by omega)]

theorem cutFace_ok_inv {m : Mesh P} {v w r : Nat}
    (hok : (cutFace m v w).1 = .ok r) :
    ∃ face v_idx w_idx,
      cutFace m v w =
        (.ok (cutFaceWrites m face v w v_idx w_idx (faceEdges m face)).1,
         (cutFaceWrites m face v w v_idx w_idx (faceEdges m face)).2) := by
  rcases hff : cutFaceFindFace m v w with e | face
  · have h1 : cutFace m v w = (.error e, m) := by
      unfold cutFace; simp only [hff]
    rw [h1] at hok
    exact Except.noConfusion hok
  · by_cases hcon : (halfedgeTo m v w).isOk = true
    · have h1 : cutFace m v w = (.error Err.verticesAlreadyConnected, m) := by
        unfold cutFace; simp only [hff, hcon, if_true]
      rw [h1] at hok
      exact Except.noConfusion hok
    · have hconf : (halfedgeTo m v w).isOk = false := by
        revert hcon; cases (halfedgeTo m v w).isOk <;> simp
      by_cases hsm : (faceEdges m face).length ≤ 3
      · have h1 : cutFace m v w = (.error Err.faceTooSmallToCut, m) := by
          unfold cutFace
          simp only [hff, hconf, Bool.false_eq_true, if_false, if_pos hsm]
        rw [h1] at hok
        exact Except.noConfusion hok
      · rcases hvi : (faceEdges m face).findIdx? (fun hh => vertexOf m hh = some v)
          with _ | v_idx
        · have h1 : cutFace m v w = (.error Err.missingHalfedge, m) := by
            unfold cutFace
            simp only [hff, hconf, Bool.false_eq_true, if_false, if_neg hsm, hvi]
          rw [h1] at hok
          exact Except.noConfusion hok
        · rcases hwi : (faceEdges m face).findIdx? (fun hh => vertexOf m hh = some w)
            with _ | w_idx
          · have h1 : cutFace m v w = (.error Err.missingHalfedge, m) := by
              unfold cutFace
              simp only [hff, hconf, Bool.false_eq_true, if_false, if_neg hsm, hvi, hwi]
            rw [h1] at hok
            exact Except.noConfusion hok
          · exact ⟨face, v_idx, w_idx, cutFace_ok_eq m v w face v_idx w_idx hff hconf hsm hvi hwi⟩

theorem twinInv_cutFace {m : Mesh P} {v w r : Nat} (htw : twinOkB m = true)
    (hok : (cutFace m v w).1 = .ok r) : TwinInv (cutFace m v w).2 := by
  have hti := twinInv_of_twinOkB htw
  obtain ⟨face, v_idx, w_idx, heq⟩ := cutFace_ok_inv hok
  intro h t ht
  rw [heq] at ht ⊢
  rw [cutFaceWrites_twinOf] at ht
  by_cases h0 : h = m.halfedges.length
  · subst h0
    rw [if_pos rfl] at ht
    obtain rfl : t = m.halfedges.length + 1 := (Option.some.inj ht).symm
    rw [cutFaceWrites_twinOf, if_neg (by omega), if_pos rfl]
    exact ⟨rfl, by omega⟩
  · rw [if_neg h0] at ht
    by_cases h1 : h = m.halfedges.length + 1
    · subst h1
      rw [if_pos rfl] at ht
      obtain rfl : t = m.halfedges.length := (Option.some.inj ht).symm
      rw [cutFaceWrites_twinOf, if_pos rfl]
      exact ⟨rfl, by omega⟩
    · rw [if_neg h1] at ht
      obtain ⟨hback, hne⟩ := hti h t ht
      have htlt : t < m.halfedges.length := lt_of_live (live_of_twinOf hback)
      rw [cutFaceWrites_twinOf, if_neg (by omega), if_neg (by omega)]
      exact ⟨hback, hne⟩

theorem duplicateEdgeWrites_twinOf (m : Mesh P) (h v w h_w_v : Nat)
    (hlh : (heAt m h).isSome) (hlw : (heAt m h_w_v).isSome) (y : Nat) :
    twinOf (duplicateEdgeWrites m h v w h_w_v).2 y =
      (if y = h then some (m.halfedges.length + 1)
       else if y = h_w_v then some m.halfedges.length
       else if y = m.halfedges.length then some h_w_v
       else if y = m.halfedges.length + 1 then some h
       else twinOf m y) := by
  have hhlt := lt_of_live hlh
  have hwlt := lt_of_live hlw
  simp only [duplicateEdgeWrites, allocHalfedge, allocFace, List.length_append,
    List.length_cons, List.length_nil]
  by_cases hy0 : y = h
  · subst hy0
    rw [if_pos rfl, twinOf_setTwin_self]
    show liveHE _ _ = true
    rw [liveHE_setTwin, liveHE_setTwin, liveHE_setTwin, liveHE_setVertexField,
      liveHE_setVertexField, liveHE_setNext, liveHE_setNext, liveHE_setFaceField,
      liveHE_setFaceField]
    show (aget (m.halfedges ++ [some defaultHalfEdge] ++ [some defaultHalfEdge]) y).isSome
      = true
    rw [aget_append2_lt _ _ _ _ hhlt]
    exact hlh
  · rw [if_neg hy0, twinOf_setTwin_ne _ _ _ _ hy0]
    by_cases hy1 : y = h_w_v
    · subst hy1
      rw [if_pos rfl, twinOf_setTwin_self]
      show liveHE _ _ = true
      rw [liveHE_setTwin, liveHE_setTwin, liveHE_setVertexField,
        liveHE_setVertexField, liveHE_setNext, liveHE_setNext, liveHE_setFaceField,
        liveHE_setFaceField]
      show (aget (m.halfedges ++ [some defaultHalfEdge] ++ [some defaultHalfEdge]) y).isSome
        = true
      rw [aget_append2_lt _ _ _ _ hwlt]
      exact hlw
    · rw [if_neg hy1, twinOf_setTwin_ne _ _ _ _ hy1]
      by_cases hy2 : y = m.halfedges.length
      · subst hy2
        rw [if_pos rfl, twinOf_setTwin_ne _ _ _ _ (by omega), twinOf_setTwin_self]
        show liveHE _ _ = true
        rw [liveHE_setVertexField, liveHE_setVertexField, liveHE_setNext,
          liveHE_setNext, liveHE_setFaceField, liveHE_setFaceField]
        show (aget (m.halfedges ++ [some defaultHalfEdge] ++ [some defaultHalfEdge])
          m.halfedges.length).isSome = true
        rw [aget_append2_first]
        rfl
      · rw [if_neg hy2]
        by_cases hy3 : y = m.halfedges.length + 1
        · subst hy3
          rw [if_pos rfl, twinOf_setTwin_self]
          show liveHE _ _ = true
          rw [liveHE_setTwin, liveHE_setVertexField, liveHE_setVertexField,
            liveHE_setNext, liveHE_setNext, liveHE_setFaceField,
            liveHE_setFaceField]
          show (aget (m.halfedges ++ [some defaultHalfEdge] ++ [some defaultHalfEdge])
            (m.halfedges.length + 1)).isSome = true
          rw [aget_append2_second]
          rfl
        · rw [if_neg hy3, twinOf_setTwin_ne _ _ _ _ hy3,
            twinOf_setTwin_ne _ _ _ _ hy2, twinOf_setVertexField,
            twinOf_setVertexField, twinOf_setNext, twinOf_setNext,
            twinOf_setFaceField, twinOf_setFaceField]
          show (aget (m.halfedges ++ [some defaultHalfEdge] ++ [some defaultHalfEdge]) y).bind
            (fun e => e.twin) = twinOf m y
          rcases Nat.lt_or_ge y m.halfedges.length with hlt | hge
          · rw [aget_append2_lt _ _ _ _ hlt]; rfl
          · rw [aget_append2_ge _ _ _ _ (by omega)]
            unfold twinOf heAt
            rw [aget_ge_length _ _ (by omega)]

theorem twinInv_duplicateEdge {m : Mesh P} {h r : Nat} (htw : twinOkB m = true)
    (hok : (duplicateEdge m h).1 = .ok r) : TwinInv (duplicateEdge m h).2 := by
  have hti := twinInv_of_twinOkB htw
  rcases hsd : exSrcDst m h with e | ⟨v, w⟩
  · have h1 : duplicateEdge m h = (.error e, m) := by
      unfold duplicateEdge; simp only [hsd, ebind_err]
    rw [h1] at hok
    exact Except.noConfusion hok
  · rcases htr : exTwin m h with e | h_w_v
    · have h1 : duplicateEdge m h = (.error e, m) := by
        unfold duplicateEdge; simp only [hsd, ebind_ok, htr, ebind_err]
      rw [h1] at hok
      exact Except.noConfusion hok
    · have htm : twinOf m h = some h_w_v := exTwin_ok.mp htr
      obtain ⟨hback, hne⟩ := hti h h_w_v htm
      have hlh : (heAt m h).isSome := live_of_twinOf htm
      have hlw : (heAt m h_w_v).isSome := live_of_twinOf hback
      have hhlt := lt_of_live hlh
      have hwlt := lt_of_live hlw
      have heq : (duplicateEdge m h).2 = (duplicateEdgeWrites m h v w h_w_v).2 := by
        unfold duplicateEdge; simp only [hsd, ebind_ok, htr, pure, Except.pure]
      rw [heq]
      intro a b hab
      rw [duplicateEdgeWrites_twinOf m h v w h_w_v hlh hlw] at hab
      by_cases ha0 : a = h
      · rw [if_pos ha0] at hab
        have hbeq : b = m.halfedges.length + 1 := (Option.some.inj hab).symm
        rw [hbeq, duplicateEdgeWrites_twinOf m h v w h_w_v hlh hlw,
          if_neg (by omega), if_neg (by omega), if_neg (by omega), if_pos rfl]
        refine ⟨by rw [ha0], by rw [ha0]; omega⟩
      · rw [if_neg ha0] at hab
        by_cases ha1 : a = h_w_v
        · rw [if_pos ha1] at hab
          have hbeq : b = m.halfedges.length := (Option.some.inj hab).symm
          rw [hbeq, duplicateEdgeWrites_twinOf m h v w h_w_v hlh hlw,
            if_neg (by omega), if_neg (by omega), if_pos rfl]
          refine ⟨by rw [ha1], by rw [ha1]; omega⟩
        · rw [if_neg ha1] at hab
          by_cases ha2 : a = m.halfedges.length
          · rw [if_pos ha2] at hab
            have hbeq : b = h_w_v := (Option.some.inj hab).symm
            rw [hbeq, duplicateEdgeWrites_twinOf m h v w h_w_v hlh hlw,
              if_neg hne, if_pos rfl]
            refine ⟨by rw [ha2], by rw [ha2]; omega⟩
          · rw [if_neg ha2] at hab
            by_cases ha3 : a = m.halfedges.length + 1
            · rw [if_pos ha3] at hab
              have hbeq : b = h := (Option.some.inj hab).symm
              rw [hbeq, duplicateEdgeWrites_twinOf m h v w h_w_v hlh hlw, if_pos rfl]
              refine ⟨by rw [ha3], by rw [ha3]; omega⟩
            · rw [if_neg ha3] at hab
              obtain ⟨hb, hbne⟩ := hti a b hab
              have hblt : b < m.halfedges.length := lt_of_live (live_of_twinOf hb)
              have hbh : b ≠ h := by
                intro hc
                rw [hc, htm] at hb
                exact ha1 (Option.some.inj hb).symm
              have hbw : b ≠ h_w_v := by
                intro hc
                rw [hc, hback] at hb
                exact ha0 (Option.some.inj hb).symm
              rw [duplicateEdgeWrites_twinOf m h v w h_w_v hlh hlw,
                if_neg hbh, if_neg hbw, if_neg (by omega), if_neg (by omega)]
              exact ⟨hb, hbne⟩

theorem twinInv_divideEdge {G : GeomOps P} {m : Mesh P} {h : Nat} {t : ℚ} {x : Nat}
    (htw : twinOkB m = true) (hok : (divideEdge G m h t).1 = .ok x) :
    TwinInv (divideEdge G m h t).2 := by
  have hti := twinInv_of_twinOkB htw
  have hpair : divideEdge G m h t = ((divideEdge G m h t).1, (divideEdge G m h t).2) := rfl
  rw [hok] at hpair
  obtain ⟨h_r, h_l_prev, h_r_next, v, w, pv, pw, hreads, hpv, hpw, hx, hm⟩ :=
    divideEdge_ok hpair
  obtain ⟨htm, _, _, _, _⟩ := divideEdgeReads_ok hreads
  obtain ⟨hback, hne⟩ := hti h h_r htm
  have hlh : (heAt m h).isSome := live_of_twinOf htm
  have hlr : (heAt m h_r).isSome := live_of_twinOf hback
  have hhlt := lt_of_live hlh
  have hrlt := lt_of_live hlr
  have hlne : h ≠ h_r := fun hc => hne hc.symm
  rw [hm]
  intro a b hab
  rw [divideWrites_twinOf m h h_r h_l_prev h_r_next v w _ hlh hlr hlne] at hab
  by_cases ha0 : a = h_r
  · rw [if_pos ha0] at hab
    have hbeq : b = h := (Option.some.inj hab).symm
    rw [hbeq, divideWrites_twinOf m h h_r h_l_prev h_r_next v w _ hlh hlr hlne,
      if_neg hlne, if_pos rfl]
    refine ⟨by rw [ha0], by rw [ha0]; exact hlne⟩
  · rw [if_neg ha0] at hab
    by_cases ha1 : a = h
    · rw [if_pos ha1] at hab
      have hbeq : b = h_r := (Option.some.inj hab).symm
      rw [hbeq, divideWrites_twinOf m h h_r h_l_prev h_r_next v w _ hlh hlr hlne,
        if_pos rfl]
      refine ⟨by rw [ha1], by rw [ha1]; exact hne⟩
    · rw [if_neg ha1] at hab
      by_cases ha2 : a = m.halfedges.length + 1
      · rw [if_pos ha2] at hab
        have hbeq : b = m.halfedges.length := (Option.some.inj hab).symm
        rw [hbeq, divideWrites_twinOf m h h_r h_l_prev h_r_next v w _ hlh hlr hlne,
          if_neg (by omega), if_neg (by omega), if_neg (by omega), if_pos rfl]
        refine ⟨by rw [ha2], by rw [ha2]; omega⟩
      · rw [if_neg ha2] at hab
        by_cases ha3 : a = m.halfedges.length
        · rw [if_pos ha3] at hab
          have hbeq : b = m.halfedges.length + 1 := (Option.some.inj hab).symm
          rw [hbeq, divideWrites_twinOf m h h_r h_l_prev h_r_next v w _ hlh hlr hlne,
            if_neg (by omega), if_neg (by omega), if_pos rfl]
          refine ⟨by rw [ha3], by rw [ha3]; omega⟩
        · rw [if_neg ha3] at hab
          obtain ⟨hb, hbne⟩ := hti a b hab
          have hblt : b < m.halfedges.length := lt_of_live (live_of_twinOf hb)
          have hbr : b ≠ h_r := by
            intro hc
            rw [hc, hback] at hb
            exact ha1 (Option.some.inj hb).symm
          have hbh : b ≠ h := by
            intro hc
            rw [hc, htm] at hb
            exact ha0 (Option.some.inj hb).symm
          rw [divideWrites_twinOf m h h_r h_l_prev h_r_next v w _ hlh hlr hlne,
            if_neg hbr, if_neg hbh, if_neg (by omega), if_neg (by omega)]
          exact ⟨hb, hbne⟩

theorem dissolveEdgeReads_ok {m : Mesh P}
    {h_l h_r f_l f_r v w h_l_nxt h_l_prv h_r_nxt h_r_prv : Nat}
    (hr : dissolveEdgeReads m h_l
      = .ok (h_r, f_l, f_r, v, w, h_l_nxt, h_l_prv, h_r_nxt, h_r_prv)) :
    twinOf m h_l = some h_r ∧ faceOf m h_l = some f_l ∧ faceOf m h_r = some f_r ∧
      srcDstPair m h_l = .ok (v, w) ∧ nextOf m h_l = some h_l_nxt ∧
      prevOf m h_l = some h_l_prv ∧ nextOf m h_r = some h_r_nxt ∧
      prevOf m h_r = some h_r_prv := by
  unfold dissolveEdgeReads at hr
  rcases h1 : exTwin m h_l with e1 | a1
  · rw [h1] at hr; simp [ebind_err] at hr
  · rw [h1, ebind_ok] at hr
    rcases h2 : exFace m h_l with e2 | a2
    · rw [h2] at hr; simp [ebind_err] at hr
    · rw [h2, ebind_ok] at hr
      rcases h3 : exFace m a1 with e3 | a3
      · rw [h3] at hr; simp [ebind_err] at hr
      · rw [h3, ebind_ok] at hr
        rcases h4 : exSrcDst m h_l with e4 | ⟨a4, a5⟩
        · rw [h4] at hr; simp [ebind_err] at hr
        · simp only [h4, ebind_ok] at hr
          rcases h5 : exNext m h_l with e5 | a6
          · simp only [h5, ebind_err] at hr
            exact Except.noConfusion hr
          · simp only [h5, ebind_ok] at hr
            rcases h6 : exPrev m h_l with e6 | a7
            · simp only [h6, ebind_err] at hr
              exact Except.noConfusion hr
            · simp only [h6, ebind_ok] at hr
              rcases h7 : exNext m a1 with e7 | a8
              · simp only [h7, ebind_err] at hr
                exact Except.noConfusion hr
              · simp only [h7, ebind_ok] at hr
                rcases h8 : exPrev m a1 with e8 | a9
                · simp only [h8, ebind_err] at hr
                  exact Except.noConfusion hr
                · simp only [h8, ebind_ok] at hr
                  simp only [pure, Except.pure, Except.ok.injEq, Prod.mk.injEq] at hr
                  obtain ⟨b1, b2, b3, b4, b5, b6, b7, b8, b9⟩ := hr
                  subst b1; subst b2; subst b3; subst b4; subst b5
                  subst b6; subst b7; subst b8; subst b9
                  refine ⟨exTwin_ok.mp h1, exFace_ok.mp h2, exFace_ok.mp h3, h4,
                    exNext_ok.mp h5, exPrev_ok.mp h6, exNext_ok.mp h7, exPrev_ok.mp h8⟩

theorem twinInv_dissolveEdge {m : Mesh P} {h_l : Nat} (htw : twinOkB m = true)
    (hok : (dissolveEdge m h_l).1 = .ok ()) : TwinInv (dissolveEdge m h_l).2 := by
  have hti := twinInv_of_twinOkB htw
  rcases hr : dissolveEdgeReads m h_l
    with e | ⟨h_r, f_l, f_r, v, w, h_l_nxt, h_l_prv, h_r_nxt, h_r_prv⟩
  · have h1 : dissolveEdge m h_l = (.error e, m) := by
      unfold dissolveEdge; simp only [hr]
    rw [h1] at hok
    exact Except.noConfusion hok
  · obtain ⟨htm, -, -, -, -, -, -, -⟩ := dissolveEdgeReads_ok hr
    obtain ⟨hback, hne⟩ := hti h_l h_r htm
    have hlne : h_l ≠ h_r := fun hc => hne hc.symm
    have hchar : ∀ y, twinOf (dissolveEdge m h_l).2 y =
        (if y = h_l then none else if y = h_r then none else twinOf m y) := by
      intro y
      unfold dissolveEdge
      simp only [hr]
      rw [twinOf_removeF]
      by_cases hy0 : y = h_l
      · rw [if_pos hy0, hy0, twinOf_removeHE_ne _ _ _ hlne, twinOf_removeHE_self]
      · rw [if_neg hy0]
        by_cases hy1 : y = h_r
        · rw [if_pos hy1, hy1, twinOf_removeHE_self]
        · rw [if_neg hy1, twinOf_removeHE_ne _ _ _ hy1, twinOf_removeHE_ne _ _ _ hy0,
            twinOf_ite_setVH, twinOf_ite_setVH, twinOf_ite_setFH,
            twinOf_foldl_setFaceField, twinOf_setNext, twinOf_setNext]
    intro a b hab
    rw [hchar a] at hab
    by_cases ha0 : a = h_l
    · rw [if_pos ha0] at hab; exact Option.noConfusion hab
    · rw [if_neg ha0] at hab
      by_cases ha1 : a = h_r
      · rw [if_pos ha1] at hab; exact Option.noConfusion hab
      · rw [if_neg ha1] at hab
        obtain ⟨hb, hbne⟩ := hti a b hab
        have hbl : b ≠ h_l := by
          intro hc
          rw [hc, htm] at hb
          exact ha1 (Option.some.inj hb).symm
        have hbr : b ≠ h_r := by
          intro hc
          rw [hc, hback] at hb
          exact ha0 (Option.some.inj hb).symm
        rw [hchar b, if_neg hbl, if_neg hbr]
        exact ⟨hb, hbne⟩

theorem twinOf_fixFaceRef (m : Mesh P) (fOpt : Option Nat) (h repl y : Nat) :
    twinOf (fixFaceRef m fOpt h repl).2 y = twinOf m y := by
  unfold fixFaceRef
  rcases fOpt with _ | f
  · rfl
  · rcases hfh : (fAt m f).bind (fun fd => fd.halfedge) with _ | fh
    · simp only [hfh]
    · simp only [hfh]
      exact twinOf_ite_setFH _ _ _ _ _

theorem collapseEdgeReads_ok {m : Mesh P}
    {h v w t h_next h_prev t_next t_prev : Nat} {w_outgoing : List Nat} {v_next_fan : Nat}
    (hr : collapseEdgeReads m h
      = .ok (v, w, t, h_next, h_prev, t_next, t_prev, w_outgoing, v_next_fan)) :
    srcDstPair m h = .ok (v, w) ∧ twinOf m h = some t ∧ nextOf m h = some h_next ∧
      prevOf m h = some h_prev ∧ nextOf m t = some t_next ∧ prevOf m t = some t_prev ∧
      outgoingHalfedges m w = .ok w_outgoing ∧ fanStep m h = some v_next_fan := by
  unfold collapseEdgeReads at hr
  rcases h1 : exSrcDst m h with e1 | ⟨a1, a2⟩
  · rw [h1] at hr; simp [ebind_err] at hr
  · simp only [h1, ebind_ok] at hr
    rcases h2 : exTwin m h with e2 | a3
    · simp only [h2, ebind_err] at hr
      exact Except.noConfusion hr
    · simp only [h2, ebind_ok] at hr
      rcases h3 : exNext m h with e3 | a4
      · simp only [h3, ebind_err] at hr
        exact Except.noConfusion hr
      · simp only [h3, ebind_ok] at hr
        rcases h4 : exPrev m h with e4 | a5
        · simp only [h4, ebind_err] at hr
          exact Except.noConfusion hr
        · simp only [h4, ebind_ok] at hr
          rcases h5 : exNext m a3 with e5 | a6
          · simp only [h5, ebind_err] at hr
            exact Except.noConfusion hr
          · simp only [h5, ebind_ok] at hr
            rcases h6 : exPrev m a3 with e6 | a7
            · simp only [h6, ebind_err] at hr
              exact Except.noConfusion hr
            · simp only [h6, ebind_ok] at hr
              rcases h7 : outgoingHalfedges m a2 with e7 | a8
              · simp only [h7, ebind_err] at hr
                exact Except.noConfusion hr
              · simp only [h7, ebind_ok] at hr
                rcases h8 : exFanStep m h with e8 | a9
                · simp only [h8, ebind_err] at hr
                  exact Except.noConfusion hr
                · simp only [h8, ebind_ok] at hr
                  simp only [pure, Except.pure, Except.ok.injEq, Prod.mk.injEq] at hr
                  obtain ⟨b1, b2, b3, b4, b5, b6, b7, b8, b9⟩ := hr
                  subst b1; subst b2; subst b3; subst b4; subst b5
                  subst b6; subst b7; subst b8; subst b9
                  exact ⟨h1, exTwin_ok.mp h2, exNext_ok.mp h3, exPrev_ok.mp h4,
                    exNext_ok.mp h5, exPrev_ok.mp h6, h7, exFanStep_ok.mp h8⟩

theorem twinInv_collapseEdge {m : Mesh P} {h r : Nat} (htw : twinOkB m = true)
    (hok : (collapseEdge m h).1 = .ok r) : TwinInv (collapseEdge m h).2 := by
  have hti := twinInv_of_twinOkB htw
  rcases hr : collapseEdgeReads m h
    with e | ⟨v, w, t, h_next, h_prev, t_next, t_prev, w_outgoing, v_next_fan⟩
  · have h1 : collapseEdge m h = (.error e, m) := by
      unfold collapseEdge; simp only [hr]
    rw [h1] at hok
    exact Except.noConfusion hok
  · obtain ⟨-, htm, -, -, -, -, -, -⟩ := collapseEdgeReads_ok hr
    obtain ⟨hback, hne⟩ := hti h t htm
    have hlne : h ≠ t := fun hc => hne hc.symm
    rcases hf1 : fixFaceRef (setNext (setNext
        (w_outgoing.foldl (fun mm h_wo => setVertexField mm h_wo (some v)) m)
        t_prev (some t_next)) h_prev (some h_next)) (faceOf m h) h h_next
      with ⟨r1, m4⟩
    rcases r1 with e1 | u1
    · have h1 : collapseEdge m h = (.error e1, m4) := by
        unfold collapseEdge; simp only [hr, hf1]
      rw [h1] at hok
      exact Except.noConfusion hok
    · rcases hf2 : fixFaceRef m4 (faceOf m t) t t_next with ⟨r2, m5⟩
      rcases r2 with e2 | u2
      · have h1 : collapseEdge m h = (.error e2, m5) := by
          unfold collapseEdge; simp only [hr, hf1, hf2]
        rw [h1] at hok
        exact Except.noConfusion hok
      · rcases hvh : (vAt m5 v).bind (fun vd => vd.halfedge) with _ | vh
        · have h1 : collapseEdge m h = (.error Err.missingHalfedge, m5) := by
            unfold collapseEdge; simp only [hr, hf1, hf2, hvh]
          rw [h1] at hok
          exact Except.noConfusion hok
        · have h1 : collapseEdge m h = (.ok v, removeVertex (removeHalfedge (removeHalfedge
              (if vh = h then setVertexHalfedge m5 v (some v_next_fan) else m5) t) h) w) := by
            unfold collapseEdge; simp only [hr, hf1, hf2, hvh]
          have hm5 : ∀ y, twinOf m5 y = twinOf m y := by
            intro y
            have e5 : m5 = (fixFaceRef m4 (faceOf m t) t t_next).2 := by rw [hf2]
            have e4 : m4 = (fixFaceRef (setNext (setNext
                (w_outgoing.foldl (fun mm h_wo => setVertexField mm h_wo (some v)) m)
                t_prev (some t_next)) h_prev (some h_next)) (faceOf m h) h h_next).2 := by
              rw [hf1]
            rw [e5, twinOf_fixFaceRef, e4, twinOf_fixFaceRef, twinOf_setNext,
              twinOf_setNext, twinOf_foldl_setVertexField]
          have hchar : ∀ y, twinOf (collapseEdge m h).2 y =
              (if y = h then none else if y = t then none else twinOf m y) := by
            intro y
            rw [h1]
            show twinOf (removeVertex _ _) y = _
            rw [twinOf_removeV]
            by_cases hy0 : y = h
            · rw [if_pos hy0, hy0, twinOf_removeHE_self]
            · rw [if_neg hy0]
              by_cases hy1 : y = t
              · rw [if_pos hy1, hy1, twinOf_removeHE_ne _ _ _ hne, twinOf_removeHE_self]
              · rw [if_neg hy1, twinOf_removeHE_ne _ _ _ hy0,
                  twinOf_removeHE_ne _ _ _ hy1, twinOf_ite_setVH]
                exact hm5 y
          intro a b hab
          rw [hchar a] at hab
          by_cases ha0 : a = h
          · rw [if_pos ha0] at hab; exact Option.noConfusion hab
          · rw [if_neg ha0] at hab
            by_cases ha1 : a = t
            · rw [if_pos ha1] at hab; exact Option.noConfusion hab
            · rw [if_neg ha1] at hab
              obtain ⟨hb, hbne⟩ := hti a b hab
              have hbl : b ≠ h := by
                intro hc
                rw [hc, htm] at hb
                exact ha1 (Option.some.inj hb).symm
              have hbr : b ≠ t := by
                intro hc
                rw [hc, hback] at hb
                exact ha0 (Option.some.inj hb).symm
              rw [hchar b, if_neg hbl, if_neg hbr]
              exact ⟨hb, hbne⟩

theorem twinOf_optSetFH (m : Mesh P) (fo : Option Nat) (hh : Option Nat) (y : Nat) :
    twinOf (optSetFH m fo hh) y = twinOf m y := by
  rcases fo with _ | f
  · rfl
  · exact twinOf_setFH _ _ _ _

theorem aget_alloc6_isSome {α : Type} (l : List (Option α)) (d : α) (k : Nat)
    (hk : k < 6) :
    (aget (l ++ [some d] ++ [some d] ++ [some d] ++ [some d] ++ [some d] ++ [some d])
      (l.length + k)).isSome = true := by
  interval_cases k
  · rw [aget_append_lt _ _ _ (by simp), aget_append_lt _ _ _ (by simp),
      aget_append_lt _ _ _ (by simp), aget_append_lt _ _ _ (by simp),
      aget_append_lt _ _ _ (by simp),
      show l.length + 0 = l.length from by omega, aget_append_self]
    rfl
  · rw [aget_append_lt _ _ _ (by simp), aget_append_lt _ _ _ (by simp),
      aget_append_lt _ _ _ (by simp), aget_append_lt _ _ _ (by simp),
      show l.length + 1 = (l ++ [some d]).length from by simp, aget_append_self]
    rfl
  · rw [aget_append_lt _ _ _ (by simp), aget_append_lt _ _ _ (by simp),
      aget_append_lt _ _ _ (by simp),
      show l.length + 2 = (l ++ [some d] ++ [some d]).length from by simp,
      aget_append_self]
    rfl
  · rw [aget_append_lt _ _ _ (by simp), aget_append_lt _ _ _ (by simp),
      show l.length + 3 = (l ++ [some d] ++ [some d] ++ [some d]).length from by simp,
      aget_append_self]
    rfl
  · rw [aget_append_lt _ _ _ (by simp),
      show l.length + 4
        = (l ++ [some d] ++ [some d] ++ [some d] ++ [some d]).length from by simp,
      aget_append_self]
    rfl
  · rw [show l.length + 5
        = (l ++ [some d] ++ [some d] ++ [some d] ++ [some d] ++ [some d]).length
        from by simp,
      aget_append_self]
    rfl

theorem aget_alloc6_other {α : Type} (l : List (Option α)) (d : α) (y : Nat)
    (h0 : y ≠ l.length) (h1 : y ≠ l.length + 1) (h2 : y ≠ l.length + 2)
    (h3 : y ≠ l.length + 3) (h4 : y ≠ l.length + 4) (h5 : y ≠ l.length + 5) :
    aget (l ++ [some d] ++ [some d] ++ [some d] ++ [some d] ++ [some d] ++ [some d]) y
      = aget l y := by
  rcases Nat.lt_or_ge y l.length with hlt | hge
  · rw [aget_append_lt _ _ _ (by simp; omega), aget_append_lt _ _ _ (by simp; omega),
      aget_append_lt _ _ _ (by simp; omega), aget_append_lt _ _ _ (by simp; omega),
      aget_append_lt _ _ _ (by simp; omega), aget_append_lt _ _ _ hlt]
  · rw [aget_ge_length _ _ (by simp; omega), aget_ge_length _ _ (by omega)]

theorem twinInv_of_three_pairs {m m' : Mesh P} (hti : TwinInv m)
    (hlive : ∀ h t : Nat, twinOf m h = some t → t < m.halfedges.length)
    (hchar : ∀ y, twinOf m' y =
      (if y = m.halfedges.length then some (m.halfedges.length + 1)
       else if y = m.halfedges.length + 1 then some m.halfedges.length
       else if y = m.halfedges.length + 2 then some (m.halfedges.length + 3)
       else if y = m.halfedges.length + 3 then some (m.halfedges.length + 2)
       else if y = m.halfedges.length + 4 then some (m.halfedges.length + 5)
       else if y = m.halfedges.length + 5 then some (m.halfedges.length + 4)
       else twinOf m y)) : TwinInv m' := by
  intro a b hab
  rw [hchar a] at hab
  by_cases ha0 : a = m.halfedges.length
  · rw [if_pos ha0] at hab
    have hbeq : b = m.halfedges.length + 1 := (Option.some.inj hab).symm
    rw [hbeq, hchar, if_neg (by omega), if_pos rfl]
    exact ⟨by rw [ha0], by omega⟩
  · rw [if_neg ha0] at hab
    by_cases ha1 : a = m.halfedges.length + 1
    · rw [if_pos ha1] at hab
      have hbeq : b = m.halfedges.length := (Option.some.inj hab).symm
      rw [hbeq, hchar, if_pos rfl]
      exact ⟨by rw [ha1], by omega⟩
    · rw [if_neg ha1] at hab
      by_cases ha2 : a = m.halfedges.length + 2
      · rw [if_pos ha2] at hab
        have hbeq : b = m.halfedges.length + 3 := (Option.some.inj hab).symm
        rw [hbeq, hchar, if_neg (by omega), if_neg (by omega), if_neg (by omega),
          if_pos rfl]
        exact ⟨by rw [ha2], by omega⟩
      · rw [if_neg ha2] at hab
        by_cases ha3 : a = m.halfedges.length + 3
        · rw [if_pos ha3] at hab
          have hbeq : b = m.halfedges.length + 2 := (Option.some.inj hab).symm
          rw [hbeq, hchar, if_neg (by omega), if_neg (by omega), if_pos rfl]
          exact ⟨by rw [ha3], by omega⟩
        · rw [if_neg ha3] at hab
          by_cases ha4 : a = m.halfedges.length + 4
          · rw [if_pos ha4] at hab
            have hbeq : b = m.halfedges.length + 5 := (Option.some.inj hab).symm
            rw [hbeq, hchar, if_neg (by omega), if_neg (by omega), if_neg (by omega),
              if_neg (by omega), if_neg (by omega), if_pos rfl]
            exact ⟨by rw [ha4], by omega⟩
          · rw [if_neg ha4] at hab
            by_cases ha5 : a = m.halfedges.length + 5
            · rw [if_pos ha5] at hab
              have hbeq : b = m.halfedges.length + 4 := (Option.some.inj hab).symm
              rw [hbeq, hchar, if_neg (by omega), if_neg (by omega), if_neg (by omega),
                if_neg (by omega), if_pos rfl]
              exact ⟨by rw [ha5], by omega⟩
            · rw [if_neg ha5] at hab
              obtain ⟨hb, hbne⟩ := hti a b hab
              have hblt : b < m.halfedges.length := hlive a b hab
              rw [hchar b, if_neg (by omega), if_neg (by omega), if_neg (by omega),
                if_neg (by omega), if_neg (by omega), if_neg (by omega)]
              exact ⟨hb, hbne⟩

set_option maxHeartbeats 1000000 in
theorem twinInv_splitVertex {G : GeomOps P} {m : Mesh P} {v v_l v_r : Nat} {delta : P}
    {r : Nat} (htw : twinOkB m = true)
    (hok : (splitVertex G m v v_l v_r delta).1 = .ok r) :
    TwinInv (splitVertex G m v v_l v_r delta).2 := by
  have hti := twinInv_of_twinOkB htw
  rcases hpos : exPosition m v with e | v_pos
  · have h1 : splitVertex G m v v_l v_r delta = (.error e, m) := by
      unfold splitVertex; simp only [hpos]
    rw [h1] at hok
    exact Except.noConfusion hok
  · rcases hreads : splitVertexReads m v v_l v_r with e | ⟨h_r_v, h_v_r, h_v_l, h_l_v,
      incoming_hs, outgoing_hs, f_l_old, f_r_old, prev_h_r_v, next_h_v_l⟩
    · have h1 : splitVertex G m v v_l v_r delta = (.error e, m) := by
        unfold splitVertex; simp only [hpos, hreads]
      rw [h1] at hok
      exact Except.noConfusion hok
    · have hchar : ∀ y, twinOf (splitVertex G m v v_l v_r delta).2 y =
          (if y = m.halfedges.length then some (m.halfedges.length + 1)
           else if y = m.halfedges.length + 1 then some m.halfedges.length
           else if y = m.halfedges.length + 2 then some (m.halfedges.length + 3)
           else if y = m.halfedges.length + 3 then some (m.halfedges.length + 2)
           else if y = m.halfedges.length + 4 then some (m.halfedges.length + 5)
           else if y = m.halfedges.length + 5 then some (m.halfedges.length + 4)
           else twinOf m y) := by
        intro y
        unfold splitVertex
        simp only [hpos, hreads, allocVertex, allocHalfedge, allocFace,
          List.length_append, List.length_cons, List.length_nil]
        simp only [twinOf_foldl_setVertexField, twinOf_ite_setNext, twinOf_setNext,
          twinOf_setVH, twinOf_optSetFH, twinOf_setFaceField]
        by_cases hy5 : y = m.halfedges.length + 5
        · rw [if_neg (by omega), if_neg (by omega), if_neg (by omega),
            if_neg (by omega), if_neg (by omega), if_pos hy5, hy5, twinOf_setTwin_self]
          show liveHE _ _ = true
          simp only [liveHE_setTwin, liveHE_setVH, liveHE_setFH, liveHE_setVertexField,
            liveHE_setFaceField, liveHE_setNext]
          exact aget_alloc6_isSome m.halfedges defaultHalfEdge 5 (by omega)
        · rw [twinOf_setTwin_ne _ _ _ _ hy5, if_neg hy5]
          by_cases hy4 : y = m.halfedges.length + 4
          · rw [if_neg (by omega), if_neg (by omega), if_neg (by omega),
              if_neg (by omega), if_pos hy4, hy4, twinOf_setTwin_self]
            show liveHE _ _ = true
            simp only [liveHE_setTwin, liveHE_setVH, liveHE_setFH,
              liveHE_setVertexField, liveHE_setFaceField, liveHE_setNext]
            exact aget_alloc6_isSome m.halfedges defaultHalfEdge 4 (by omega)
          · rw [twinOf_setTwin_ne _ _ _ _ hy4, if_neg hy4]
            by_cases hy3 : y = m.halfedges.length + 3
            · rw [if_neg (by omega), if_neg (by omega), if_neg (by omega),
                if_pos hy3, hy3, twinOf_setTwin_self]
              show liveHE _ _ = true
              simp only [liveHE_setTwin, liveHE_setVH, liveHE_setFH,
                liveHE_setVertexField, liveHE_setFaceField, liveHE_setNext]
              exact aget_alloc6_isSome m.halfedges defaultHalfEdge 3 (by omega)
            · rw [twinOf_setTwin_ne _ _ _ _ hy3, if_neg hy3]
              by_cases hy2 : y = m.halfedges.length + 2
              · rw [if_neg (by omega), if_neg (by omega), if_pos hy2, hy2,
                  twinOf_setTwin_self]
                show liveHE _ _ = true
                simp only [liveHE_setTwin, liveHE_setVH, liveHE_setFH,
                  liveHE_setVertexField, liveHE_setFaceField, liveHE_setNext]
                exact aget_alloc6_isSome m.halfedges defaultHalfEdge 2 (by omega)
              · rw [twinOf_setTwin_ne _ _ _ _ hy2, if_neg hy2]
                by_cases hy1 : y = m.halfedges.length + 1
                · rw [if_neg (by omega), if_pos hy1, hy1, twinOf_setTwin_self]
                  show liveHE _ _ = true
                  simp only [liveHE_setTwin, liveHE_setVH, liveHE_setFH,
                    liveHE_setVertexField, liveHE_setFaceField, liveHE_setNext]
                  exact aget_alloc6_isSome m.halfedges defaultHalfEdge 1 (by omega)
                · rw [twinOf_setTwin_ne _ _ _ _ hy1, if_neg hy1]
                  by_cases hy0 : y = m.halfedges.length
                  · rw [if_pos hy0, hy0, twinOf_setTwin_self]
                    show liveHE _ _ = true
                    simp only [liveHE_setVH, liveHE_setFH, liveHE_setVertexField,
                      liveHE_setFaceField, liveHE_setNext]
                    exact aget_alloc6_isSome m.halfedges defaultHalfEdge 0 (by omega)
                  · rw [twinOf_setTwin_ne _ _ _ _ hy0, if_neg hy0]
                    simp only [twinOf_setVH, twinOf_setFH, twinOf_setVertexField,
                      twinOf_setFaceField, twinOf_setNext]
                    show (aget (m.halfedges ++ [some defaultHalfEdge] ++ [some defaultHalfEdge]
                        ++ [some defaultHalfEdge] ++ [some defaultHalfEdge]
                        ++ [some defaultHalfEdge] ++ [some defaultHalfEdge]) y).bind
                      (fun e => e.twin) = twinOf m y
                    rw [aget_alloc6_other m.halfedges defaultHalfEdge y hy0 hy1 hy2 hy3
                      hy4 hy5]
                    rfl
      exact twinInv_of_three_pairs hti
        (fun a b hab => lt_of_live (live_of_twinOf (hti a b hab).1)) hchar

theorem dissolveVertexLoop_spec :
    ∀ (l : List Nat) (m0 : Mesh P) (acc racc : List (Nat × Nat × Nat)) (m1 : Mesh P),
      dissolveVertexLoop m0 l acc = (.ok racc, m1) →
      (∀ y, twinOf m1 y = twinOf m0 y) ∧
      (∀ td ∈ racc, td ∈ acc ∨ twinOf m0 td.2.1 = some td.1) := by
  intro l
  induction l with
  | nil =>
    intro m0 acc racc m1 hl
    unfold dissolveVertexLoop at hl
    obtain ⟨h1, h2⟩ := Prod.mk.injEq .. ▸ hl
    obtain rfl : acc = racc := Except.ok.inj h1
    subst h2
    exact ⟨fun y => rfl, fun td htd => Or.inl htd⟩
  | cons h rest ih =>
    intro m0 acc racc m1 hl
    unfold dissolveVertexLoop at hl
    rcases h1 : exTwin m0 h with e1 | tw
    · simp only [h1, ebind_err] at hl
      exact Except.noConfusion (congrArg Prod.fst hl)
    · simp only [h1, ebind_ok] at hl
      rcases h2 : exVertex m0 tw with e2 | w'
      · simp only [h2, ebind_err] at hl
        exact Except.noConfusion (congrArg Prod.fst hl)
      · simp only [h2, ebind_ok] at hl
        rcases h3 : exNext m0 h with e3 | nxt
        · simp only [h3, ebind_err] at hl
          exact Except.noConfusion (congrArg Prod.fst hl)
        · simp only [h3, ebind_ok] at hl
          rcases h4 : exPrev m0 tw with e4 | prv
          · simp only [h4, ebind_err] at hl
            exact Except.noConfusion (congrArg Prod.fst hl)
          · simp only [h4, ebind_ok] at hl
            rcases h5 : exFace m0 h with e5 | f
            · simp only [h5, ebind_err] at hl
              exact Except.noConfusion (congrArg Prod.fst hl)
            · simp only [h5, ebind_ok, pure, Except.pure] at hl
              obtain ⟨hpres, hmem⟩ := ih _ _ _ _ hl
              have hm2 : ∀ y, twinOf (if (vAt (setNext m0 prv (some nxt)) w').bind
                    (fun vd => vd.halfedge) = some tw
                  then setVertexHalfedge (setNext m0 prv (some nxt)) w' (some nxt)
                  else setNext m0 prv (some nxt)) y = twinOf m0 y := by
                intro y
                rw [twinOf_ite_setVH, twinOf_setNext]
              refine ⟨fun y => (hpres y).trans (hm2 y), fun td htd => ?_⟩
              rcases hmem td htd with hin | htw
              · rcases List.mem_append.mp hin with hin2 | hone
                · exact Or.inl hin2
                · obtain rfl : td = (tw, h, f) := List.mem_singleton.mp hone
                  exact Or.inr (exTwin_ok.mp h1)
              · exact Or.inr ((hm2 td.2.1).symm.trans htw)

theorem twinOf_foldl_remove3 :
    ∀ (tds : List (Nat × Nat × Nat)) (m0 : Mesh P) (y : Nat),
      twinOf (tds.foldl (fun mm td =>
        removeFace (removeHalfedge (removeHalfedge mm td.1) td.2.1) td.2.2) m0) y
      = (if tds.any (fun td => y = td.1 || y = td.2.1) then none else twinOf m0 y) := by
  intro tds
  induction tds with
  | nil => intro m0 y; rfl
  | cons td rest ih =>
    intro m0 y
    rw [List.foldl_cons, ih, List.any_cons]
    by_cases hy : (y = td.1 ∨ y = td.2.1)
    · have hb : (decide (y = td.1) || decide (y = td.2.1)) = true := by
        rcases hy with hc | hc
        · simp [hc]
        · simp [hc]
      rw [hb, Bool.true_or, if_pos rfl]
      by_cases hr : rest.any (fun td => y = td.1 || y = td.2.1) = true
      · rw [if_pos hr]
      · rw [if_neg hr, twinOf_removeF]
        rcases hy with hc | hc
        · by_cases hcc : y = td.2.1
          · rw [hcc, twinOf_removeHE_self]
          · rw [twinOf_removeHE_ne _ _ _ hcc, hc, twinOf_removeHE_self]
        · rw [hc, twinOf_removeHE_self]
    · have hb : (decide (y = td.1) || decide (y = td.2.1)) = false := by
        push_neg at hy
        simp [hy.1, hy.2]
      rw [hb, Bool.false_or]
      by_cases hr : rest.any (fun td => y = td.1 || y = td.2.1) = true
      · rw [if_pos hr, if_pos hr]
      · rw [if_neg hr, if_neg hr, twinOf_removeF]
        push_neg at hy
        rw [twinOf_removeHE_ne _ _ _ hy.2, twinOf_removeHE_ne _ _ _ hy.1]

theorem twinInv_dissolveVertex {m : Mesh P} {v r : Nat} (htw : twinOkB m = true)
    (hok : (dissolveVertex m v).1 = .ok r) : TwinInv (dissolveVertex m v).2 := by
  have hti := twinInv_of_twinOkB htw
  rcases hout : outgoingHalfedges m v with e | outgoing
  · have h1 : dissolveVertex m v = (.error e, m) := by
      unfold dissolveVertex; simp only [hout]
    rw [h1] at hok
    exact Except.noConfusion hok
  · by_cases hlen : outgoing.length = 0
    · have h1 : dissolveVertex m v = (.error Err.isolatedVertex, m) := by
        unfold dissolveVertex
        simp only [hout]
        rw [if_pos hlen]
      rw [h1] at hok
      exact Except.noConfusion hok
    · rcases hloop : dissolveVertexLoop (allocFace m none).2 outgoing []
        with ⟨rl, mb⟩
      have hloop' := hloop
      simp only [allocFace] at hloop'
      rcases rl with e | to_delete
      · have h1 : dissolveVertex m v = (.error e, mb) := by
          unfold dissolveVertex
          simp only [hout]
          rw [if_neg hlen]
          simp only [allocFace, hloop']
        rw [h1] at hok
        exact Except.noConfusion hok
      · obtain ⟨hpres, hmem0⟩ := dissolveVertexLoop_spec outgoing _ [] to_delete mb hloop
        have hmem : ∀ td ∈ to_delete, twinOf m td.2.1 = some td.1 := by
          intro td htd
          rcases hmem0 td htd with hin | htw2
          · exact absurd hin (List.not_mem_nil td)
          · rw [← twinOf_allocF m none td.2.1]
            exact htw2
        rcases hnx : exNext mb (outgoing.getD 0 0) with e | start
        · have h1 : dissolveVertex m v = (.error e, mb) := by
            unfold dissolveVertex
            simp only [hout]
            rw [if_neg hlen]
            simp only [allocFace, hloop', hnx]
          rw [h1] at hok
          exact Except.noConfusion hok
        · have hchar : ∀ y, twinOf (dissolveVertex m v).2 y =
              (if to_delete.any (fun td => y = td.1 || y = td.2.1) then none
               else twinOf m y) := by
            intro y
            unfold dissolveVertex
            simp only [hout]
            rw [if_neg hlen]
            simp only [allocFace, hloop', hnx]
            rw [twinOf_foldl_remove3, twinOf_removeV, twinOf_setFH,
              twinOf_foldl_setFaceField]
            by_cases hany : to_delete.any (fun td => y = td.1 || y = td.2.1) = true
            · rw [if_pos hany, if_pos hany]
            · rw [if_neg hany, if_neg hany]
              have hpy := hpres y
              simp only [allocFace] at hpy
              rw [hpy]
              rfl
          intro a b hab
          rw [hchar a] at hab
          by_cases hany : to_delete.any (fun td => a = td.1 || a = td.2.1) = true
          · rw [if_pos hany] at hab
            exact Option.noConfusion hab
          · rw [if_neg hany] at hab
            obtain ⟨hb, hbne⟩ := hti a b hab
            have hbany : ¬ to_delete.any (fun td => b = td.1 || b = td.2.1) = true := by
              intro hc
              obtain ⟨td, htd, hmatch⟩ := List.any_eq_true.mp hc
              have htwin := hmem td htd
              simp only [Bool.or_eq_true, decide_eq_true_eq] at hmatch
              rcases hmatch with hc1 | hc2
              · obtain ⟨hb2, -⟩ := hti td.2.1 td.1 htwin
                rw [← hc1] at hb2
                rw [hb] at hb2
                have haeq : a = td.2.1 := Option.some.inj hb2
                apply hany
                refine List.any_eq_true.mpr ⟨td, htd, ?_⟩
                simp [haeq]
              · rw [hc2] at hb
                rw [htwin] at hb
                have haeq : a = td.1 := Option.some.inj hb.symm
                apply hany
                refine List.any_eq_true.mpr ⟨td, htd, ?_⟩
                simp [haeq]
            rw [hchar b, if_neg hbany]
            exact ⟨hb, hbne⟩

/-- The cross-twin writes performed by the twin-assignment pass of
`add_face`: `(reverse half-edge, ring half-edge)` for each pair-map hit. -/
def twinWritePairs (pm1 : List ((Nat × Nat) × Nat))
    (L : List ((Nat × Nat) × Nat)) : List (Nat × Nat) :=
  L.filterMap (fun pr => (pmLookup pm1 (pr.1.2, pr.1.1)).map (fun x => (x, pr.2)))

/-- All half-edge ids touched by a list of cross-twin writes. -/
def wids : List (Nat × Nat) → List Nat
  | [] => []
  | p :: rest => p.1 :: p.2 :: wids rest

/-- The partner a list of mutual cross-twin writes assigns to `z`, if any. -/
def pairPartner (W : List (Nat × Nat)) (z : Nat) : Option Nat :=
  (W.find? (fun p => p.1 = z || p.2 = z)).map (fun p => if p.1 = z then p.2 else p.1)

theorem mem_wids_of {W : List (Nat × Nat)} {p : Nat × Nat} {z : Nat}
    (hp : p ∈ W) (hz : z = p.1 ∨ z = p.2) : z ∈ wids W := by
  induction W with
  | nil => exact absurd hp (List.not_mem_nil p)
  | cons q rest ih =>
    rcases List.mem_cons.mp hp with rfl | hq
    · rcases hz with rfl | rfl
      · exact List.mem_cons_self _ _
      · exact List.mem_cons_of_mem _ (List.mem_cons_self _ _)
    · exact List.mem_cons_of_mem _ (List.mem_cons_of_mem _ (ih hq))

theorem pairPartner_mem_self {W : List (Nat × Nat)} {z u : Nat}
    (h : pairPartner W z = some u) : z ∈ wids W := by
  unfold pairPartner at h
  rcases hf : W.find? (fun p => p.1 = z || p.2 = z) with _ | p
  · rw [hf] at h; exact Option.noConfusion h
  · have hmem := List.mem_of_find?_eq_some hf
    have hpred := List.find?_some hf
    simp only [Bool.or_eq_true, decide_eq_true_eq] at hpred
    exact mem_wids_of hmem (by tauto)

theorem pairPartner_mem_partner {W : List (Nat × Nat)} {z u : Nat}
    (h : pairPartner W z = some u) : u ∈ wids W := by
  unfold pairPartner at h
  rcases hf : W.find? (fun p => p.1 = z || p.2 = z) with _ | p
  · rw [hf] at h; exact Option.noConfusion h
  · rw [hf] at h
    have hmem := List.mem_of_find?_eq_some hf
    have hu : (if p.1 = z then p.2 else p.1) = u := by simpa using h
    by_cases hc : p.1 = z
    · rw [if_pos hc] at hu
      exact mem_wids_of hmem (Or.inr hu.symm)
    · rw [if_neg hc] at hu
      exact mem_wids_of hmem (Or.inl hu.symm)

theorem pairPartner_symm :
    ∀ (W : List (Nat × Nat)), (wids W).Nodup → ∀ {a b : Nat},
      pairPartner W a = some b → pairPartner W b = some a ∧ b ≠ a := by
  intro W
  induction W with
  | nil =>
    intro _ a b h
    exact Option.noConfusion h
  | cons p rest ih =>
    intro hnd a b h
    have hnd1 : p.1 ∉ (p.2 :: wids rest) := (List.nodup_cons.mp hnd).1
    have hnd2 : p.2 ∉ wids rest := (List.nodup_cons.mp (List.nodup_cons.mp hnd).2).1
    have hndr : (wids rest).Nodup := (List.nodup_cons.mp (List.nodup_cons.mp hnd).2).2
    have hp12 : p.1 ≠ p.2 := fun hc => hnd1 (hc ▸ List.mem_cons_self _ _)
    unfold pairPartner at h ⊢
    by_cases hhead : (decide (p.1 = a) || decide (p.2 = a)) = true
    · rw [@List.find?_cons_of_pos _ (fun q => decide (q.1 = a) || decide (q.2 = a))
        p rest hhead] at h
      have hb : (if p.1 = a then p.2 else p.1) = b := by simpa using h
      by_cases hc : p.1 = a
      · rw [if_pos hc] at hb
        have hbhead : (decide (p.1 = b) || decide (p.2 = b)) = true := by
          simp [← hb]
        rw [@List.find?_cons_of_pos _ (fun q => decide (q.1 = b) || decide (q.2 = b))
          p rest hbhead]
        constructor
        · have hnb : ¬ p.1 = b := by rw [← hb]; exact hp12
          show Option.map (fun q : Nat × Nat => if q.1 = b then q.2 else q.1) (some p)
            = some a
          rw [show Option.map (fun q : Nat × Nat => if q.1 = b then q.2 else q.1) (some p)
            = some (if p.1 = b then p.2 else p.1) from rfl, if_neg hnb]
          exact congrArg some hc
        · rw [← hb, ← hc]; exact fun hcc => hp12 hcc.symm
      · rw [if_neg hc] at hb
        have hpa : p.2 = a := by
          have hh := hhead
          simp only [Bool.or_eq_true, decide_eq_true_eq] at hh
          rcases hh with h1 | h2
          · exact absurd h1 hc
          · exact h2
        have hbhead : (decide (p.1 = b) || decide (p.2 = b)) = true := by
          simp [← hb]
        rw [@List.find?_cons_of_pos _ (fun q => decide (q.1 = b) || decide (q.2 = b))
          p rest hbhead]
        constructor
        · show Option.map (fun q : Nat × Nat => if q.1 = b then q.2 else q.1) (some p)
            = some a
          rw [show Option.map (fun q : Nat × Nat => if q.1 = b then q.2 else q.1) (some p)
            = some (if p.1 = b then p.2 else p.1) from rfl, if_pos hb]
          exact congrArg some hpa
        · rw [← hb, ← hpa]; exact hp12
    · rw [@List.find?_cons_of_neg _ (fun q => decide (q.1 = a) || decide (q.2 = a))
        p rest hhead] at h
      obtain ⟨hsymm, hne⟩ := ih hndr h
      have hbmem : b ∈ wids rest :=
        pairPartner_mem_partner (W := rest) (z := a) (u := b) h
      have hb1 : ¬ p.1 = b := fun hc => hnd1 (hc ▸ List.mem_cons_of_mem _ hbmem)
      have hb2 : ¬ p.2 = b := fun hc => hnd2 (hc ▸ hbmem)
      rw [@List.find?_cons_of_neg _ (fun q => decide (q.1 = b) || decide (q.2 = b))
        p rest (by simp [hb1, hb2])]
      exact ⟨hsymm, hne⟩

theorem twinWritePairs_cons_none {pm1 : List ((Nat × Nat) × Nat)}
    {pr : (Nat × Nat) × Nat} {rest : List ((Nat × Nat) × Nat)}
    (hlk : pmLookup pm1 (pr.1.2, pr.1.1) = none) :
    twinWritePairs pm1 (pr :: rest) = twinWritePairs pm1 rest := by
  unfold twinWritePairs
  rw [List.filterMap_cons]
  simp only [hlk]
  rfl

theorem twinWritePairs_cons_some {pm1 : List ((Nat × Nat) × Nat)}
    {pr : (Nat × Nat) × Nat} {rest : List ((Nat × Nat) × Nat)} {x : Nat}
    (hlk : pmLookup pm1 (pr.1.2, pr.1.1) = some x) :
    twinWritePairs pm1 (pr :: rest) = (x, pr.2) :: twinWritePairs pm1 rest := by
  unfold twinWritePairs
  rw [List.filterMap_cons]
  simp only [hlk]
  rfl

theorem addFace_fold_twinOf (pm1 : List ((Nat × Nat) × Nat)) :
    ∀ (L : List ((Nat × Nat) × Nat)) (mm : Mesh P) (z : Nat),
      (wids (twinWritePairs pm1 L)).Nodup →
      (∀ id ∈ wids (twinWritePairs pm1 L), liveHE mm id = true) →
      twinOf (L.foldl (addFaceTwinStep pm1) mm) z =
        (match pairPartner (twinWritePairs pm1 L) z with
         | some u => some u
         | none => twinOf mm z) := by
  intro L
  induction L with
  | nil => intro mm z _ _; rfl
  | cons pr rest ih =>
    intro mm z hnd hlive
    rw [List.foldl_cons]
    rcases hlk : pmLookup pm1 (pr.1.2, pr.1.1) with _ | x
    · rw [twinWritePairs_cons_none hlk] at hnd hlive ⊢
      have hstep : addFaceTwinStep pm1 mm pr = mm := by
        unfold addFaceTwinStep; simp only [hlk]
      rw [hstep]
      exact ih mm z hnd hlive
    · rw [twinWritePairs_cons_some hlk] at hnd hlive ⊢
      have hx1 : x ∉ (pr.2 :: wids (twinWritePairs pm1 rest)) :=
        (List.nodup_cons.mp hnd).1
      have hx2 : pr.2 ∉ wids (twinWritePairs pm1 rest) :=
        (List.nodup_cons.mp (List.nodup_cons.mp hnd).2).1
      have hndr := (List.nodup_cons.mp (List.nodup_cons.mp hnd).2).2
      have hxy : x ≠ pr.2 := fun hc => hx1 (hc ▸ List.mem_cons_self _ _)
      have hlx : liveHE mm x = true := hlive x (List.mem_cons_self _ _)
      have hly : liveHE mm pr.2 = true :=
        hlive pr.2 (List.mem_cons_of_mem _ (List.mem_cons_self _ _))
      have hstep : addFaceTwinStep pm1 mm pr
          = setTwin (setTwin mm x (some pr.2)) pr.2 (some x) := by
        unfold addFaceTwinStep; simp only [hlk]
      rw [hstep]
      have hlive' : ∀ id ∈ wids (twinWritePairs pm1 rest),
          liveHE (setTwin (setTwin mm x (some pr.2)) pr.2 (some x)) id = true := by
        intro id hid
        rw [liveHE_setTwin, liveHE_setTwin]
        exact hlive id (List.mem_cons_of_mem _ (List.mem_cons_of_mem _ hid))
      rw [ih _ z hndr hlive']
      by_cases hz1 : x = z
      · have hhd : pairPartner ((x, pr.2) :: twinWritePairs pm1 rest) z = some pr.2 := by
          unfold pairPartner
          rw [@List.find?_cons_of_pos _ (fun p => decide (p.1 = z) || decide (p.2 = z))
            (x, pr.2) _ (by simp [hz1])]
          simp [hz1]
        rw [hhd]
        have hrnone : pairPartner (twinWritePairs pm1 rest) z = none := by
          rcases hrw : pairPartner (twinWritePairs pm1 rest) z with _ | u
          · rfl
          · have := pairPartner_mem_self hrw
            rw [← hz1] at this
            exact absurd this (fun hc => hx1 (List.mem_cons_of_mem _ hc))
        rw [hrnone]
        show twinOf (setTwin (setTwin mm x (some pr.2)) pr.2 (some x)) z = some pr.2
        rw [twinOf_setTwin_ne _ _ _ _ (by rw [← hz1]; exact hxy), ← hz1,
          twinOf_setTwin_self _ _ _ hlx]
      · by_cases hz2 : pr.2 = z
        · have hhd : pairPartner ((x, pr.2) :: twinWritePairs pm1 rest) z = some x := by
            unfold pairPartner
            rw [@List.find?_cons_of_pos _ (fun p => decide (p.1 = z) || decide (p.2 = z))
              (x, pr.2) _ (by simp [hz2])]
            simp [hz1]
          rw [hhd]
          have hrnone : pairPartner (twinWritePairs pm1 rest) z = none := by
            rcases hrw : pairPartner (twinWritePairs pm1 rest) z with _ | u
            · rfl
            · have := pairPartner_mem_self hrw
              rw [← hz2] at this
              exact absurd this hx2
          rw [hrnone]
          show twinOf (setTwin (setTwin mm x (some pr.2)) pr.2 (some x)) z = some x
          rw [← hz2, twinOf_setTwin_self]
          show liveHE _ _ = true
          rw [liveHE_setTwin]
          exact hly
        · have hhd : pairPartner ((x, pr.2) :: twinWritePairs pm1 rest) z
              = pairPartner (twinWritePairs pm1 rest) z := by
            unfold pairPartner
            rw [@List.find?_cons_of_neg _ (fun p => decide (p.1 = z) || decide (p.2 = z))
              (x, pr.2) _ (by simp [hz1, hz2])]
          rw [hhd]
          rcases hrw : pairPartner (twinWritePairs pm1 rest) z with _ | u
          · show twinOf (setTwin (setTwin mm x (some pr.2)) pr.2 (some x)) z = twinOf mm z
            rw [twinOf_setTwin_ne _ _ _ _ (fun hc => hz2 hc.symm),
              twinOf_setTwin_ne _ _ _ _ (fun hc => hz1 hc.symm)]
          · rfl

theorem twinOf_allocHE_none (m : Mesh P) (v0 f0 : Option Nat) (y : Nat) :
    twinOf (allocHalfedge m ⟨v0, f0, none, none⟩).2 y = twinOf m y := by
  rcases eq_or_ne y m.halfedges.length with rfl | hne
  · rw [twinOf_allocHE_self]
    unfold twinOf heAt
    rw [aget_ge_length _ _ (Nat.le_refl _)]
    rfl
  · rw [twinOf_allocHE_ne _ _ _ hne]

theorem addFaceLoop1_twinOf (f : Nat) :
    ∀ (l : List (Nat × Nat)) (m0 : Mesh P) (pm : List ((Nat × Nat) × Nat))
      (acc : List Nat) (y : Nat),
      twinOf (addFaceLoop1 f m0 l pm acc).1 y = twinOf m0 y := by
  intro l
  induction l with
  | nil => intro m0 pm acc y; rfl
  | cons p rest ih =>
    rcases p with ⟨v, v2⟩
    intro m0 pm acc y
    unfold addFaceLoop1
    rcases hlk : pmLookup pm (v, v2) with _ | h0
    · simp only [hlk, allocHalfedge]
      rw [ih]
      rw [twinOf_setVH]
      exact twinOf_allocHE_none m0 (some v) (some f) y
    · simp only [hlk]
      rw [ih, twinOf_setVH, twinOf_setFaceField]

theorem addFaceLoop1_liveHE (f : Nat) :
    ∀ (l : List (Nat × Nat)) (m0 : Mesh P) (pm : List ((Nat × Nat) × Nat))
      (acc : List Nat) (y : Nat), liveHE m0 y = true →
      liveHE (addFaceLoop1 f m0 l pm acc).1 y = true := by
  intro l
  induction l with
  | nil => intro m0 pm acc y hy; exact hy
  | cons p rest ih =>
    rcases p with ⟨v, v2⟩
    intro m0 pm acc y hy
    unfold addFaceLoop1
    rcases hlk : pmLookup pm (v, v2) with _ | h0
    · simp only [hlk, allocHalfedge]
      apply ih
      rw [liveHE_setVH]
      have := liveHE_allocHE m0 ⟨some v, some f, none, none⟩ y
      simp only [allocHalfedge] at this
      rw [this, hy, Bool.or_true]
    · simp only [hlk]
      apply ih
      rw [liveHE_setVH, liveHE_setFaceField]
      exact hy

theorem twinOf_foldl_setNextPairs :
    ∀ (l : List (Nat × Nat)) (m0 : Mesh P) (y : Nat),
      twinOf (l.foldl (fun mm p => setNext mm p.1 (some p.2)) m0) y = twinOf m0 y := by
  intro l
  induction l with
  | nil => intro m0 y; rfl
  | cons p rest ih => intro m0 y; rw [List.foldl_cons, ih, twinOf_setNext]

theorem liveHE_foldl_setNextPairs :
    ∀ (l : List (Nat × Nat)) (m0 : Mesh P) (y : Nat),
      liveHE (l.foldl (fun mm p => setNext mm p.1 (some p.2)) m0) y = liveHE m0 y := by
  intro l
  induction l with
  | nil => intro m0 y; rfl
  | cons p rest ih => intro m0 y; rw [List.foldl_cons, ih, liveHE_setNext]

theorem twinInv_addFace (m : Mesh P) (vs : List Nat)
    (pm pm1 : List ((Nat × Nat) × Nat)) (m1 : Mesh P) (hs : List Nat)
    (htw : twinOkB m = true)
    (hloop : addFaceLoop1 m.faces.length (allocFace m none).2 (circularPairs vs) pm []
      = (m1, pm1, hs))
    (hnd : (wids (twinWritePairs pm1 ((circularPairs vs).zip hs))).Nodup)
    (hlive : ∀ id ∈ wids (twinWritePairs pm1 ((circularPairs vs).zip hs)),
      (heAt m1 id).isSome)
    (hfree : ∀ id ∈ wids (twinWritePairs pm1 ((circularPairs vs).zip hs)),
      twinOf m1 id = none) :
    TwinInv (addFace m vs pm).2.1 := by
  have hti := twinInv_of_twinOkB htw
  have hloop' := hloop
  simp only [allocFace] at hloop'
  have hm1 : m1
      = (addFaceLoop1 m.faces.length (allocFace m none).2 (circularPairs vs) pm []).1 := by
    rw [hloop]
  have heq : (addFace m vs pm).2.1 =
      ((circularPairs vs).zip hs).foldl (addFaceTwinStep pm1)
        (setFaceHalfedge
          ((circularPairs hs).foldl (fun mm p => setNext mm p.1 (some p.2)) m1)
          m.faces.length (some (hs.getD 0 0))) := by
    unfold addFace
    simp only [allocFace, hloop']
  have hm3twin : ∀ y, twinOf (setFaceHalfedge
      ((circularPairs hs).foldl (fun mm p => setNext mm p.1 (some p.2)) m1)
      m.faces.length (some (hs.getD 0 0))) y = twinOf m y := by
    intro y
    rw [twinOf_setFH, twinOf_foldl_setNextPairs, hm1, addFaceLoop1_twinOf,
      twinOf_allocF]
  have hm3live : ∀ id ∈ wids (twinWritePairs pm1 ((circularPairs vs).zip hs)),
      liveHE (setFaceHalfedge
        ((circularPairs hs).foldl (fun mm p => setNext mm p.1 (some p.2)) m1)
        m.faces.length (some (hs.getD 0 0))) id = true := by
    intro id hid
    rw [liveHE_setFH, liveHE_foldl_setNextPairs]
    exact hlive id hid
  have hchar : ∀ z, twinOf (addFace m vs pm).2.1 z =
      (match pairPartner (twinWritePairs pm1 ((circularPairs vs).zip hs)) z with
       | some u => some u
       | none => twinOf m z) := by
    intro z
    rw [heq, addFace_fold_twinOf pm1 _ _ z hnd hm3live]
    rcases hpp : pairPartner (twinWritePairs pm1 ((circularPairs vs).zip hs)) z
      with _ | u
    · simp only [hpp]
      exact hm3twin z
    · simp only [hpp]
  intro a b hab
  rw [hchar a] at hab
  rcases hpa : pairPartner (twinWritePairs pm1 ((circularPairs vs).zip hs)) a
    with _ | u
  · simp only [hpa] at hab
    obtain ⟨hb, hbne⟩ := hti a b hab
    have hbnone : pairPartner (twinWritePairs pm1 ((circularPairs vs).zip hs)) b
        = none := by
      rcases hpb : pairPartner (twinWritePairs pm1 ((circularPairs vs).zip hs)) b
        with _ | u2
      · rfl
      · have hbmem := pairPartner_mem_self hpb
        have hfr := hfree b hbmem
        rw [hm1, addFaceLoop1_twinOf, twinOf_allocF] at hfr
        rw [hfr] at hb
        exact Option.noConfusion hb
    rw [hchar b]
    simp only [hbnone]
    exact ⟨hb, hbne⟩
  · simp only [hpa] at hab
    have hbu : b = u := (Option.some.inj hab).symm
    obtain ⟨hsym, hne⟩ := pairPartner_symm _ hnd hpa
    rw [hchar b, hbu]
    simp only [hsym]
    exact ⟨trivial, hne⟩

/-- C1: twin is an involution with no fixed points.  For every mesh whose
live half-edges already satisfy the twin involution (`twinOkB`, implied by
the core invariants), each of the eight public edit operations — `add_face`
completing a ring (the reverse half-edges exist in the pair map and,
together with the ring half-edges, are live, pairwise distinct and still
untwinned after the allocation pass),
`divide_edge`, `cut_face`, `duplicate_edge`, `collapse_edge`,
`dissolve_edge`, `dissolve_vertex`, and `split_vertex` — yields, on success,
a mesh in which every live half-edge `h` with an assigned twin satisfies
`twin(twin(h)) = h` and `twin(h) ≠ h`. -/
theorem c1_twin_involution (P : Type) :
    (∀ (m : Mesh P) (vs : List Nat) (pm pm1 : List ((Nat × Nat) × Nat))
        (m1 : Mesh P) (hs : List Nat), twinOkB m = true →
      addFaceLoop1 m.faces.length (allocFace m none).2 (circularPairs vs) pm []
        = (m1, pm1, hs) →
      (wids (twinWritePairs pm1 ((circularPairs vs).zip hs))).Nodup →
      (∀ id ∈ wids (twinWritePairs pm1 ((circularPairs vs).zip hs)),
        (heAt m1 id).isSome) →
      (∀ id ∈ wids (twinWritePairs pm1 ((circularPairs vs).zip hs)),
        twinOf m1 id = none) →
      TwinInv (addFace m vs pm).2.1) ∧
    (∀ (G : GeomOps P) (m : Mesh P) (h : Nat) (t : ℚ) (x : Nat), twinOkB m = true →
      (divideEdge G m h t).1 = .ok x → TwinInv (divideEdge G m h t).2) ∧
    (∀ (m : Mesh P) (v w r : Nat), twinOkB m = true →
      (cutFace m v w).1 = .ok r → TwinInv (cutFace m v w).2) ∧
    (∀ (m : Mesh P) (h r : Nat), twinOkB m = true →
      (duplicateEdge m h).1 = .ok r → TwinInv (duplicateEdge m h).2) ∧
    (∀ (m : Mesh P) (h r : Nat), twinOkB m = true →
      (collapseEdge m h).1 = .ok r → TwinInv (collapseEdge m h).2) ∧
    (∀ (m : Mesh P) (h : Nat), twinOkB m = true →
      (dissolveEdge m h).1 = .ok () → TwinInv (dissolveEdge m h).2) ∧
    (∀ (m : Mesh P) (v r : Nat), twinOkB m = true →
      (dissolveVertex m v).1 = .ok r → TwinInv (dissolveVertex m v).2) ∧
    (∀ (G : GeomOps P) (m : Mesh P) (v v_l v_r : Nat) (delta : P) (r : Nat),
      twinOkB m = true → (splitVertex G m v v_l v_r delta).1 = .ok r →
      TwinInv (splitVertex G m v v_l v_r delta).2) :=
  ⟨fun m vs pm pm1 m1 hs htw hloop hnd hlive hfree =>
      twinInv_addFace m vs pm pm1 m1 hs htw hloop hnd hlive hfree,
   fun G m h t x htw hok => twinInv_divideEdge htw hok,
   fun m v w r htw hok => twinInv_cutFace htw hok,
   fun m h r htw hok => twinInv_duplicateEdge htw hok,
   fun m h r htw hok => twinInv_collapseEdge htw hok,
   fun m h htw hok => twinInv_dissolveEdge htw hok,
   fun m v r htw hok => twinInv_dissolveVertex htw hok,
   fun G m v v_l v_r delta r htw hok => twinInv_splitVertex htw hok⟩

theorem c1_witness :
    TwinInv (addFace (addFace bareVerts [0, 1, 2] []).2.1 [0, 2, 1]
      (addFace bareVerts [0, 1, 2] []).2.2).2.1 ∧
    TwinInv (divideEdge UGeom pillow 0 0).2 ∧
    TwinInv (cutFace pillow 0 2).2 ∧
    TwinInv (duplicateEdge pillow 0).2 ∧
    TwinInv (collapseEdge pillow 0).2 ∧
    TwinInv (dissolveEdge pillow 0).2 ∧
    TwinInv (dissolveVertex tetra 0).2 ∧
    TwinInv (splitVertex UGeom tetra 0 1 2 ()).2 :=
  ⟨(c1_twin_involution Unit).1 (addFace bareVerts [0, 1, 2] []).2.1 [0, 2, 1]
      (addFace bareVerts [0, 1, 2] []).2.2 _ _ _ (by decide) rfl (by decide)
      (by decide) (by decide),
   (c1_twin_involution Unit).2.1 UGeom pillow 0 0 4 (by decide) (by decide),
   (c1_twin_involution Unit).2.2.1 pillow 0 2 8 (by decide) (by decide),
   (c1_twin_involution Unit).2.2.2.1 pillow 0 8 (by decide) (by decide),
   (c1_twin_involution Unit).2.2.2.2.1 pillow 0 0 (by decide) (by decide),
   (c1_twin_involution Unit).2.2.2.2.2.1 pillow 0 (by decide) (by decide),
   (c1_twin_involution Unit).2.2.2.2.2.2.1 tetra 0 4 (by decide) (by decide),
   (c1_twin_involution Unit).2.2.2.2.2.2.2 UGeom tetra 0 1 2 () 4 (by decide)
     (by decide)⟩

/-! ## C9: divide then collapse roundtrip -/

theorem vertexTotal_spec {m : Mesh P} (hm : vertexTotalB m = true) {g v : Nat}
    (hv : vertexOf m g = some v) : (vAt m v).isSome := by
  rcases he : heAt m g with _ | e
  · rw [vertexOf, he] at hv; exact Option.noConfusion hv
  · have hev : e.vertex = some v := by rw [vertexOf, he] at hv; simpa using hv
    have hlt : g < m.halfedges.length := aget_lt_length he
    have hall := List.all_eq_true.mp hm g (List.mem_range.mpr hlt)
    simp only [he, hev] at hall
    exact hall

theorem loopWalk_cons (m : Mesh P) (h0 : Nat) (fuel cur : Nat) :
    ∃ rest, loopWalk m h0 fuel cur = cur :: rest := by
  cases fuel
  · exact ⟨[], rfl⟩
  · exact ⟨_, rfl⟩

theorem loopWalk_chain (m : Mesh P) (h0 : Nat) :
    ∀ (fuel cur : Nat),
      List.Chain' (fun a b => nextOf m a = some b) (loopWalk m h0 fuel cur) := by
  intro fuel
  induction fuel with
  | zero => intro cur; simp [loopWalk]
  | succ fuel ih =>
    intro cur
    rw [loopWalk]
    apply List.chain'_cons'.mpr
    constructor
    · intro y hy
      rcases hn : nextOf m cur with _ | n
      · simp only [hn] at hy
        exact absurd hy (by simp)
      · simp only [hn] at hy
        by_cases hnh : n = h0
        · rw [if_pos hnh] at hy; exact Option.noConfusion hy
        · rw [if_neg hnh] at hy
          obtain ⟨rest, hr⟩ := loopWalk_cons m h0 fuel n
          rw [hr] at hy
          obtain rfl : n = y := by simpa using hy
          rfl
    · rcases hn : nextOf m cur with _ | n
      · simp only [hn]
        exact List.chain'_nil
      · simp only [hn]
        by_cases hnh : n = h0
        · rw [if_pos hnh]; exact List.chain'_nil
        · rw [if_neg hnh]; exact ih n

theorem nextOf_live {m : Mesh P} (hlo : loopOkB m = true) {a b : Nat}
    (ha : (heAt m a).isSome) (hn : nextOf m a = some b) : (heAt m b).isSome := by
  obtain ⟨-, -, hmem⟩ := loopOk_spec hlo ha
  have hlt := lt_of_live ha
  rcases hlen : m.halfedges.length with _ | fuel
  · omega
  · have hloop : halfedgeLoop m a = loopWalk m a (fuel + 1) a := by
      unfold halfedgeLoop; rw [hlen]
    by_cases hba : b = a
    · rw [hba]; exact ha
    · have hbmem : b ∈ halfedgeLoop m a := by
        rw [hloop, loopWalk]
        simp only [hn]
        rw [if_neg hba]
        obtain ⟨rest, hr⟩ := loopWalk_cons m a fuel b
        rw [hr]
        exact List.mem_cons_of_mem _ (List.mem_cons_self _ _)
      exact (hmem b hbmem).1

theorem chain'_next_transfer {m m' : Mesh P} :
    ∀ (l : List Nat), (∀ a ∈ l.dropLast, nextOf m' a = nextOf m a) →
      List.Chain' (fun a b => nextOf m a = some b) l →
      List.Chain' (fun a b => nextOf m' a = some b) l := by
  intro l
  induction l with
  | nil => intro _ _; exact List.chain'_nil
  | cons a rest ih =>
    intro heq hc
    rcases rest with _ | ⟨b, rest'⟩
    · exact List.chain'_singleton a
    · have ha : a ∈ (a :: b :: rest').dropLast := by
        rw [List.dropLast_cons₂]
        exact List.mem_cons_self _ _
      apply List.chain'_cons.mpr
      obtain ⟨hab, hrest⟩ := List.chain'_cons.mp hc
      refine ⟨by rw [heq a ha]; exact hab, ih ?_ hrest⟩
      intro y hy
      apply heq
      rw [List.dropLast_cons₂]
      exact List.mem_cons_of_mem _ hy

theorem prevWalk_steps (m : Mesh P) (target : Nat) :
    ∀ (l : List Nat) (cur p fuel : Nat),
      l.length + 1 ≤ fuel →
      List.Chain' (fun a b => nextOf m a = some b) (cur :: l) →
      target ∉ l →
      (cur :: l).getLast? = some p →
      nextOf m p = some target →
      prevWalk m target fuel cur = some p := by
  intro l
  induction l with
  | nil =>
    intro cur p fuel hf hc ht hl hn
    obtain rfl : cur = p := by simpa using hl
    rcases fuel with _ | fuel
    · omega
    · rw [prevWalk]
      simp only [hn]
      simp
  | cons b l' ih =>
    intro cur p fuel hf hc ht hl hn
    rcases fuel with _ | fuel
    · simp at hf
    · have hcb : nextOf m cur = some b := (List.chain'_cons.mp hc).1
      have hbt : b ≠ target := fun hc2 => ht (hc2 ▸ List.mem_cons_self _ _)
      rw [prevWalk]
      simp only [hcb]
      rw [if_neg hbt]
      apply ih b p fuel (by simpa using hf) (List.chain'_cons.mp hc).2
        (fun hc2 => ht (List.mem_cons_of_mem _ hc2))
        (by rw [← hl, List.getLast?_cons_cons]) hn

theorem loop_length_le {m : Mesh P} (hlo : loopOkB m = true) {a : Nat}
    (ha : (heAt m a).isSome) : (halfedgeLoop m a).length ≤ m.halfedges.length := by
  obtain ⟨-, hnd, hmem⟩ := loopOk_spec hlo ha
  have hsub : halfedgeLoop m a ⊆ List.range m.halfedges.length := by
    intro y hy
    exact List.mem_range.mpr (lt_of_live (hmem y hy).1)
  have hle := (hnd.subperm hsub).length_le
  simpa using hle

theorem halfedgeLoop_cons (m : Mesh P) (a : Nat) :
    ∃ rest, halfedgeLoop m a = a :: rest := by
  unfold halfedgeLoop
  exact loopWalk_cons m a m.halfedges.length a

theorem prevOf_eq_loop_last {m : Mesh P} (hlo : loopOkB m = true) {a p : Nat}
    (ha : (heAt m a).isSome) (hp : prevOf m a = some p) :
    (halfedgeLoop m a).getLast? = some p := by
  obtain ⟨⟨g, hg_last, hg_next⟩, hnd, hmem⟩ := loopOk_spec hlo ha
  obtain ⟨rest, htl⟩ := halfedgeLoop_cons m a
  have hchain : List.Chain' (fun x y => nextOf m x = some y) (a :: rest) := by
    rw [← htl]
    exact loopWalk_chain m a m.halfedges.length a
  have hanotin : a ∉ rest := by
    have := hnd
    rw [htl] at this
    exact (List.nodup_cons.mp this).1
  have hlenle : rest.length + 1 ≤ m.halfedges.length + 1 := by
    have hll := loop_length_le hlo ha
    rw [htl] at hll
    simp only [List.length_cons] at hll
    omega
  have hwalk := prevWalk_steps m a rest a g (m.halfedges.length + 1) hlenle hchain
    hanotin (by rw [← htl]; exact hg_last) hg_next
  have : prevOf m a = some g := hwalk
  rw [hp] at this
  obtain rfl : p = g := Option.some.inj this
  exact hg_last

theorem getLast_not_mem_dropLast {α : Type} {l : List α} (hnd : l.Nodup) {p : α}
    (hl : l.getLast? = some p) : p ∉ l.dropLast := by
  have hne : l ≠ [] := by
    intro hc
    rw [hc] at hl
    exact Option.noConfusion hl
  have hsplit : l.dropLast ++ [l.getLast hne] = l := List.dropLast_append_getLast hne
  have hpl : l.getLast hne = p := by
    have := List.getLast?_eq_getLast l hne
    rw [hl] at this
    exact (Option.some.inj this).symm
  rw [← hsplit] at hnd
  have hdisj := List.disjoint_of_nodup_append hnd
  intro hc
  exact hdisj hc (by rw [hpl]; exact List.mem_singleton.mpr rfl)

theorem c9_prev_l (m : Mesh P) (h t h_l_prev h_r_next v w : Nat) (pos : P)
    (hinv : coreInv m = true)
    (htw : twinOf m h = some t)
    (hprev : prevOf m h = some h_l_prev)
    (hfne : faceOf m t ≠ faceOf m h) :
    prevOf (divideWrites m h t h_l_prev h_r_next v w pos).2 m.halfedges.length
      = some h_l_prev := by
  obtain ⟨hne, hback⟩ := twinOk_spec (coreInv_twinOk hinv) htw
  have hlh : (heAt m h).isSome := live_of_twinOf htw
  have hlt : (heAt m t).isSome := live_of_twinOf hback
  have hlp : (heAt m h_l_prev).isSome := prevOf_live hprev
  have hhlt := lt_of_live hlh
  have htlt := lt_of_live hlt
  have hplt := lt_of_live hlp
  have hlne : h ≠ t := fun hc => hne hc.symm
  have hN := divideWrites_nextOf m h t h_l_prev h_r_next v w pos hlt hlp
  obtain ⟨⟨g, hg_last0, hg_next0⟩, hnd, hmem⟩ := loopOk_spec (coreInv_loopOk hinv) hlh
  have hg_last : (halfedgeLoop m h).getLast? = some h_l_prev :=
    prevOf_eq_loop_last (coreInv_loopOk hinv) hlh hprev
  obtain ⟨rest, htl⟩ := halfedgeLoop_cons m h
  have htnot : t ∉ halfedgeLoop m h := by
    intro hc
    exact hfne (hmem t hc).2
  have hpdrop : h_l_prev ∉ (halfedgeLoop m h).dropLast :=
    getLast_not_mem_dropLast hnd hg_last
  have htrans : ∀ a ∈ (halfedgeLoop m h).dropLast,
      nextOf (divideWrites m h t h_l_prev h_r_next v w pos).2 a = nextOf m a := by
    intro a hadrop
    have hamem : a ∈ halfedgeLoop m h := List.dropLast_subset _ hadrop
    have halt := lt_of_live (hmem a hamem).1
    have hat : a ≠ t := fun hc => htnot (hc ▸ hamem)
    have hap : a ≠ h_l_prev := fun hc => hpdrop (hc ▸ hadrop)
    rw [hN a, if_neg (by omega), if_neg hat, if_neg hap, if_neg (by omega)]
  have hchainM1 : List.Chain'
      (fun x y => nextOf (divideWrites m h t h_l_prev h_r_next v w pos).2 x = some y)
      (halfedgeLoop m h) :=
    chain'_next_transfer _ htrans (by
      rw [htl]
      rw [← htl]
      exact loopWalk_chain m h m.halfedges.length h)
  have hnextlen : nextOf (divideWrites m h t h_l_prev h_r_next v w pos).2
      m.halfedges.length = some h := by
    rw [hN, if_neg (by omega), if_neg (by omega), if_neg (by omega), if_pos rfl]
  have hchainfull : List.Chain'
      (fun x y => nextOf (divideWrites m h t h_l_prev h_r_next v w pos).2 x = some y)
      (m.halfedges.length :: halfedgeLoop m h) := by
    apply List.chain'_cons'.mpr
    refine ⟨?_, hchainM1⟩
    intro y hy
    rw [htl] at hy
    simp only [List.head?_cons, Option.mem_def, Option.some.injEq] at hy
    rw [← hy]
    exact hnextlen
  have hlennot : m.halfedges.length ∉ halfedgeLoop m h := by
    intro hc
    have := lt_of_live (hmem _ hc).1
    omega
  have hlast2 : (m.halfedges.length :: halfedgeLoop m h).getLast? = some h_l_prev := by
    rw [htl, List.getLast?_cons_cons, ← htl]
    exact hg_last
  have hpmem : h_l_prev ∈ halfedgeLoop m h := List.mem_of_mem_getLast? hg_last
  have hnextp : nextOf (divideWrites m h t h_l_prev h_r_next v w pos).2 h_l_prev
      = some m.halfedges.length := by
    rw [hN, if_neg (by omega), if_neg (fun hc : h_l_prev = t => htnot (hc ▸ hpmem)),
      if_pos rfl]
  have hfuel : (halfedgeLoop m h).length + 1 ≤ m.halfedges.length + 2 + 1 := by
    have := loop_length_le (coreInv_loopOk hinv) hlh
    omega
  have hwalk := prevWalk_steps (divideWrites m h t h_l_prev h_r_next v w pos).2
    m.halfedges.length (halfedgeLoop m h) m.halfedges.length h_l_prev
    (m.halfedges.length + 2 + 1) hfuel hchainfull hlennot hlast2 hnextp
  unfold prevOf
  rw [divideWrites_len_he]
  exact hwalk

theorem c9_prev_r (m : Mesh P) (h t h_l_prev h_r_next v w : Nat) (pos : P)
    (hinv : coreInv m = true)
    (htw : twinOf m h = some t)
    (hprev : prevOf m h = some h_l_prev)
    (hnext : nextOf m t = some h_r_next)
    (hfne : faceOf m t ≠ faceOf m h) :
    prevOf (divideWrites m h t h_l_prev h_r_next v w pos).2 (m.halfedges.length + 1)
      = some t := by
  obtain ⟨hne, hback⟩ := twinOk_spec (coreInv_twinOk hinv) htw
  have hlh : (heAt m h).isSome := live_of_twinOf htw
  have hlt : (heAt m t).isSome := live_of_twinOf hback
  have hlp : (heAt m h_l_prev).isSome := prevOf_live hprev
  have hhlt := lt_of_live hlh
  have htlt := lt_of_live hlt
  have hplt := lt_of_live hlp
  have hN := divideWrites_nextOf m h t h_l_prev h_r_next v w pos hlt hlp
  obtain ⟨⟨g_r, hg_last0, hg_next0⟩, hnd_r, hmem_r⟩ :=
    loopOk_spec (coreInv_loopOk hinv) hlt
  obtain ⟨tail_r, htl⟩ := halfedgeLoop_cons m t
  have htnot : t ∉ tail_r := by
    have := hnd_r
    rw [htl] at this
    exact (List.nodup_cons.mp this).1
  have hmem_tail : ∀ a ∈ tail_r, a ∈ halfedgeLoop m t := by
    intro a ha
    rw [htl]
    exact List.mem_cons_of_mem _ ha
  have hpnot : h_l_prev ∉ tail_r := by
    intro hc
    have hfp : faceOf m h_l_prev = faceOf m t := (hmem_r _ (hmem_tail _ hc)).2
    obtain ⟨-, -, hmem_l⟩ := loopOk_spec (coreInv_loopOk hinv) hlh
    have hpmem : h_l_prev ∈ halfedgeLoop m h :=
      List.mem_of_mem_getLast? (prevOf_eq_loop_last (coreInv_loopOk hinv) hlh hprev)
    have hfp2 : faceOf m h_l_prev = faceOf m h := (hmem_l _ hpmem).2
    exact hfne (hfp ▸ hfp2)
  have htrans : ∀ a ∈ tail_r,
      nextOf (divideWrites m h t h_l_prev h_r_next v w pos).2 a = nextOf m a := by
    intro a ha
    have halt := lt_of_live (hmem_r _ (hmem_tail _ ha)).1
    rw [hN a, if_neg (by omega), if_neg (fun hc : a = t => htnot (hc ▸ ha)),
      if_neg (fun hc : a = h_l_prev => hpnot (hc ▸ ha)), if_neg (by omega)]
  have hchain_tail : List.Chain'
      (fun x y => nextOf (divideWrites m h t h_l_prev h_r_next v w pos).2 x = some y)
      tail_r := by
    apply chain'_next_transfer _ (fun a ha => htrans a (List.dropLast_subset _ ha))
    have := loopWalk_chain m t m.halfedges.length t
    rw [← halfedgeLoop] at this
    rw [htl] at this
    exact (List.chain'_cons'.mp this).2
  have hnextT : nextOf (divideWrites m h t h_l_prev h_r_next v w pos).2 t
      = some (m.halfedges.length + 1) := by
    rw [hN, if_neg (by omega), if_pos rfl]
  have hchain2 : List.Chain'
      (fun x y => nextOf (divideWrites m h t h_l_prev h_r_next v w pos).2 x = some y)
      (tail_r ++ [t]) := by
    apply List.chain'_append.mpr
    refine ⟨hchain_tail, List.chain'_singleton t, ?_⟩
    intro x hx y hy
    simp only [List.head?_cons, Option.mem_def, Option.some.injEq] at hy
    subst hy
    have hgr : tail_r.getLast? = some x := hx
    have hxgr : x = g_r := by
      rcases tail_r with _ | ⟨b, tr⟩
      · exact Option.noConfusion hgr
      · have : (halfedgeLoop m t).getLast? = some x := by
          rw [htl, List.getLast?_cons_cons]
          exact hgr
        rw [hg_last0] at this
        exact (Option.some.inj this).symm
    have hxmem : x ∈ tail_r := List.mem_of_mem_getLast? hgr
    rw [htrans x hxmem, hxgr]
    exact hg_next0
  have hchainfull : List.Chain'
      (fun x y => nextOf (divideWrites m h t h_l_prev h_r_next v w pos).2 x = some y)
      ((m.halfedges.length + 1) :: (tail_r ++ [t])) := by
    apply List.chain'_cons'.mpr
    refine ⟨?_, hchain2⟩
    intro y hy
    have hnlen1 : nextOf (divideWrites m h t h_l_prev h_r_next v w pos).2
        (m.halfedges.length + 1) = some h_r_next := by
      rw [hN, if_pos rfl]
    rcases tail_r with _ | ⟨b, tr⟩
    · simp only [List.nil_append, List.head?_cons, Option.mem_def,
        Option.some.injEq] at hy
      have hgrt : t = g_r := by
        rw [htl] at hg_last0
        simpa using hg_last0
      have hnt : nextOf m g_r = some t := hg_next0
      rw [← hgrt] at hnt
      rw [hnext] at hnt
      have heq : h_r_next = t := Option.some.inj hnt
      rw [hnlen1, ← hy, heq]
    · simp only [List.cons_append, List.head?_cons, Option.mem_def,
        Option.some.injEq] at hy
      have hchain_r : List.Chain' (fun x y => nextOf m x = some y)
          (halfedgeLoop m t) := by
        have := loopWalk_chain m t m.halfedges.length t
        rw [← halfedgeLoop] at this
        exact this
      rw [htl] at hchain_r
      have hb : nextOf m t = some b := (List.chain'_cons.mp hchain_r).1
      rw [hnext] at hb
      have heq : h_r_next = b := Option.some.inj hb
      rw [hnlen1, ← hy, heq]
  have hnotin : m.halfedges.length + 1 ∉ tail_r ++ [t] := by
    intro hc
    rcases List.mem_append.mp hc with hc1 | hc2
    · have := lt_of_live (hmem_r _ (hmem_tail _ hc1)).1
      omega
    · have : m.halfedges.length + 1 = t := List.mem_singleton.mp hc2
      omega
  have hlast2 : ((m.halfedges.length + 1) :: (tail_r ++ [t])).getLast? = some t := by
    rcases tail_r with _ | ⟨b, tr⟩
    · rfl
    · rw [List.cons_append, List.getLast?_cons_cons, ← List.cons_append,
        List.getLast?_concat]
  have hfuel : (tail_r ++ [t]).length + 1 ≤ m.halfedges.length + 2 + 1 := by
    have := loop_length_le (coreInv_loopOk hinv) hlt
    rw [htl] at this
    simp only [List.length_append, List.length_cons, List.length_nil] at this ⊢
    omega
  have hwalk := prevWalk_steps (divideWrites m h t h_l_prev h_r_next v w pos).2
    (m.halfedges.length + 1) (tail_r ++ [t]) (m.halfedges.length + 1) t
    (m.halfedges.length + 2 + 1) hfuel hchainfull hnotin hlast2 hnextT
  unfold prevOf
  rw [divideWrites_len_he]
  exact hwalk

theorem c9_outgoing (m : Mesh P) (h t h_l_prev h_r_next v w : Nat) (pos : P)
    (hinv : coreInv m = true)
    (htw : twinOf m h = some t)
    (hprev : prevOf m h = some h_l_prev)
    (hvv : (vAt m v).isSome)
    (hvlt : v < m.vertices.length) :
    outgoingHalfedges (divideWrites m h t h_l_prev h_r_next v w pos).2
      m.vertices.length = .ok [h, m.halfedges.length + 1] := by
  obtain ⟨hne, hback⟩ := twinOk_spec (coreInv_twinOk hinv) htw
  have hlh : (heAt m h).isSome := live_of_twinOf htw
  have hlt : (heAt m t).isSome := live_of_twinOf hback
  have hlp : (heAt m h_l_prev).isSome := prevOf_live hprev
  have hhlt := lt_of_live hlh
  have htlt := lt_of_live hlt
  have hplt := lt_of_live hlp
  have hlne : h ≠ t := fun hc => hne hc.symm
  have hT := divideWrites_twinOf m h t h_l_prev h_r_next v w pos hlh hlt hlne
  have hN := divideWrites_nextOf m h t h_l_prev h_r_next v w pos hlt hlp
  have hvAt : vAt (divideWrites m h t h_l_prev h_r_next v w pos).2 m.vertices.length
      = some ⟨pos, some h⟩ := by
    rw [divideWrites_vAt m h t h_l_prev h_r_next v w pos hvv,
      if_neg (by omega), if_pos rfl]
  have hfs1 : fanStep (divideWrites m h t h_l_prev h_r_next v w pos).2 h
      = some (m.halfedges.length + 1) := by
    unfold fanStep
    rw [hT, if_neg hlne, if_pos rfl, Option.some_bind, hN,
      if_neg (show ¬ t = m.halfedges.length + 1 from by omega), if_pos rfl]
  have hfs2 : fanStep (divideWrites m h t h_l_prev h_r_next v w pos).2
      (m.halfedges.length + 1) = some h := by
    unfold fanStep
    rw [hT, if_neg (show ¬ m.halfedges.length + 1 = t from by omega),
      if_neg (show ¬ m.halfedges.length + 1 = h from by omega), if_pos rfl,
      Option.some_bind, hN,
      if_neg (show ¬ m.halfedges.length = m.halfedges.length + 1 from by omega),
      if_neg (show ¬ m.halfedges.length = t from by omega),
      if_neg (show ¬ m.halfedges.length = h_l_prev from by omega), if_pos rfl]
  have hfw2 : fanWalk (divideWrites m h t h_l_prev h_r_next v w pos).2 h
      (m.halfedges.length + 1 + 1) (m.halfedges.length + 1) = some [m.halfedges.length + 1] := by
    rw [fanWalk]
    simp only [hfs2]
    simp
  have hfw1 : fanWalk (divideWrites m h t h_l_prev h_r_next v w pos).2 h
      (m.halfedges.length + 2 + 1) h = some [h, m.halfedges.length + 1] := by
    rw [fanWalk]
    simp only [hfs1]
    rw [if_neg (by omega)]
    rw [show m.halfedges.length + 2 = m.halfedges.length + 1 + 1 from rfl, hfw2]
    rfl
  unfold outgoingHalfedges
  simp only [hvAt]
  rw [divideWrites_len_he]
  simp only [hfw1]

theorem c9_collapseReads (m : Mesh P) (h t h_l_prev h_r_next v w : Nat) (pos : P)
    (hinv : coreInv m = true)
    (htw : twinOf m h = some t)
    (hprev : prevOf m h = some h_l_prev)
    (hnext : nextOf m t = some h_r_next)
    (hv : vertexOf m h = some v)
    (hfne : faceOf m t ≠ faceOf m h) :
    collapseEdgeReads (divideWrites m h t h_l_prev h_r_next v w pos).2
      m.halfedges.length
      = .ok (v, m.vertices.length, m.halfedges.length + 1, h, h_l_prev, h_r_next, t,
          [h, m.halfedges.length + 1], h_r_next) := by
  obtain ⟨hne, hback⟩ := twinOk_spec (coreInv_twinOk hinv) htw
  have hlh : (heAt m h).isSome := live_of_twinOf htw
  have hlt : (heAt m t).isSome := live_of_twinOf hback
  have hlp : (heAt m h_l_prev).isSome := prevOf_live hprev
  have hhlt := lt_of_live hlh
  have htlt := lt_of_live hlt
  have hplt := lt_of_live hlp
  have hlne : h ≠ t := fun hc => hne hc.symm
  have hvv : (vAt m v).isSome := vertexTotal_spec (coreInv_vertexTotal hinv) hv
  have hvlt : v < m.vertices.length := by
    rcases Option.isSome_iff_exists.mp hvv with ⟨e, he⟩
    exact aget_lt_length he
  have hT := divideWrites_twinOf m h t h_l_prev h_r_next v w pos hlh hlt hlne
  have hN := divideWrites_nextOf m h t h_l_prev h_r_next v w pos hlt hlp
  have hV := divideWrites_vertexOf m h t h_l_prev h_r_next v w pos hlh hlt hlne
  have htwin1 : twinOf (divideWrites m h t h_l_prev h_r_next v w pos).2
      m.halfedges.length = some (m.halfedges.length + 1) := by
    rw [hT, if_neg (show ¬ m.halfedges.length = t from by omega),
      if_neg (show ¬ m.halfedges.length = h from by omega),
      if_neg (show ¬ m.halfedges.length = m.halfedges.length + 1 from by omega),
      if_pos rfl]
  have hsd : exSrcDst (divideWrites m h t h_l_prev h_r_next v w pos).2
      m.halfedges.length = .ok (v, m.vertices.length) := by
    show srcDstPair _ _ = _
    unfold srcDstPair dstOf
    rw [hV, if_pos rfl, htwin1, Option.some_bind, hV,
      if_neg (show ¬ m.halfedges.length + 1 = m.halfedges.length from by omega),
      if_pos rfl]
  have htw1 : exTwin (divideWrites m h t h_l_prev h_r_next v w pos).2
      m.halfedges.length = .ok (m.halfedges.length + 1) := by
    unfold exTwin
    rw [htwin1]
  have hnx1 : exNext (divideWrites m h t h_l_prev h_r_next v w pos).2
      m.halfedges.length = .ok h := by
    unfold exNext
    rw [hN, if_neg (show ¬ m.halfedges.length = m.halfedges.length + 1 from by omega),
      if_neg (show ¬ m.halfedges.length = t from by omega),
      if_neg (show ¬ m.halfedges.length = h_l_prev from by omega), if_pos rfl]
  have hpv1 : exPrev (divideWrites m h t h_l_prev h_r_next v w pos).2
      m.halfedges.length = .ok h_l_prev := by
    unfold exPrev
    rw [c9_prev_l m h t h_l_prev h_r_next v w pos hinv htw hprev hfne]
  have hnx2 : exNext (divideWrites m h t h_l_prev h_r_next v w pos).2
      (m.halfedges.length + 1) = .ok h_r_next := by
    unfold exNext
    rw [hN, if_pos rfl]
  have hpv2 : exPrev (divideWrites m h t h_l_prev h_r_next v w pos).2
      (m.halfedges.length + 1) = .ok t := by
    unfold exPrev
    rw [c9_prev_r m h t h_l_prev h_r_next v w pos hinv htw hprev hnext hfne]
  have hout : outgoingHalfedges (divideWrites m h t h_l_prev h_r_next v w pos).2
      m.vertices.length = .ok [h, m.halfedges.length + 1] :=
    c9_outgoing m h t h_l_prev h_r_next v w pos hinv htw hprev hvv hvlt
  have hfan : exFanStep (divideWrites m h t h_l_prev h_r_next v w pos).2
      m.halfedges.length = .ok h_r_next := by
    unfold exFanStep fanStep
    rw [htwin1, Option.some_bind, hN, if_pos rfl]
  unfold collapseEdgeReads
  simp only [hsd, ebind_ok, htw1, hnx1, hpv1, hnx2, hpv2, hout, hfan, pure,
    Except.pure]

theorem heAt_eq_of_fields {m1 m2 : Mesh P} {g : Nat}
    (h1 : (heAt m1 g).isSome) (h2 : (heAt m2 g).isSome)
    (hv : vertexOf m1 g = vertexOf m2 g) (hf : faceOf m1 g = faceOf m2 g)
    (ht : twinOf m1 g = twinOf m2 g) (hn : nextOf m1 g = nextOf m2 g) :
    heAt m1 g = heAt m2 g := by
  obtain ⟨e1, he1⟩ := Option.isSome_iff_exists.mp h1
  obtain ⟨e2, he2⟩ := Option.isSome_iff_exists.mp h2
  unfold vertexOf at hv
  unfold faceOf at hf
  unfold twinOf at ht
  unfold nextOf at hn
  rw [he1, he2] at hv hf ht hn
  simp only [Option.some_bind] at hv hf ht hn
  rw [he1, he2]
  rcases e1 with ⟨v1, f1, t1, n1⟩
  rcases e2 with ⟨v2, f2, t2, n2⟩
  simp only at hv hf ht hn
  rw [hv, hf, ht, hn]

theorem fixFaceRef_noop (m' : Mesh P) (f harg repl g0 : Nat)
    (hfa : (fAt m' f).bind (fun fd => fd.halfedge) = some g0) (hg : g0 ≠ harg) :
    fixFaceRef m' (some f) harg repl = (.ok (), m') := by
  unfold fixFaceRef
  simp only [hfa]
  rw [if_neg hg]

theorem fAt_divideWrites (m : Mesh P) (h_l h_r h_l_prev h_r_next v w : Nat) (pos : P)
    (f : Nat) :
    fAt (divideWrites m h_l h_r h_l_prev h_r_next v w pos).2 f = fAt m f := by
  unfold fAt
  rw [divideWrites_faces]

theorem c9_collapse_eq (m : Mesh P) (h t h_l_prev h_r_next v w f_l f_r g_l g_r : Nat)
    (pos : P)
    (hinv : coreInv m = true)
    (htw : twinOf m h = some t)
    (hprev : prevOf m h = some h_l_prev)
    (hnext : nextOf m t = some h_r_next)
    (hv : vertexOf m h = some v)
    (hfne : faceOf m t ≠ faceOf m h)
    (hfl : faceOf m h = some f_l)
    (hfr : faceOf m t = some f_r)
    (hgl : (fAt m f_l).bind (fun fd => fd.halfedge) = some g_l)
    (hgllt : g_l < m.halfedges.length)
    (hgr : (fAt m f_r).bind (fun fd => fd.halfedge) = some g_r)
    (hgrlt : g_r < m.halfedges.length) :
    collapseEdge (divideWrites m h t h_l_prev h_r_next v w pos).2 m.halfedges.length
      = (.ok v,
         removeVertex (removeHalfedge (removeHalfedge
        (setVertexHalfedge (setNext (setNext
        (setVertexField (setVertexField (divideWrites m h t h_l_prev h_r_next v w pos).2 h (some v))
          (m.halfedges.length + 1) (some v))
        t (some h_r_next)) h_l_prev (some h)) v (some h_r_next))
        (m.halfedges.length + 1)) m.halfedges.length) m.vertices.length) := by
  have hvv : (vAt m v).isSome := vertexTotal_spec (coreInv_vertexTotal hinv) hv
  obtain ⟨vd, hvd⟩ := Option.isSome_iff_exists.mp hvv
  have hfaceLen : faceOf (divideWrites m h t h_l_prev h_r_next v w pos).2 m.halfedges.length = some f_l := by
    rw [divideWrites_faceOf,
      if_neg (show ¬ m.halfedges.length = m.halfedges.length + 1 from by omega),
      if_pos rfl]
    exact hfl
  have hfaceLen1 : faceOf (divideWrites m h t h_l_prev h_r_next v w pos).2 (m.halfedges.length + 1) = some f_r := by
    rw [divideWrites_faceOf, if_pos rfl]
    exact hfr
  have hfa1 : (fAt (setNext (setNext
        (setVertexField (setVertexField (divideWrites m h t h_l_prev h_r_next v w pos).2 h (some v))
          (m.halfedges.length + 1) (some v))
        t (some h_r_next)) h_l_prev (some h)) f_l).bind (fun fd => fd.halfedge) = some g_l := by
    rw [fAt_setNext, fAt_setNext, fAt_setVertexField, fAt_setVertexField,
      fAt_divideWrites]
    exact hgl
  have hfa2 : (fAt (setNext (setNext
        (setVertexField (setVertexField (divideWrites m h t h_l_prev h_r_next v w pos).2 h (some v))
          (m.halfedges.length + 1) (some v))
        t (some h_r_next)) h_l_prev (some h)) f_r).bind (fun fd => fd.halfedge) = some g_r := by
    rw [fAt_setNext, fAt_setNext, fAt_setVertexField, fAt_setVertexField,
      fAt_divideWrites]
    exact hgr
  have hvh : (vAt (setNext (setNext
        (setVertexField (setVertexField (divideWrites m h t h_l_prev h_r_next v w pos).2 h (some v))
          (m.halfedges.length + 1) (some v))
        t (some h_r_next)) h_l_prev (some h)) v).bind (fun vd2 => vd2.halfedge)
      = some m.halfedges.length := by
    rw [vAt_setNext, vAt_setNext, vAt_setVertexField, vAt_setVertexField,
      divideWrites_vAt m h t h_l_prev h_r_next v w pos hvv, if_pos rfl, hvd]
    rfl
  unfold collapseEdge
  simp only [c9_collapseReads m h t h_l_prev h_r_next v w pos hinv htw hprev hnext hv
    hfne]
  simp only [List.foldl_cons, List.foldl_nil]
  simp only [hfaceLen, hfaceLen1]
  simp only [fixFaceRef_noop (setNext (setNext
        (setVertexField (setVertexField (divideWrites m h t h_l_prev h_r_next v w pos).2 h (some v))
          (m.halfedges.length + 1) (some v))
        t (some h_r_next)) h_l_prev (some h)) f_l m.halfedges.length h g_l hfa1 (by omega)]
  simp only [fixFaceRef_noop (setNext (setNext
        (setVertexField (setVertexField (divideWrites m h t h_l_prev h_r_next v w pos).2 h (some v))
          (m.halfedges.length + 1) (some v))
        t (some h_r_next)) h_l_prev (some h)) f_r (m.halfedges.length + 1) h_r_next g_r hfa2
    (by omega)]
  simp only [hvh]
  simp

theorem nextOf_removeV (m : Mesh P) (a b : Nat) :
    nextOf (removeVertex m a) b = nextOf m b := rfl

theorem vertexOf_removeV (m : Mesh P) (a b : Nat) :
    vertexOf (removeVertex m a) b = vertexOf m b := rfl

theorem faceOf_removeV (m : Mesh P) (a b : Nat) :
    faceOf (removeVertex m a) b = faceOf m b := rfl

theorem liveHE_removeV (m : Mesh P) (a b : Nat) :
    liveHE (removeVertex m a) b = liveHE m b := rfl

theorem nextOf_removeHE_ne (m : Mesh P) (a b : Nat) (hne : b ≠ a) :
    nextOf (removeHalfedge m a) b = nextOf m b := by
  unfold nextOf; rw [heAt_remove_ne _ _ _ hne]

theorem vertexOf_removeHE_ne (m : Mesh P) (a b : Nat) (hne : b ≠ a) :
    vertexOf (removeHalfedge m a) b = vertexOf m b := by
  unfold vertexOf; rw [heAt_remove_ne _ _ _ hne]

theorem faceOf_removeHE_ne (m : Mesh P) (a b : Nat) (hne : b ≠ a) :
    faceOf (removeHalfedge m a) b = faceOf m b := by
  unfold faceOf; rw [heAt_remove_ne _ _ _ hne]

theorem liveHE_removeHE_ne (m : Mesh P) (a b : Nat) (hne : b ≠ a) :
    liveHE (removeHalfedge m a) b = liveHE m b := by
  unfold liveHE; rw [heAt_remove_ne _ _ _ hne]

theorem faces_setNext (m : Mesh P) (h : Nat) (n : Option Nat) :
    (setNext m h n).faces = m.faces := faces_updHE _ _ _

theorem faces_setVertexField (m : Mesh P) (h : Nat) (v : Option Nat) :
    (setVertexField m h v).faces = m.faces := faces_updHE _ _ _

theorem faces_setVH (m : Mesh P) (v : Nat) (h : Option Nat) :
    (setVertexHalfedge m v h).faces = m.faces := faces_updV _ _ _

set_option maxHeartbeats 1600000 in
/-- C9: on a mesh satisfying the core invariants, dividing an interior
half-edge `h` (twin `t`, two distinct incident faces) and then collapsing
the freshly created edge (id `m.halfedges.length`, running from the
original source `v` to the new vertex `x`) restores the original mesh up to
handle identity: every original half-edge keeps exactly its original
vertex, face, twin and next fields, the two temporary half-edge slots and
the temporary vertex slot are dead, the face arena is unchanged, and every
vertex other than `v` is unchanged while `v` keeps its position (only its
representative outgoing half-edge moves to `next(t)`, another outgoing
half-edge of `v`). -/
theorem c9_divide_collapse_roundtrip (G : GeomOps P) (m : Mesh P) (h : Nat) (tq : ℚ)
    (x t f_l f_r : Nat)
    (hinv : coreInv m = true)
    (htw : twinOf m h = some t)
    (hfl : faceOf m h = some f_l)
    (hfr : faceOf m t = some f_r)
    (hflr : f_l ≠ f_r)
    (hdiv : (divideEdge G m h tq).1 = .ok x) :
    ∃ v w h_l_prev h_r_next,
      vertexOf m h = some v ∧ dstOf m h = some w ∧ prevOf m h = some h_l_prev ∧
      nextOf m t = some h_r_next ∧
      (collapseEdge (divideEdge G m h tq).2 m.halfedges.length).1 = .ok v ∧
      (∀ g, g < m.halfedges.length →
        heAt (collapseEdge (divideEdge G m h tq).2 m.halfedges.length).2 g
          = heAt m g) ∧
      heAt (collapseEdge (divideEdge G m h tq).2 m.halfedges.length).2
        m.halfedges.length = none ∧
      heAt (collapseEdge (divideEdge G m h tq).2 m.halfedges.length).2
        (m.halfedges.length + 1) = none ∧
      (collapseEdge (divideEdge G m h tq).2 m.halfedges.length).2.faces = m.faces ∧
      (∀ u, u < m.vertices.length → u ≠ v →
        vAt (collapseEdge (divideEdge G m h tq).2 m.halfedges.length).2 u = vAt m u) ∧
      vAt (collapseEdge (divideEdge G m h tq).2 m.halfedges.length).2
        m.vertices.length = none ∧
      vAt (collapseEdge (divideEdge G m h tq).2 m.halfedges.length).2 v
        = (vAt m v).map (fun vd => { vd with halfedge := some h_r_next }) := by
  have hpair : divideEdge G m h tq = ((divideEdge G m h tq).1, (divideEdge G m h tq).2) :=
    rfl
  rw [hdiv] at hpair
  obtain ⟨h_r, h_l_prev, h_r_next, v, w, pv, pw, hreads, hpv, hpw, hx, hm⟩ :=
    divideEdge_ok hpair
  obtain ⟨htw2, hprev, hnext0, hv, hw⟩ := divideEdgeReads_ok hreads
  obtain rfl : t = h_r := by
    rw [htw] at htw2
    exact Option.some.inj htw2
  obtain ⟨hne, hback⟩ := twinOk_spec (coreInv_twinOk hinv) htw
  have hlh : (heAt m h).isSome := live_of_twinOf htw
  have hlt : (heAt m t).isSome := live_of_twinOf hback
  have hlp : (heAt m h_l_prev).isSome := prevOf_live hprev
  have hhlt := lt_of_live hlh
  have htlt := lt_of_live hlt
  have hplt := lt_of_live hlp
  have hlne : h ≠ t := fun hc => hne hc.symm
  have hfne : faceOf m t ≠ faceOf m h := by
    rw [hfr, hfl]
    intro hc
    exact hflr (Option.some.inj hc).symm
  have hwt : vertexOf m t = some w := by
    rw [dstOf_def, htw, Option.some_bind] at hw
    exact hw
  have hvv : (vAt m v).isSome := vertexTotal_spec (coreInv_vertexTotal hinv) hv
  obtain ⟨vd, hvd⟩ := Option.isSome_iff_exists.mp hvv
  have hvlt : v < m.vertices.length := by
    rcases Option.isSome_iff_exists.mp hvv with ⟨e, he⟩
    exact aget_lt_length he
  have hfls : (fAt m f_l).isSome := faceRefOk_spec (coreInv_faceRefOk hinv) hfl
  obtain ⟨fd_l, hfd_l⟩ := Option.isSome_iff_exists.mp hfls
  obtain ⟨g_l, hglh, hgll, -⟩ := faceOk_spec (coreInv_faceOk hinv) hfd_l
  have hgl : (fAt m f_l).bind (fun fd => fd.halfedge) = some g_l := by
    rw [hfd_l, Option.some_bind, hglh]
  have hgllt := lt_of_live hgll
  have hfrs : (fAt m f_r).isSome := faceRefOk_spec (coreInv_faceRefOk hinv) hfr
  obtain ⟨fd_r, hfd_r⟩ := Option.isSome_iff_exists.mp hfrs
  obtain ⟨g_r, hgrh, hgrl, -⟩ := faceOk_spec (coreInv_faceOk hinv) hfd_r
  have hgr : (fAt m f_r).bind (fun fd => fd.halfedge) = some g_r := by
    rw [hfd_r, Option.some_bind, hgrh]
  have hgrlt := lt_of_live hgrl
  have hprevn : nextOf m h_l_prev = some h := by
    unfold prevOf at hprev
    exact prevOf_next hprev
  have hcol := c9_collapse_eq m h t h_l_prev h_r_next v w f_l f_r g_l g_r (G.lerp pv pw tq)
    hinv htw hprev hnext0 hv hfne hfl hfr hgl hgllt hgr hgrlt
  have hliveM1 : ∀ y, (heAt m y).isSome →
      (heAt (divideWrites m h t h_l_prev h_r_next v w (G.lerp pv pw tq)).2 y).isSome := by
    intro y hy
    have := divideWrites_liveHE m h t h_l_prev h_r_next v w (G.lerp pv pw tq) y
    unfold liveHE at this
    rw [this]
    simp [hy]
  refine ⟨v, w, h_l_prev, h_r_next, hv, hw, hprev, hnext0, ?_, ?_, ?_, ?_, ?_, ?_, ?_, ?_⟩
  · rw [hm, hcol]
  · intro g hg
    rw [hm, hcol]
    have hliveeq : liveHE (collapseEdge (divideWrites m h t h_l_prev h_r_next v w (G.lerp pv pw tq)).2 m.halfedges.length).2 g = liveHE m g := by
      rw [hcol]
      rw [liveHE_removeV, liveHE_removeHE_ne _ _ _ (show g ≠ m.halfedges.length from by omega),
        liveHE_removeHE_ne _ _ _ (show g ≠ m.halfedges.length + 1 from by omega),
        liveHE_setVH, liveHE_setNext, liveHE_setNext, liveHE_setVertexField,
        liveHE_setVertexField, divideWrites_liveHE]
      simp [show ¬ g = m.halfedges.length from by omega,
        show ¬ g = m.halfedges.length + 1 from by omega]
    rw [hcol] at hliveeq
    by_cases hgl2 : (heAt m g).isSome
    · apply heAt_eq_of_fields
      · unfold liveHE at hliveeq
        rw [hliveeq]
        exact hgl2
      · exact hgl2
      · rw [vertexOf_removeV,
          vertexOf_removeHE_ne _ _ _ (show g ≠ m.halfedges.length from by omega),
          vertexOf_removeHE_ne _ _ _ (show g ≠ m.halfedges.length + 1 from by omega),
          vertexOf_setVH, vertexOf_setNext, vertexOf_setNext,
          vertexOf_setVertexField_ne _ _ _ _ (show g ≠ m.halfedges.length + 1 from by omega)]
        by_cases hgh : g = h
        · rw [hgh, vertexOf_setVertexField_self _ _ _ (hliveM1 h hlh), hv]
        · rw [vertexOf_setVertexField_ne _ _ _ _ hgh,
            divideWrites_vertexOf m h t h_l_prev h_r_next v w (G.lerp pv pw tq) hlh hlt hlne,
            if_neg (show ¬ g = m.halfedges.length from by omega),
            if_neg (show ¬ g = m.halfedges.length + 1 from by omega)]
          by_cases hgt : g = t
          · rw [if_pos hgt, hgt, hwt]
          · rw [if_neg hgt, if_neg hgh]
      · rw [faceOf_removeV,
          faceOf_removeHE_ne _ _ _ (show g ≠ m.halfedges.length from by omega),
          faceOf_removeHE_ne _ _ _ (show g ≠ m.halfedges.length + 1 from by omega),
          faceOf_setVH, faceOf_setNext, faceOf_setNext, faceOf_setVertexField,
          faceOf_setVertexField, divideWrites_faceOf,
          if_neg (show ¬ g = m.halfedges.length + 1 from by omega),
          if_neg (show ¬ g = m.halfedges.length from by omega)]
      · rw [twinOf_removeV,
          twinOf_removeHE_ne _ _ _ (show g ≠ m.halfedges.length from by omega),
          twinOf_removeHE_ne _ _ _ (show g ≠ m.halfedges.length + 1 from by omega),
          twinOf_setVH, twinOf_setNext, twinOf_setNext, twinOf_setVertexField,
          twinOf_setVertexField,
          divideWrites_twinOf m h t h_l_prev h_r_next v w (G.lerp pv pw tq) hlh hlt hlne]
        by_cases hgt : g = t
        · rw [if_pos hgt, hgt, hback]
        · rw [if_neg hgt]
          by_cases hgh : g = h
          · rw [if_pos hgh, hgh, htw]
          · rw [if_neg hgh, if_neg (show ¬ g = m.halfedges.length + 1 from by omega),
              if_neg (show ¬ g = m.halfedges.length from by omega)]
      · rw [nextOf_removeV,
          nextOf_removeHE_ne _ _ _ (show g ≠ m.halfedges.length from by omega),
          nextOf_removeHE_ne _ _ _ (show g ≠ m.halfedges.length + 1 from by omega),
          nextOf_setVH]
        by_cases hgp : g = h_l_prev
        · rw [hgp, nextOf_setNext_self, hprevn]
          show liveHE _ _ = true
          rw [liveHE_setNext, liveHE_setVertexField, liveHE_setVertexField]
          exact hliveM1 h_l_prev hlp
        · rw [nextOf_setNext_ne _ _ _ _ hgp]
          by_cases hgt : g = t
          · rw [hgt, nextOf_setNext_self, hnext0]
            show liveHE _ _ = true
            rw [liveHE_setVertexField, liveHE_setVertexField]
            exact hliveM1 t hlt
          · rw [nextOf_setNext_ne _ _ _ _ hgt, nextOf_setVertexField,
              nextOf_setVertexField,
              divideWrites_nextOf m h t h_l_prev h_r_next v w (G.lerp pv pw tq) hlt hlp,
              if_neg (show ¬ g = m.halfedges.length + 1 from by omega),
              if_neg hgt, if_neg hgp,
              if_neg (show ¬ g = m.halfedges.length from by omega)]
    · have h1 : heAt m g = none := Option.not_isSome_iff_eq_none.mp hgl2
      rw [h1]
      apply Option.not_isSome_iff_eq_none.mp
      intro hc
      unfold liveHE at hliveeq
      rw [hliveeq] at hc
      exact hgl2 hc
  · rw [hm, hcol, heAt_removeV, heAt_remove_self]
  · rw [hm, hcol, heAt_removeV,
      heAt_remove_ne _ _ _ (show m.halfedges.length + 1 ≠ m.halfedges.length from by omega),
      heAt_remove_self]
  · rw [hm, hcol, faces_removeV, faces_removeHE, faces_removeHE, faces_setVH,
      faces_setNext, faces_setNext, faces_setVertexField, faces_setVertexField,
      divideWrites_faces]
  · intro u hu hunv
    rw [hm, hcol]
    rw [vAt_removeV_ne _ _ _ (show u ≠ m.vertices.length from by omega), vAt_removeHE,
      vAt_removeHE, vAt_setVH_ne _ _ _ _ hunv, vAt_setNext, vAt_setNext,
      vAt_setVertexField, vAt_setVertexField,
      divideWrites_vAt m h t h_l_prev h_r_next v w (G.lerp pv pw tq) hvv, if_neg hunv,
      if_neg (show ¬ u = m.vertices.length from by omega)]
  · rw [hm, hcol]
    exact vAt_removeV_self _ _
  · rw [hm, hcol]
    rw [vAt_removeV_ne _ _ _ (show v ≠ m.vertices.length from by omega), vAt_removeHE,
      vAt_removeHE, vAt_setVH_self, vAt_setNext, vAt_setNext, vAt_setVertexField,
      vAt_setVertexField, divideWrites_vAt m h t h_l_prev h_r_next v w (G.lerp pv pw tq) hvv,
      if_pos rfl, hvd]
    rfl

/-- Witness for C9: the tetrahedron, half-edge 0 (twin 8, faces 0 and 2).
Dividing it and collapsing the fresh edge 12 returns vertex 0 and restores
the mesh as described. -/
theorem c9_witness :
    coreInv tetra = true ∧ twinOf tetra 0 = some 8 ∧ faceOf tetra 0 = some 0 ∧
    faceOf tetra 8 = some 2 ∧ (0 : Nat) ≠ 2 ∧
    (divideEdge UGeom tetra 0 0).1 = .ok 4 ∧
    (∃ v w h_l_prev h_r_next,
      vertexOf tetra 0 = some v ∧ dstOf tetra 0 = some w ∧
      prevOf tetra 0 = some h_l_prev ∧ nextOf tetra 8 = some h_r_next ∧
      (collapseEdge (divideEdge UGeom tetra 0 0).2 tetra.halfedges.length).1 = .ok v ∧
      (∀ g, g < tetra.halfedges.length →
        heAt (collapseEdge (divideEdge UGeom tetra 0 0).2 tetra.halfedges.length).2 g
          = heAt tetra g) ∧
      heAt (collapseEdge (divideEdge UGeom tetra 0 0).2 tetra.halfedges.length).2
        tetra.halfedges.length = none ∧
      heAt (collapseEdge (divideEdge UGeom tetra 0 0).2 tetra.halfedges.length).2
        (tetra.halfedges.length + 1) = none ∧
      (collapseEdge (divideEdge UGeom tetra 0 0).2 tetra.halfedges.length).2.faces
        = tetra.faces ∧
      (∀ u, u < tetra.vertices.length → u ≠ v →
        vAt (collapseEdge (divideEdge UGeom tetra 0 0).2 tetra.halfedges.length).2 u
          = vAt tetra u) ∧
      vAt (collapseEdge (divideEdge UGeom tetra 0 0).2 tetra.halfedges.length).2
        tetra.vertices.length = none ∧
      vAt (collapseEdge (divideEdge UGeom tetra 0 0).2 tetra.halfedges.length).2 v
        = (vAt tetra v).map (fun vd => { vd with halfedge := some h_r_next })) := by
  refine ⟨by decide, by decide, by decide, by decide, by decide, by decide, ?_⟩
  exact c9_divide_collapse_roundtrip UGeom tetra 0 0 4 8 0 2 (by decide) (by decide)
    (by decide) (by decide) (by decide) (by decide)
